import Mathlib

/-!
# Bill crawler: sync decision gate, dedup filter and listing walker

A shallow embedding of `src/main.ts`, `src/prevent-reupload.js` and
`src/routes.ts`.  Calls into external collaborators (the page renderer, the
vector store SDK, the file system, `JSON.parse`) are represented by the value
they return or the exception they raise, supplied as data.
-/

namespace Lexcalibur

/-! ## Values -/

/-- JSON values, as returned by `JSON.parse`; an object lists its own
properties, each key once. -/
inductive Json where
  | null
  | bool (b : Bool)
  | num (n : Int)
  | str (s : String)
  | arr (items : List Json)
  | obj (fields : List (String × Json))

/-- Property read `data.key` on a parsed value; `none` stands for `undefined`. -/
def Json.field (j : Json) (key : String) : Option Json :=
  match j with
  | .obj fields => fields.lookup key
  | _ => none

/-- A file on disk as seen through `readFileSync` followed by `JSON.parse`:
`none` when reading or parsing throws. -/
abbrev StoredFile := Option Json

/-! ## prevent-reupload.js -/

/-- Name of the index, `INDEX_NAME`. -/
def INDEX_NAME : String := "bill-tracker"

/-- Reply of `describeIndexStats`; the count field may be missing. -/
structure IndexStats where
  totalRecordCount : Option Int

/-- Replies of the vector store during one probe.  `listIndexes` yields the
names of the listed indexes (`none` when the `indexes` field is undefined). -/
structure Store where
  listIndexes : Except String (Option (List String))
  describeIndexStats : Except String IndexStats

/-- Source: `preventReupload` (prevent-reupload.js 17-102).  `saveOk` tells
whether creating the metadata directory and writing `pinecone_metadata.json`
succeed.  Returns whether a re-upload is needed. -/
def preventReupload (store : Store) (saveOk : Bool) : Bool :=
  match store.listIndexes with
  | .error _ => true
  | .ok indexList =>
    let indexes := indexList.getD []
    match indexes.find? (fun name => name == INDEX_NAME) with
    | none => true
    | some _ =>
      match store.describeIndexStats with
      | .error _ => true
      | .ok stats =>
        if saveOk then
          match stats.totalRecordCount with
          | some n => if n > 0 then false else true
          | none => true
        else true

/-! ## main.ts -/

/-- Actor input with the defaults of `runCrawler` (main.ts 269-276). -/
structure Input where
  startUrls : List String :=
    ["https://www.nysenate.gov/search/legislation?type=bill&session_year=2025&status=SIGNED_BY_GOV&is_active_version=1"]
  maxRequestsPerCrawl : Nat := 100
  forceRun : Bool := false
  setupRagApi : Bool := false

/-- Observable actions of one run of `runCrawler`, in program order. -/
inductive Effect where
  | crawlerRun (startUrls : List String) (maxRequestsPerCrawl : Nat)
  | saveBillCount (count : Int)
  | uploadDatasetToPinecone (items : List Json)
  | setupRagServer
  | actorExit

/-- Whether the action is the crawl `crawler.run(startUrls)`. -/
def Effect.isCrawl : Effect → Bool
  | .crawlerRun _ _ => true
  | _ => false

/-- Whether the action is a call of `uploadDatasetToPinecone`. -/
def Effect.isUpload : Effect → Bool
  | .uploadDatasetToPinecone _ => true
  | _ => false

/-- What the collaborators return during one run of `runCrawler`. -/
structure Env where
  /-- result of `getCurrentBillCount()` -/
  currentBillCount : Int
  /-- result of `getPineconeRecordCount()` -/
  pineconeRecordCount : Int
  /-- `bill_metadata.json` when the run starts (`none`: no such file) -/
  billMetadata : Option StoredFile
  /-- `new Date().toISOString()` -/
  now : String
  /-- outcome of `crawler.run(startUrls)` -/
  crawl : Except String Unit
  /-- store replies seen by `preventReupload` -/
  store : Store
  /-- whether `preventReupload` can write its metadata file -/
  saveOk : Bool
  /-- outcome of `Dataset.open()` and `getData()`: the items -/
  datasetItems : Except String (List Json)
  /-- outcome of `uploadDatasetToPinecone(items)` -/
  upload : List Json → Except String Unit

/-- State threaded through `runCrawler`. -/
structure RunState where
  effects : List Effect
  billMetadata : Option StoredFile
  /-- the promise returned by `runCrawler` rejected -/
  rejected : Bool

/-- Source: `saveBillCount` (main.ts 82-103). -/
def saveBillCount (now : String) (count : Int) (st : RunState) : RunState :=
  { st with
    effects := st.effects ++ [Effect.saveBillCount count]
    billMetadata :=
      some (some (Json.obj [("billCount", Json.num count), ("lastUpdated", Json.str now)])) }

/-- Source: `handlePineconeUpload` (main.ts 226-258).  Every exception is
caught and logged, so the function always returns normally. -/
def handlePineconeUpload (env : Env) (st : RunState) : RunState :=
  let reuploadNeeded := preventReupload env.store env.saveOk
  if reuploadNeeded then
    match env.datasetItems with
    | .error _ => st
    | .ok items =>
      if items.length > 0 then
        let st := { st with effects := st.effects ++ [Effect.uploadDatasetToPinecone items] }
        match env.upload items with
        | .ok _ => st
        | .error _ => st  -- caught and logged
      else st
  else st

/-- Steps 9 and 10 of `runCrawler`: start the server or exit the actor. -/
def finish (input : Input) (st : RunState) : RunState :=
  if input.setupRagApi then
    { st with effects := st.effects ++ [Effect.setupRagServer] }
  else
    { st with effects := st.effects ++ [Effect.actorExit] }

/-- The decision of main.ts 287-301: `shouldRun` starts as `forceRun` and is
then assigned in both branches of the comparison. -/
def shouldRun (forceRun : Bool) (currentBillCount pineconeRecordCount : Int) : Bool := Id.run do
  let mut shouldRun := forceRun
  if currentBillCount > pineconeRecordCount then
    shouldRun := true
  else
    shouldRun := false
  return shouldRun

/-- Source: `runCrawler` (main.ts 261-371). -/
def runCrawler (input : Input) (env : Env) : RunState :=
  let currentBillCount := env.currentBillCount
  let pineconeRecordCount := env.pineconeRecordCount
  let st : RunState := { effects := [], billMetadata := env.billMetadata, rejected := false }
  if !shouldRun input.forceRun currentBillCount pineconeRecordCount then
    let st := if currentBillCount > 0 then saveBillCount env.now currentBillCount st else st
    finish input st
  else
    let st := { st with
      effects := st.effects ++ [Effect.crawlerRun input.startUrls input.maxRequestsPerCrawl] }
    match env.crawl with
    | .error _ => { st with rejected := true }
    | .ok _ =>
      let st := if currentBillCount > 0 then saveBillCount env.now currentBillCount st else st
      let st := handlePineconeUpload env st
      finish input st

/-- The crawl was started during the run. -/
def crawled (st : RunState) : Bool := st.effects.any Effect.isCrawl

/-- The function `uploadDatasetToPinecone` was called during the run. -/
def uploadAttempted (st : RunState) : Bool := st.effects.any Effect.isUpload

/-- The `billCount` field of the persisted sync state, if the file exists,
parses and has an integer there. -/
def persistedBillCount (file : Option StoredFile) : Option Int :=
  match file with
  | some (some j) =>
    match j.field "billCount" with
    | some (Json.num n) => some n
    | _ => none
  | _ => none

/-- Whether the action is `Actor.exit()`. -/
def Effect.isExit : Effect → Bool
  | .actorExit => true
  | _ => false

/-- How the process stands once `runCrawler()` (main.ts 397, called without a
`catch`) has settled: ended by `Actor.exit()` with its default status 0, kept
alive by the RAG server, or ended by the unhandled rejection of the promise,
which gives a non-zero status. -/
inductive ProcessEnd where
  | exited (code : Nat)
  | serving
  | unhandledRejection
deriving DecidableEq, Repr

/-- The end of the process after a run. -/
def processEnd (st : RunState) : ProcessEnd :=
  if st.rejected then ProcessEnd.unhandledRejection
  else if st.effects.any Effect.isExit then ProcessEnd.exited 0
  else ProcessEnd.serving

/-! ## String helpers used by routes.ts -/

/-- White space and line terminators removed by `String.prototype.trim`. -/
def isJsWhiteSpace (c : Char) : Bool :=
  let n := c.toNat
  n == 0x9 || n == 0xA || n == 0xB || n == 0xC || n == 0xD || n == 0x20 || n == 0xA0 ||
  n == 0x1680 || (0x2000 ≤ n && n ≤ 0x200A) || n == 0x2028 || n == 0x2029 ||
  n == 0x202F || n == 0x205F || n == 0x3000 || n == 0xFEFF

/-- `String.prototype.trim`. -/
def trim (s : String) : String :=
  String.mk ((s.toList.dropWhile isJsWhiteSpace).reverse.dropWhile isJsWhiteSpace).reverse

/-- `String.prototype.toLowerCase` on the ASCII letters; other characters are
kept.  The handlers only search the result for the ASCII word "signed". -/
def toLowerCase (s : String) : String := String.mk (s.toList.map Char.toLower)

/-- Whether `pat` is an initial segment of `cs`. -/
def startsWithChars : List Char → List Char → Bool
  | _, [] => true
  | [], _ :: _ => false
  | c :: cs, p :: ps => c == p && startsWithChars cs ps

/-- Whether `pat` occurs in `cs` as a contiguous block. -/
def includesChars : List Char → List Char → Bool
  | [], pat => pat.isEmpty
  | c :: cs, pat => startsWithChars (c :: cs) pat || includesChars cs pat

/-- `String.prototype.includes`. -/
def includes (s pat : String) : Bool := includesChars s.toList pat.toList

/-! ## routes.ts: dedup scan -/

/-- The directory `storage/datasets/default`: `none` when it does not exist,
otherwise its files in `readdirSync` order. -/
abbrev DatasetDir := Option (List StoredFile)

/-- Body of the `try` in the scan loop (routes.ts 27-36): `true` when
`data.billTitle === billTitle`.  A file that cannot be read or parsed, and a
file holding `null` (whose property read throws), land in the `catch`. -/
def fileHasTitle (file : StoredFile) (billTitle : String) : Bool :=
  match file with
  | none => false
  | some Json.null => false
  | some data =>
    match data.field "billTitle" with
    | some (Json.str s) => s == billTitle
    | _ => false

/-- The `for (const file of files)` loop of `billExistsInDataset`. -/
def scanFiles (files : List StoredFile) (billTitle : String) : Bool :=
  match files with
  | [] => false
  | file :: rest => if fileHasTitle file billTitle then true else scanFiles rest billTitle

/-- Source: `billExistsInDataset` (routes.ts 8-40). -/
def billExistsInDataset (dir : DatasetDir) (billTitle : String) : Bool :=
  match dir with
  | none => false
  | some files => scanFiles files billTitle

/-! ## routes.ts: requests and pages -/

/-- The `userData` a detail request carries. -/
structure UserData where
  billTitle : String
  description : String
  issuedDate : String
deriving DecidableEq, Repr

/-- A request handed to `crawler.addRequests`.  `userData` is read only by the
BILL_DETAIL handler, whose requests always carry the three strings; for other
requests the strings are empty. -/
structure Request where
  url : String
  uniqueKey : Option String
  label : Option String
  userData : UserData
deriving DecidableEq, Repr

/-- The title anchor `h3.c-bill-num a` of an entry: its text and its `href`
property (the empty string when the anchor has no link). -/
structure Anchor where
  textContent : Option String
  href : String
deriving DecidableEq, Repr

/-- One `article.c-block` element.  For the description and date the outer
option tells whether the element exists, the inner one is its `textContent`. -/
structure Article where
  titleAnchor : Option Anchor
  descEl : Option (Option String)
  dateEl : Option (Option String)
deriving DecidableEq, Repr

/-- A listing page: its URL, its `article.c-block` elements in document order,
and the element `li.pager__item--next a` with its `href` attribute. -/
structure ListingPage where
  url : String
  articles : List Article
  nextLink : Option (Option String)
deriving DecidableEq, Repr

/-- One row of `.c-bill--actions-table`: the date and action cells. -/
structure ActionRow where
  dateEl : Option (Option String)
  actionEl : Option (Option String)
deriving DecidableEq, Repr

/-- A detail page: whether `.c-detail--header__bill` is there, the download
link with its `href` attribute, the status flag with its text, the action rows. -/
structure DetailPage where
  header : Bool
  pdfLinkEl : Option (Option String)
  statusEl : Option (Option String)
  actionRows : List ActionRow
deriving DecidableEq, Repr

/-- `el?.textContent?.trim() ?? ""`. -/
def trimmedText (el : Option (Option String)) : String :=
  match el with
  | some (some text) => trim text
  | _ => ""

/-! ## routes.ts: default handler (listing page) -/

/-- Body of the loop over the articles (routes.ts 57-90): the results array
after one more article. -/
def scrapeArticle (results : List Request) (article : Article) : List Request :=
  match article.titleAnchor with
  | none => results
  | some titleAnchor =>
    let billTitle := trimmedText (some titleAnchor.textContent)
    let billUrl := titleAnchor.href
    let description := trimmedText article.descEl
    let issuedDate := trimmedText article.dateEl
    if billUrl ≠ "" then
      results ++ [{ url := billUrl, uniqueKey := some billTitle, label := some "BILL_DETAIL",
                    userData := { billTitle := billTitle, description := description,
                                  issuedDate := issuedDate } }]
    else results

/-- The callback of `page.$$eval("article.c-block", ...)` (routes.ts 54-92). -/
def scrapeArticles (articles : List Article) : List Request :=
  articles.foldl scrapeArticle []

/-- What a handler did: the requests passed to `crawler.addRequests`, in call
order, and whether the handler threw. -/
structure ListingRun where
  added : List Request
  threw : Bool
deriving DecidableEq, Repr

/-- Source: the default handler (routes.ts 45-116).  `resolveUrl href base` is
`new URL(href, base).toString()`, `none` when the constructor throws.
`waitForSelector` fails when the page has no `article.c-block`. -/
def defaultHandler (resolveUrl : String → String → Option String) (page : ListingPage) :
    ListingRun :=
  if page.articles.isEmpty then { added := [], threw := true }
  else
    let requestsToEnqueue := scrapeArticles page.articles
    let added := if requestsToEnqueue.length > 0 then requestsToEnqueue else []
    match page.nextLink with
    | some (some href) =>
      if href ≠ "" then
        match resolveUrl href page.url with
        | some absoluteUrl =>
          { added := added ++ [{ url := absoluteUrl, uniqueKey := none, label := some "LISTING",
                                 userData := { billTitle := "", description := "",
                                               issuedDate := "" } }],
            threw := false }
        | none => { added := added, threw := true }
      else { added := added, threw := false }
    | some none => { added := added, threw := false }
    | none => { added := added, threw := false }

/-! ## routes.ts: BILL_DETAIL handler -/

/-- The record given to `Dataset.pushData` (routes.ts 163-171).  `status` is
`none` when the flag has no text, `pdfUrl` is `none` for `null`. -/
structure BillRecord where
  detailPageUrl : String
  billTitle : String
  description : String
  status : Option String
  pdfUrl : Option String
  signedDate : String
  issuedDate : String
deriving DecidableEq, Repr

/-- The loop over the action rows (routes.ts 146-160): the first row that has
both cells and whose lower-cased action text includes "signed" gives the date. -/
def findSignedDate (actionRows : List ActionRow) : String :=
  match actionRows with
  | [] => ""
  | row :: rest =>
    match row.dateEl, row.actionEl with
    | some dateEl, some actionEl =>
      let dateText := match dateEl with
        | some text => trim text
        | none => ""
      let actionText := match actionEl with
        | some text => toLowerCase text
        | none => ""
      if includes actionText "signed" then dateText else findSignedDate rest
    | _, _ => findSignedDate rest

/-- The record as stored by `Dataset.pushData`: `JSON.stringify` leaves out an
undefined `status` and writes `null` for a missing `pdfUrl`. -/
def BillRecord.toJson (r : BillRecord) : Json :=
  Json.obj
    ([("detailPageUrl", Json.str r.detailPageUrl),
      ("billTitle", Json.str r.billTitle),
      ("description", Json.str r.description)] ++
     (match r.status with
      | some s => [("status", Json.str s)]
      | none => []) ++
     [("pdfUrl", match r.pdfUrl with
        | some u => Json.str u
        | none => Json.null),
      ("signedDate", Json.str r.signedDate),
      ("issuedDate", Json.str r.issuedDate)])

/-- `Dataset.pushData(record)`: one more file in the dataset directory. -/
def pushData (dir : DatasetDir) (r : BillRecord) : DatasetDir :=
  some (dir.getD [] ++ [some r.toJson])

/-- What the BILL_DETAIL handler did: the dataset directory afterwards, the
record it pushed if any, and whether it threw. -/
structure DetailRun where
  dir : DatasetDir
  pushed : Option BillRecord
  threw : Bool

/-- The extraction part of the BILL_DETAIL handler (routes.ts 137-171): the
record built from the request and the loaded detail page. -/
def detailRecord (request : Request) (page : DetailPage) : BillRecord :=
  let billTitle := request.userData.billTitle
  let description := request.userData.description
  let issuedDate := request.userData.issuedDate
  let pdfUrl := match page.pdfLinkEl with
    | some href => href
    | none => none
  let status := match page.statusEl with
    | some text => text.map trim
    | none => some ""
  let signedDate := findSignedDate page.actionRows
  { detailPageUrl := request.url, billTitle := billTitle, description := description,
    status := status, pdfUrl := pdfUrl, signedDate := signedDate, issuedDate := issuedDate }

/-- Source: the BILL_DETAIL handler (routes.ts 121-174).  `waitForSelector`
fails when the page has no `.c-detail--header__bill`. -/
def billDetailHandler (dir : DatasetDir) (request : Request) (page : DetailPage) : DetailRun :=
  let billTitle := request.userData.billTitle
  let billExists := billExistsInDataset dir billTitle
  if billExists then { dir := dir, pushed := none, threw := false }
  else if !page.header then { dir := dir, pushed := none, threw := true }
  else
    let record := detailRecord request page
    { dir := pushData dir record, pushed := some record, threw := false }

/-- A detail request together with the page the browser shows for it. -/
structure DetailTask where
  request : Request
  page : DetailPage

/-- The handler applied to the tasks one after the other; a task whose handler
throws leaves the directory as it was and the next task is taken. -/
def processTasks (dir : DatasetDir) (tasks : List DetailTask) : DatasetDir :=
  tasks.foldl (fun d task => (billDetailHandler d task.request task.page).dir) dir

/-- The string titles of the parseable object records of the directory. -/
def sinkTitles (dir : DatasetDir) : List String :=
  (dir.getD []).filterMap fun file =>
    match file with
    | some (Json.obj fields) =>
      match fields.lookup "billTitle" with
      | some (Json.str s) => some s
      | _ => none
    | _ => none

/-- A task is settled in a directory when its handler has nothing left to do:
the title is there, or the page never shows its header. -/
def settled (dir : DatasetDir) (task : DetailTask) : Prop :=
  billExistsInDataset dir task.request.userData.billTitle = true ∨ task.page.header = false

/-! ## The listing walk as the spec words it -/

/-- Follows the spec: the one detail request of an entry that has a title
anchor with a non-empty link, carrying the trimmed listing texts; nothing for
an entry without anchor or without link. -/
def entryRequest (article : Article) : Option Request :=
  match article.titleAnchor with
  | none => none
  | some anchor =>
    if anchor.href = "" then none
    else
      some { url := anchor.href
             uniqueKey := some (trimmedText (some anchor.textContent))
             label := some "BILL_DETAIL"
             userData :=
               { billTitle := trimmedText (some anchor.textContent)
                 description := trimmedText article.descEl
                 issuedDate := trimmedText article.dateEl } }

/-- The requests among `added` that carry the label BILL_DETAIL. -/
def detailRequests (added : List Request) : List Request :=
  added.filter fun r => r.label == some "BILL_DETAIL"

/-- The requests among `added` that do not carry the label BILL_DETAIL: the
further listing pages. -/
def listingRequests (added : List Request) : List Request :=
  added.filter fun r => !(r.label == some "BILL_DETAIL")

/-- The request the default handler builds for the next listing page. -/
def nextPageRequest (absoluteUrl : String) : Request :=
  { url := absoluteUrl, uniqueKey := none, label := some "LISTING",
    userData := { billTitle := "", description := "", issuedDate := "" } }

/-! ## Following the pagination

The crawling library is not part of the repository.  What the repository
decides is which further listing pages the default handler asks for; the
definitions below follow these requests from page to page. -/

/-- The URLs of the further listing pages the default handler asks for on a
page, in call order. -/
def requestedListingUrls (resolveUrl : String → String → Option String)
    (page : ListingPage) : List String :=
  (listingRequests (defaultHandler resolveUrl page).added).map fun r => r.url

/-- The listing pages reached from `url` by handling a page and going on to
the listing page its handler asks for, `listing` being the page shown for a
URL.  `steps` bounds the number of pages handled; the walk ends before that
when a handler asks for no further listing page. -/
def listingWalk (resolveUrl : String → String → Option String)
    (listing : String → ListingPage) : Nat → String → List String
  | 0, _ => []
  | steps + 1, url =>
    url :: match requestedListingUrls resolveUrl (listing url) with
      | [] => []
      | next :: _ => listingWalk resolveUrl listing steps next

/-- Whether the next link of `p` resolves to the URL of `q`. -/
def linksTo (resolveUrl : String → String → Option String) (p q : ListingPage) : Bool :=
  match p.nextLink with
  | some (some href) => href != "" && resolveUrl href p.url == some q.url
  | _ => false

/-- A synthetic listing: every page but the last links to the following page,
and the last page has no next link. -/
def paginated (resolveUrl : String → String → Option String) : List ListingPage → Bool
  | [] => true
  | [p] => p.nextLink.isNone
  | p :: q :: rest => linksTo resolveUrl p q && paginated resolveUrl (q :: rest)

/-! ## main.ts: source count probe -/

/-- One `.c-stat` element: its text, and the `.c-stat--descript` element found
through the closest `.c-carousel--item` (the outer option tells whether there
is one, the inner one is its `textContent`). -/
structure StatElement where
  textContent : String
  descript : Option (Option String)
deriving DecidableEq, Repr

/-- The callback of `page.evaluate` (main.ts 142-162): the text of the first
statistic whose description includes "signed into law" once lower-cased, "0"
when that text is empty or no statistic qualifies. -/
def billCountText : List StatElement → String
  | [] => "0"
  | element :: rest =>
    match element.descript with
    | some (some text) =>
      if text ≠ "" && includes (toLowerCase text) "signed into law" then
        if element.textContent ≠ "" then element.textContent else "0"
      else billCountText rest
    | _ => billCountText rest

/-- The number a run of decimal digits denotes. -/
def digitsValue (digits : List Char) : Nat :=
  digits.foldl (fun acc c => 10 * acc + (c.toNat - 48)) 0

/-- The integers a Number holds exactly whatever their digits: those of
magnitude at most 2^53. -/
def isExactNumber (n : Int) : Bool := decide (n.natAbs ≤ 2 ^ 53)

/-- Steps 9 to 16 of `parseInt` for radix 10, after white space and sign are
gone: the longest run of digits at the start, `none` (NaN) when it is empty. -/
def parseIntDigits (rest : List Char) (negative : Bool) : Option Int :=
  let digits := rest.takeWhile Char.isDigit
  if digits.isEmpty then none
  else some (if negative then -(digitsValue digits : Int) else (digitsValue digits : Int))

/-- `parseInt(s, 10)`; `none` stands for NaN.  The result is the integer the
digits denote (`mathInt` in the language standard).  JavaScript returns the
Number for it, which is that integer when `isExactNumber` holds and a rounded
double or Infinity otherwise: statements about the value of long digit runs
carry `isExactNumber` as a hypothesis. -/
def parseInt (s : String) : Option Int :=
  match s.toList.dropWhile isJsWhiteSpace with
  | [] => parseIntDigits [] false
  | c :: rest =>
    if c = '-' then parseIntDigits rest true
    else if c = '+' then parseIntDigits rest false
    else parseIntDigits (c :: rest) false

/-- The assignment `billCount = parseInt(billCountText.trim(), 10) || 0`
(main.ts 165). -/
def parseBillCount (billCountText : String) : Int :=
  match parseInt (trim billCountText) with
  | some n => if n ≠ 0 then n else 0
  | none => 0

/-- How the one-page probe crawl went: `checkCrawler.run` rejected, or it
resolved without the handler ever getting a page, or the handler ran on a page
with these `.c-stat` elements. -/
inductive ProbeRun where
  | crashed (error : String)
  | notHandled
  | handled (stats : List StatElement)
deriving DecidableEq, Repr

/-- Source: `getCurrentBillCount` (main.ts 129-178).  `billCount` starts at 0;
the handler assigns it unless `waitForSelector(".c-stat")` fails, which the
crawler records as a failed request without rejecting `run`. -/
def getCurrentBillCount (run : ProbeRun) : Int :=
  match run with
  | .crashed _ => -1
  | .notHandled => 0
  | .handled stats =>
    if stats.isEmpty then 0
    else parseBillCount (billCountText stats)

/-- Follows the spec: the description of the statistic contains "signed into
law", letter case ignored. -/
def isSignedIntoLaw (element : StatElement) : Bool :=
  match element.descript with
  | some (some text) => includes (toLowerCase text) "signed into law"
  | _ => false

/-- Follows the spec: the text of the first statistic keyed to the label, "0"
when it is empty or when no statistic has the label. -/
def expectedCountText (stats : List StatElement) : String :=
  match stats.find? isSignedIntoLaw with
  | some element => if element.textContent ≠ "" then element.textContent else "0"
  | none => "0"

/-- Follows the spec: the integer denoted by the first run of decimal digits
anywhere in the text, 0 when the text has no digit. -/
def firstDigitRun (text : String) : Int :=
  (digitsValue ((text.toList.dropWhile fun c => !c.isDigit).takeWhile Char.isDigit) : Int)

/-! ## pinecone-service.ts -/

/-- JavaScript truthiness of a parsed value. -/
def Json.truthy : Json → Bool
  | .null => false
  | .bool b => b
  | .num n => n != 0
  | .str s => s != ""
  | .arr _ => true
  | .obj _ => true

/-- `replace(/\s+/g, "-")` on the characters: every maximal run of white
space becomes one hyphen.  `inRun` tells that the previous character was white
space. -/
def replaceWhitespaceRuns (inRun : Bool) : List Char → List Char
  | [] => []
  | c :: cs =>
    if isJsWhiteSpace c then
      if inRun then replaceWhitespaceRuns true cs else '-' :: replaceWhitespaceRuns true cs
    else c :: replaceWhitespaceRuns false cs

/-- `title.replace(/\s+/g, "-")`. -/
def replaceWhitespace (title : String) : String :=
  String.mk (replaceWhitespaceRuns false title.toList)

/-- The constant `BATCH_SIZE` of `uploadDatasetToPinecone`. -/
abbrev BATCH_SIZE : Nat := 100

/-- The `metadata` of a vector; `none` stands for `undefined`. -/
structure Metadata where
  billTitle : Option Json
  description : Option Json
  url : Option Json
  issuedDate : Option Json
  content : Json

/-- One vector handed to `index.upsert`. -/
structure VectorRecord where
  id : String
  values : List Rat
  metadata : Metadata

/-- What the collaborators of `uploadDatasetToPinecone` return during one
call: the outcome of `initializePineconeIndex`, the random embedding and the
timestamp-and-random fallback id drawn for the record at a position of the
list, and the outcome of the upsert call with a given number (from 0). -/
structure UploadEnv where
  initializePineconeIndex : Except String Unit
  generateEmbeddings : Nat → List Rat
  fallbackId : Nat → String
  upsert : Nat → Except String Unit

/-- The `id` expression of a vector (pinecone-service.ts 134-138).  `toLower`
is `String.prototype.toLowerCase`.  A truthy `billTitle` that is not a string
has no `replace` method. -/
def vectorId (toLower : String → String) (env : UploadEnv) (position : Nat) (bill : Json) :
    Except String String :=
  match bill.field "billTitle" with
  | some title =>
    if title.truthy then
      match title with
      | Json.str s => .ok (toLower (replaceWhitespace s))
      | _ => .error "TypeError: bill.billTitle.replace is not a function"
    else .ok (env.fallbackId position)
  | none => .ok (env.fallbackId position)

/-- The `metadata` object of a vector (pinecone-service.ts 140-146). -/
def vectorMetadata (bill : Json) : Metadata :=
  { billTitle := bill.field "billTitle"
    description := bill.field "description"
    url := bill.field "url"
    issuedDate := bill.field "issuedDate"
    content := match bill.field "content" with
      | some content => if content.truthy then content else Json.str ""
      | none => Json.str "" }

/-- The callback of `batch.map` (pinecone-service.ts 124-148) for the record
at `position`.  Reading a property of `null` throws. -/
def buildVector (toLower : String → String) (env : UploadEnv) (position : Nat) (bill : Json) :
    Except String VectorRecord :=
  match bill with
  | Json.null => .error "TypeError: Cannot read properties of null (reading 'billTitle')"
  | _ =>
    match vectorId toLower env position bill with
    | .error e => .error e
    | .ok id =>
      .ok { id := id, values := env.generateEmbeddings position,
            metadata := vectorMetadata bill }

/-- `Promise.all(batch.map(...))`: the vectors of the batch in order, or the
first error.  `position` is the place of the first record of the batch in the
whole list. -/
def buildVectors (toLower : String → String) (env : UploadEnv) (position : Nat) :
    List Json → Except String (List VectorRecord)
  | [] => .ok []
  | bill :: rest =>
    match buildVector toLower env position bill with
    | .error e => .error e
    | .ok v =>
      match buildVectors toLower env (position + 1) rest with
      | .error e => .error e
      | .ok vs => .ok (v :: vs)

/-- What one call of `uploadDatasetToPinecone` did: the batches handed to
`index.upsert`, in call order (a call that failed included), and how the
function ended. -/
structure UploadRun where
  upserts : List (List VectorRecord)
  outcome : Except String Unit

/-- The loop `for (let i = 0; i < bills.length; i += BATCH_SIZE)`
(pinecone-service.ts 119-164), from index `i`, after the calls in `upserts`. -/
def uploadBatches (toLower : String → String) (env : UploadEnv) (bills : List Json) (i : Nat)
    (upserts : List (List VectorRecord)) : UploadRun :=
  if _h : i < bills.length then
    let batch := (bills.drop i).take BATCH_SIZE
    match buildVectors toLower env i batch with
    | .error e => { upserts := upserts, outcome := .error e }
    | .ok vectors =>
      match env.upsert (i / BATCH_SIZE) with
      | .error e => { upserts := upserts ++ [vectors], outcome := .error e }
      | .ok _ => uploadBatches toLower env bills (i + BATCH_SIZE) (upserts ++ [vectors])
  else { upserts := upserts, outcome := .ok () }
termination_by bills.length - i
decreasing_by
  show bills.length - (i + 100) < bills.length - i
  omega

/-- Source: `uploadDatasetToPinecone` (pinecone-service.ts 110-171).  The
`catch` logs and throws the same error again. -/
def uploadDatasetToPinecone (toLower : String → String) (env : UploadEnv) (bills : List Json) :
    UploadRun :=
  match env.initializePineconeIndex with
  | .error e => { upserts := [], outcome := .error e }
  | .ok _ => uploadBatches toLower env bills 0 []

/-- The destination index as a key-value store: the vector held under an id. -/
abbrev Index := String → Option VectorRecord

/-- `index.upsert(vectors)` when it succeeds: each vector is stored under its
id, replacing what was there. -/
def upsertBatch (index : Index) (vectors : List VectorRecord) : Index :=
  vectors.foldl (fun idx v => Function.update idx v.id (some v)) index

/-- The index after the upsert calls of a run in which every call succeeded. -/
def indexAfter (index : Index) (upserts : List (List VectorRecord)) : Index :=
  upserts.foldl upsertBatch index

/-- The id the upload derives from a record with a string title: white space
runs replaced by hyphens, then lower-cased. -/
def normalizedTitle (toLower : String → String) (bill : Json) : String :=
  match bill.field "billTitle" with
  | some (Json.str s) => toLower (replaceWhitespace s)
  | _ => ""

/-- The string title of a record, the empty string when it has none. -/
def titleOf (bill : Json) : String :=
  match bill.field "billTitle" with
  | some (Json.str s) => s
  | _ => ""

/-- Follows the spec: the batches of a list of `n` vectors are, for `k` below
`ceil(n/100)`, the vectors at positions `100k` up to `min(100k+100, n)-1`. -/
def expectedBatches {α : Type} (all : List α) : List (List α) :=
  (List.range ((all.length + 99) / 100)).map fun k => (all.drop (100 * k)).take 100

/-! ## The signed date as the spec words it -/

/-- Follows the spec: a row counts when it has a date cell and an action cell
and the action text contains "signed", letter case ignored. -/
def isSigningRow (row : ActionRow) : Bool :=
  match row.dateEl, row.actionEl with
  | some _, some (some text) => includes (toLowerCase text) "signed"
  | _, _ => false

/-- Follows the spec: the trimmed date text of the first such row in table
order, the empty string when there is none. -/
def expectedSignedDate (actionRows : List ActionRow) : String :=
  match actionRows.find? isSigningRow with
  | some row => trimmedText row.dateEl
  | none => ""

/-! ## The website probes of the stand-alone scripts -/

/-- What `axios.get` and the selector of a probe give: the request (or the
parsing of its body) threw, or the page was loaded and these are the texts of
the selected elements in document order. -/
inductive WebsiteFetch where
  | failed (error : String)
  | loaded (texts : List String)
deriving DecidableEq, Repr

/-- `text.match(/(\d+)/)`: the first run of decimal digits of the text, `none`
when the text has no digit. -/
def matchDigits (text : String) : Option (List Char) :=
  match (text.toList.dropWhile fun c => !c.isDigit).takeWhile Char.isDigit with
  | [] => none
  | d :: digits => some (d :: digits)

/-- `parseInt(match[1], 10)` on the matched run of digits, which is never NaN. -/
def parseMatch (digits : List Char) : Int :=
  match parseInt (String.mk digits) with
  | some n => n
  | none => 0

/-- `$(selector).first().text().trim()`: the trimmed text of the first selected
element, the empty string when nothing is selected. -/
def firstText (texts : List String) : String :=
  match texts with
  | [] => trim ""
  | text :: _ => trim text

namespace CheckBillCountTs

/-- Source: `getBillCountFromWebsite` (check-bill-count.ts 52-72); the texts
are those of `.c-by-the-numbers h4`.  Without a match the function throws into
its own `catch`. -/
def getBillCountFromWebsite (fetch : WebsiteFetch) : Int :=
  match fetch with
  | .failed _ => 0
  | .loaded texts =>
    let billCountText := firstText texts
    match matchDigits billCountText with
    | some digits => parseMatch digits
    | none => 0

end CheckBillCountTs

namespace CheckBillCountJs

/-- Source: `getBillCountFromWebsite` (check-bill-count.js 52-85); the texts
are those of `h4.c-stat`. -/
def getBillCountFromWebsite (fetch : WebsiteFetch) : Int :=
  match fetch with
  | .failed _ => 89
  | .loaded texts =>
    if texts.length > 0 then
      let firstStatText := firstText texts
      match matchDigits firstStatText with
      | some digits => parseMatch digits
      | none => 89
    else 89

end CheckBillCountJs

namespace CheckScrapeNeeded

/-- Source: `getBillCountFromWebsite` (utils/check-scrape-needed.js 66-91);
the texts are those of `h4.c-stat`. -/
def getBillCountFromWebsite (fetch : WebsiteFetch) : Int :=
  match fetch with
  | .failed _ => 0
  | .loaded texts =>
    if texts.length > 0 then
      let firstStatText := firstText texts
      match matchDigits firstStatText with
      | some digits => parseMatch digits
      | none => 0
    else 0

/-- Source: `getBillCountFromPinecone` (utils/check-scrape-needed.js 99-128). -/
def getBillCountFromPinecone (store : Store) (indexName : String) : Int :=
  match store.listIndexes with
  | .error _ => 0
  | .ok indexList =>
    let indexes := indexList.getD []
    match indexes.find? (fun name => name == indexName) with
    | none => 0
    | some _ =>
      match store.describeIndexStats with
      | .error _ => 0
      | .ok stats =>
        match stats.totalRecordCount with
        | some n => if n ≠ 0 then n else 0
        | none => 0

/-- The object `checkIfScrapingNeeded` resolves to. -/
structure ScrapeCheck where
  needsScraping : Bool
  websiteCount : Int
  pineconeCount : Int
  error : Option String
deriving DecidableEq, Repr

/-- Source: `checkIfScrapingNeeded` (utils/check-scrape-needed.js 12-59).  The
two probes catch every exception themselves, so the body of the `try` runs to
its end and the `catch` with `needsScraping: true` is never entered. -/
def checkIfScrapingNeeded (fetch : WebsiteFetch) (store : Store)
    (indexName : String := "bill-tracker") : ScrapeCheck :=
  let websiteCount := getBillCountFromWebsite fetch
  let pineconeCount := getBillCountFromPinecone store indexName
  let needsScraping := decide (pineconeCount < websiteCount)
  { needsScraping := needsScraping, websiteCount := websiteCount,
    pineconeCount := pineconeCount, error := none }

end CheckScrapeNeeded

/-! ## main.ts: destination count probe and previous count -/

/-- Source: `getPineconeRecordCount` (main.ts 181-223).  A failure to build
the client, to list the indexes or to fetch the statistics lands in the
`catch`. -/
def getPineconeRecordCount (store : Store) : Int :=
  match store.listIndexes with
  | .error _ => 0
  | .ok indexList =>
    let indexes := indexList.getD []
    match indexes.find? (fun name => name == INDEX_NAME) with
    | none => 0
    | some _ =>
      match store.describeIndexStats with
      | .error _ => 0
      | .ok stats =>
        match stats.totalRecordCount with
        | some totalRecordCount =>
          let recordCount := if totalRecordCount ≠ 0 then totalRecordCount else 0
          recordCount
        | none => 0

/-- Source: `getPreviousBillCount` (main.ts 106-126), on `bill_metadata.json`
(`none`: no such file).  The result is `metadata.billCount || -1`, a parsed
value; reading a property of `null` throws into the `catch`. -/
def getPreviousBillCount (file : Option StoredFile) : Json :=
  match file with
  | none => Json.num (-1)
  | some none => Json.num (-1)
  | some (some Json.null) => Json.num (-1)
  | some (some metadata) =>
    match metadata.field "billCount" with
    | some billCount => if billCount.truthy then billCount else Json.num (-1)
    | none => Json.num (-1)

/-! ## main-with-check.js -/

namespace MainWithCheck

/-- Actor input with `INPUT_DEFAULTS` (main-with-check.js 13-21). -/
structure Input where
  startUrls : List String :=
    ["https://www.nysenate.gov/search/legislation?type=bill&session_year=2025&status=SIGNED_BY_GOV&is_active_version=1"]
  maxRequestsPerCrawl : Nat := 100
  forceRun : Bool := false
  setupRagApi : Bool := false
  skipPineconeUpload : Bool := false

/-- Observable actions of one run of `runCrawler`, in program order. -/
inductive Effect where
  | crawlerRun (startUrls : List String) (maxRequestsPerCrawl : Nat)
  | saveFileCount (count : Nat)
  | isPineconeUploadNeeded
  | uploadDatasetToPinecone (items : List Json)
  | setupRagServer
  | actorExit

/-- Whether the action is the crawl `crawler.run(startUrls)`. -/
def Effect.isCrawl : Effect → Bool
  | .crawlerRun _ _ => true
  | _ => false

/-- Whether the action is a call of `saveFileCount`. -/
def Effect.isSave : Effect → Bool
  | .saveFileCount _ => true
  | _ => false

/-- Whether the action is a call of `isPineconeUploadNeeded`. -/
def Effect.isUploadCheck : Effect → Bool
  | .isPineconeUploadNeeded => true
  | _ => false

/-- Whether the action is a call of `uploadDatasetToPinecone`. -/
def Effect.isUpload : Effect → Bool
  | .uploadDatasetToPinecone _ => true
  | _ => false

/-- What the collaborators return during one run of `runCrawler`. -/
structure Env where
  /-- result of `getCurrentBillCount()`, -1 when its crawler threw -/
  currentBillCount : Int
  /-- file names in `storage/datasets/default` when the run starts
  (`none`: no such directory) -/
  datasetDir : Option (List String)
  /-- `dataset_metadata.json` when the run starts (`none`: no such file) -/
  datasetMetadata : Option StoredFile
  /-- `new Date().toISOString()` -/
  now : String
  /-- outcome of `crawler.run(startUrls)`: the file names in the dataset
  directory afterwards -/
  crawl : Except String (List String)
  /-- the environment variable `PINECONE_API_KEY` -/
  apiKey : Option String
  /-- store replies seen by `isPineconeUploadNeeded` -/
  store : Store
  /-- outcome of `Dataset.open()` and `getData()`: the items -/
  datasetItems : Except String (List Json)
  /-- outcome of `uploadDatasetToPinecone(items)` -/
  upload : List Json → Except String Unit

/-- State threaded through `runCrawler`. -/
structure RunState where
  effects : List Effect
  datasetMetadata : Option StoredFile
  /-- the promise returned by `runCrawler` rejected -/
  rejected : Bool

/-- Source: `countDatasetFiles` (main-with-check.js 27-45): 0 for a directory
that does not exist yet, else the number of entries. -/
def countDatasetFiles (datasetDir : Option (List String)) : Nat :=
  match datasetDir with
  | none => 0
  | some files => files.length

/-- Source: `saveFileCount` (main-with-check.js 48-69). -/
def saveFileCount (now : String) (count : Nat) (st : RunState) : RunState :=
  { st with
    effects := st.effects ++ [Effect.saveFileCount count]
    datasetMetadata :=
      some (some (Json.obj [("fileCount", Json.num count), ("lastUpdated", Json.str now)])) }

/-- Source: `isPineconeUploadNeeded` (main-with-check.js 95-148). -/
def isPineconeUploadNeeded (apiKey : Option String) (store : Store) : Bool :=
  let PINECONE_API_KEY := apiKey.getD ""
  if PINECONE_API_KEY = "" then true
  else
    match store.listIndexes with
    | .error _ => true
    | .ok indexList =>
      let indexes := indexList.getD []
      match indexes.find? (fun name => name == "bill-tracker") with
      | none => true
      | some _ =>
        match store.describeIndexStats with
        | .error _ => true
        | .ok stats =>
          let recordCount : Int :=
            match stats.totalRecordCount with
            | some totalRecordCount => if totalRecordCount ≠ 0 then totalRecordCount else 0
            | none => 0
          if recordCount > 0 then false else true

/-- The decision of main-with-check.js 215-227: `shouldRun` starts as
`forceRun` and is raised by the error sentinel or by a larger source count. -/
def shouldRun (forceRun : Bool) (currentBillCount : Int) (datasetFileCount : Nat) : Bool :=
  Id.run do
    let mut shouldRun := forceRun
    if currentBillCount = -1 then
      shouldRun := true
    else if currentBillCount > datasetFileCount then
      shouldRun := true
    return shouldRun

/-- Step 4 of `runCrawler` (main-with-check.js 253-272). -/
def uploadStep (input : Input) (env : Env) (st : RunState) : RunState :=
  if input.skipPineconeUpload then st
  else
    let st := { st with effects := st.effects ++ [Effect.isPineconeUploadNeeded] }
    let uploadNeeded := isPineconeUploadNeeded env.apiKey env.store
    if uploadNeeded || input.forceRun then
      match env.datasetItems with
      | .error _ => { st with rejected := true }
      | .ok items =>
        let st := { st with effects := st.effects ++ [Effect.uploadDatasetToPinecone items] }
        match env.upload items with
        | .ok _ => st
        | .error _ => { st with rejected := true }
    else st

/-- Step 5 of `runCrawler` (main-with-check.js 274-293). -/
def finish (input : Input) (st : RunState) : RunState :=
  if st.rejected then st
  else if input.setupRagApi then
    { st with effects := st.effects ++ [Effect.setupRagServer] }
  else
    { st with effects := st.effects ++ [Effect.actorExit] }

/-- Source: `runCrawler` (main-with-check.js 192-294). -/
def runCrawler (input : Input) (env : Env) : RunState :=
  let currentBillCount := env.currentBillCount
  let datasetFileCount := countDatasetFiles env.datasetDir
  let st : RunState := { effects := [], datasetMetadata := env.datasetMetadata, rejected := false }
  if !shouldRun input.forceRun currentBillCount datasetFileCount then
    finish input (uploadStep input env st)
  else
    let st := { st with
      effects := st.effects ++ [Effect.crawlerRun input.startUrls input.maxRequestsPerCrawl] }
    match env.crawl with
    | .error _ => { st with rejected := true }
    | .ok files =>
      let newFileCount := countDatasetFiles (some files)
      let st := saveFileCount env.now newFileCount st
      finish input (uploadStep input env st)

/-- The crawl was started during the run. -/
def crawled (st : RunState) : Bool := st.effects.any Effect.isCrawl

/-- The function `saveFileCount` was called during the run. -/
def fileCountSaved (st : RunState) : Bool := st.effects.any Effect.isSave

/-- The function `isPineconeUploadNeeded` was called during the run. -/
def uploadChecked (st : RunState) : Bool := st.effects.any Effect.isUploadCheck

/-- The function `uploadDatasetToPinecone` was called during the run. -/
def uploadAttempted (st : RunState) : Bool := st.effects.any Effect.isUpload

end MainWithCheck

/-! ## backup-dataset.js -/

/-- What `fs.statSync` and `fs.copyFileSync` see of a file: the modification
time in milliseconds and the bytes. -/
structure FileEntry where
  mtime : Int
  content : String
deriving DecidableEq, Repr

/-- A directory: a finite map from file names to files. -/
abbrev Directory := AList (fun _ : String => FileEntry)

/-- The backup directory after the run and the names on which
`fs.copyFileSync` was called, in order. -/
structure BackupRun where
  backup : Directory
  copied : List String

/-- The test of backup-dataset.js 45-48: the destination does not exist or
the source is newer. -/
def shouldCopy (backup : Directory) (file : String) (source : FileEntry) : Bool :=
  match backup.lookup file with
  | none => true
  | some dest => decide (source.mtime > dest.mtime)

/-- One turn of the loop of backup-dataset.js 40-52.  The copy has the bytes
of the source and the modification time `copyTime file` of its writing. -/
def backupFile (copyTime : String → Int) (st : BackupRun)
    (entry : Sigma fun _ : String => FileEntry) : BackupRun :=
  let file := entry.1
  if shouldCopy st.backup file entry.2 then
    { backup := st.backup.insert file { mtime := copyTime file, content := entry.2.content },
      copied := st.copied ++ [file] }
  else st

/-- Source: `backupDataset` (backup-dataset.js 7-57).  `none` stands for a
directory that does not exist. -/
def backupDataset (copyTime : String → Int) (datasetDir backupDir : Option Directory) :
    BackupRun :=
  let backup : Directory := match backupDir with
    | none => ∅
    | some dir => dir
  match datasetDir with
  | none => { backup := backup, copied := [] }
  | some dataset =>
    let files := dataset.entries
    files.foldl (backupFile copyTime) { backup := backup, copied := [] }

/-! ## Sample runs -/

/-- A store holding the index with `count` records. -/
def storeWith (count : Int) : Store :=
  { listIndexes := .ok (some ["bill-tracker"]),
    describeIndexStats := .ok { totalRecordCount := some count } }

/-- One bill record as the dataset returns it. -/
def sampleItem : Json :=
  Json.obj [("billTitle", Json.str "S100"), ("description", Json.str "An act")]

/-- A run in which the website shows `s` bills, the index holds `d` records,
the previous sync state is `file`, and every collaborator succeeds. -/
def sampleEnv (s d : Int) (file : Option StoredFile) : Env :=
  { currentBillCount := s, pineconeRecordCount := d, billMetadata := file,
    now := "2025-06-01T00:00:00.000Z", crawl := .ok (), store := storeWith d, saveOk := true,
    datasetItems := .ok [sampleItem], upload := fun _ => .ok () }

/-- A sync state file recording `n` bills. -/
def syncFile (n : Int) : Option StoredFile :=
  some (some (Json.obj [("billCount", Json.num n),
    ("lastUpdated", Json.str "2025-05-01T00:00:00.000Z")]))

/-- A detail request for the bill titled S100. -/
def sampleDetailRequest : Request :=
  { url := "https://www.nysenate.gov/legislation/bills/2025/S100", uniqueKey := some "S100",
    label := some "BILL_DETAIL",
    userData := { billTitle := "S100", description := "An act", issuedDate := "Jan 1, 2025" } }

/-- A detail page on which `.c-detail--header__bill` never appears. -/
def headerlessPage : DetailPage :=
  { header := false, pdfLinkEl := none, statusEl := none, actionRows := [] }

/-- A detail page with header, status flag and one signing row. -/
def sampleDetailPage : DetailPage :=
  { header := true, pdfLinkEl := some (some "/pdf/S100.pdf"), statusEl := some (some " Signed "),
    actionRows := [{ dateEl := some (some "Mar 3, 2025"),
                     actionEl := some (some "SIGNED CHAP.12") }] }

/-- The URL constructor on hrefs that are absolute already: the base is not
consulted. -/
def absoluteHref (href : String) (_base : String) : Option String := some href

/-- An entry with title link, description and date. -/
def sampleArticle (title href : String) : Article :=
  { titleAnchor := some { textContent := some title, href := href },
    descEl := some (some "  An act to amend the tax law "),
    dateEl := some (some "Jan 1, 2025") }

/-- A listing page that shows no entry but has a next link. -/
def emptyListingWithNext : ListingPage :=
  { url := "https://www.nysenate.gov/search/legislation",
    articles := [],
    nextLink := some (some "https://www.nysenate.gov/search/legislation?page=1") }

/-- A listing page with two linked entries, one entry without anchor, one
without link, and a next link. -/
def sampleListing : ListingPage :=
  { url := "https://www.nysenate.gov/search/legislation",
    articles :=
      [sampleArticle " S100 " "https://www.nysenate.gov/legislation/bills/2025/S100",
       { titleAnchor := none, descEl := none, dateEl := none },
       sampleArticle "S300" "",
       sampleArticle "S200" "https://www.nysenate.gov/legislation/bills/2025/S200"],
    nextLink := some (some "https://www.nysenate.gov/search/legislation?page=1") }

/-- First page of a two-page listing: two linked entries and a next link. -/
def firstPage : ListingPage :=
  { url := "https://www.nysenate.gov/search/legislation",
    articles :=
      [sampleArticle "S100" "https://www.nysenate.gov/legislation/bills/2025/S100",
       sampleArticle "S200" "https://www.nysenate.gov/legislation/bills/2025/S200"],
    nextLink := some (some "https://www.nysenate.gov/search/legislation?page=1") }

/-- Second and last page of the two-page listing: one entry, no next link. -/
def lastPage : ListingPage :=
  { url := "https://www.nysenate.gov/search/legislation?page=1",
    articles := [sampleArticle "S300" "https://www.nysenate.gov/legislation/bills/2025/S300"],
    nextLink := none }

/-- The pages shown for the URLs of the two-page listing. -/
def twoPageListing (url : String) : ListingPage :=
  if url = lastPage.url then lastPage else firstPage

/-- A listing whose first page shows no entry but links to the last page. -/
def emptyFirstListing (url : String) : ListingPage :=
  if url = lastPage.url then lastPage else emptyListingWithNext

/-- An upload in which the index is there, every upsert succeeds, every
embedding is the zero vector of length 2 and every fallback id is the same. -/
def sampleUploadEnv : UploadEnv :=
  { initializePineconeIndex := .ok (),
    generateEmbeddings := fun _ => [0, 0],
    fallbackId := fun _ => "bill-1762300800000-k3x9f2a",
    upsert := fun _ => .ok () }

/-- An upload in which `initializePineconeIndex` throws. -/
def failingInitEnv : UploadEnv :=
  { sampleUploadEnv with initializePineconeIndex := .error "PineconeConnectionError" }

/-- An upload in which every upsert call is rejected. -/
def failingUpsertEnv : UploadEnv :=
  { sampleUploadEnv with upsert := fun _ => .error "PineconeBadRequestError" }

/-- A dataset item with the given title and description. -/
def billItem (title description : String) : Json :=
  Json.obj [("billTitle", Json.str title), ("description", Json.str description)]

/-- Two records whose titles differ only in the white space between the words. -/
def collidingBills : List Json :=
  [billItem "S 100" "first", billItem "S  100" "second"]

/-- The description text a vector carries, the empty string when it has none. -/
def descriptionOf (v : VectorRecord) : String :=
  match v.metadata.description with
  | some (Json.str s) => s
  | _ => ""

/-- The index with nothing in it. -/
def emptyIndex : Index := fun _ => none

/-- A run with 5 bills against an empty index in which the upload is the
modelled `uploadDatasetToPinecone` against a store that rejects every upsert. -/
def failingUploadRunEnv : Env :=
  { sampleEnv 5 0 none with
    upload := fun items => (uploadDatasetToPinecone toLowerCase failingUpsertEnv items).outcome }

/-- The signed-bills statistic with the given text. -/
def signedStat (text : String) : StatElement :=
  { textContent := text, descript := some (some "Bills Signed into Law") }

/-- A store that lists no index at all. -/
def storeNoIndex : Store :=
  { listIndexes := .ok (some []), describeIndexStats := .ok { totalRecordCount := some 80 } }

/-- A store whose every call throws. -/
def storeDown : Store :=
  { listIndexes := .error "PineconeConnectionError",
    describeIndexStats := .error "PineconeConnectionError" }

/-- A main-with-check.js run with `s` bills on the site, the given dataset
directory, a crawl that leaves three files and a store holding 80 records. -/
def checkEnv (s : Int) (datasetDir : Option (List String)) : MainWithCheck.Env :=
  { currentBillCount := s, datasetDir := datasetDir, datasetMetadata := none,
    now := "2025-06-01T00:00:00.000Z", crawl := .ok ["a.json", "b.json", "c.json"],
    apiKey := some "pc-key", store := storeWith 80,
    datasetItems := .ok [sampleItem], upload := fun _ => .ok () }

/-- A forced run with the upload skipped. -/
def skipUploadInput : MainWithCheck.Input := { forceRun := true, skipPineconeUpload := true }

/-- A dataset directory with three files. -/
def sampleDataset : Directory :=
  (((∅ : Directory).insert "a.json" { mtime := 100, content := "A2" }).insert "b.json"
    { mtime := 50, content := "B" }).insert "c.json" { mtime := 70, content := "C" }

/-- A backup directory with an older "a.json", the same "b.json" and a file
that is no longer in the dataset. -/
def sampleBackup : Directory :=
  (((∅ : Directory).insert "a.json" { mtime := 90, content := "A1" }).insert "b.json"
    { mtime := 50, content := "B" }).insert "old.json" { mtime := 10, content := "O" }

end Lexcalibur

/-! # Theorems -/

namespace Lexcalibur

/-! ## Sync decision (main.ts) -/

@[simp] theorem saveBillCount_effects (now : String) (n : Int) (st : RunState) :
    (saveBillCount now n st).effects = st.effects ++ [Effect.saveBillCount n] := rfl

@[simp] theorem finish_billMetadata (input : Input) (st : RunState) :
    (finish input st).billMetadata = st.billMetadata := by
  unfold finish; split <;> rfl

theorem finish_crawled (input : Input) (st : RunState) :
    crawled (finish input st) = crawled st := by
  unfold finish crawled; split <;> simp [List.any_append, Effect.isCrawl]

theorem finish_uploadAttempted (input : Input) (st : RunState) :
    uploadAttempted (finish input st) = uploadAttempted st := by
  unfold finish uploadAttempted; split <;> simp [List.any_append, Effect.isUpload]

/-- The two ways `handlePineconeUpload` can go: it leaves the state alone, or
it calls the upload with the non-empty item list of the dataset. -/
theorem handlePineconeUpload_cases (env : Env) (st : RunState) :
    (handlePineconeUpload env st = st ∧
      ¬ (preventReupload env.store env.saveOk = true ∧
        ∃ items, env.datasetItems = .ok items ∧ items ≠ [])) ∨
    (∃ items, preventReupload env.store env.saveOk = true ∧
      env.datasetItems = .ok items ∧ items ≠ [] ∧
      handlePineconeUpload env st =
        { st with effects := st.effects ++ [Effect.uploadDatasetToPinecone items] }) := by
  cases hp : preventReupload env.store env.saveOk with
  | false => left; simp [handlePineconeUpload, hp]
  | true =>
    cases hd : env.datasetItems with
    | error e => left; simp [handlePineconeUpload, hp, hd]
    | ok items =>
      cases items with
      | nil => left; simp [handlePineconeUpload, hp, hd]
      | cons a l =>
        right
        refine ⟨a :: l, rfl, rfl, by simp, ?_⟩
        cases hu : env.upload (a :: l) <;> simp [handlePineconeUpload, hp, hd, hu]

@[simp] theorem handlePineconeUpload_billMetadata (env : Env) (st : RunState) :
    (handlePineconeUpload env st).billMetadata = st.billMetadata := by
  rcases handlePineconeUpload_cases env st with ⟨h, _⟩ | ⟨items, _, _, _, h⟩ <;> rw [h]

theorem handlePineconeUpload_crawled (env : Env) (st : RunState) :
    crawled (handlePineconeUpload env st) = crawled st := by
  rcases handlePineconeUpload_cases env st with ⟨h, _⟩ | ⟨items, _, _, _, h⟩ <;> rw [h]
  simp [crawled, List.any_append, Effect.isCrawl]

theorem handlePineconeUpload_uploadAttempted (env : Env) (st : RunState)
    (h : uploadAttempted st = false) :
    uploadAttempted (handlePineconeUpload env st) = true ↔
      (preventReupload env.store env.saveOk = true ∧
        ∃ items, env.datasetItems = .ok items ∧ items ≠ []) := by
  rcases handlePineconeUpload_cases env st with ⟨h1, h2⟩ | ⟨items, h1, h2, h3, h4⟩
  · rw [h1]
    constructor
    · intro h5; rw [h] at h5; cases h5
    · intro h5; exact absurd h5 h2
  · rw [h4]
    constructor
    · intro _; exact ⟨h1, items, h2, h3⟩
    · intro _; simp [uploadAttempted, List.any_append, Effect.isUpload]

theorem shouldRun_eq (f : Bool) (s d : Int) : shouldRun f s d = decide (s > d) := by
  unfold shouldRun
  by_cases h : s > d <;> simp [h, Id.run]

/-- The crawl is started exactly when the source count exceeds the
destination count. -/
theorem runCrawler_crawled_eq (input : Input) (env : Env) :
    crawled (runCrawler input env) =
      decide (env.currentBillCount > env.pineconeRecordCount) := by
  unfold runCrawler
  by_cases h : env.currentBillCount > env.pineconeRecordCount
  · simp only [shouldRun_eq, h, decide_True, Bool.not_true, Bool.false_eq_true, if_false]
    cases env.crawl with
    | error e => simp [crawled, Effect.isCrawl]
    | ok u =>
      simp only [finish_crawled, handlePineconeUpload_crawled]
      split <;> simp [crawled, List.any_append, Effect.isCrawl]
  · simp only [shouldRun_eq, h, decide_False, Bool.not_false, if_true]
    rw [finish_crawled]
    split <;> simp [crawled, List.any_append, Effect.isCrawl]

/-- C1: in `runCrawler`, whenever the source count exceeds the destination
count the crawl runs, and whenever the source count is at most the destination
count and `forceRun` is false the crawl does not run: no page is requested. -/
theorem runCrawler_crawl_iff_source_exceeds (input : Input) (env : Env) :
    (env.currentBillCount > env.pineconeRecordCount →
      shouldRun input.forceRun env.currentBillCount env.pineconeRecordCount = true ∧
      crawled (runCrawler input env) = true) ∧
    (env.currentBillCount ≤ env.pineconeRecordCount → input.forceRun = false →
      shouldRun input.forceRun env.currentBillCount env.pineconeRecordCount = false ∧
      crawled (runCrawler input env) = false) := by
  constructor
  · intro h
    exact ⟨by simp [shouldRun_eq, h], by simp [runCrawler_crawled_eq, h]⟩
  · intro h _
    have h2 : ¬ env.currentBillCount > env.pineconeRecordCount := not_lt.mpr h
    exact ⟨by simp [shouldRun_eq, h2], by simp [runCrawler_crawled_eq, h2]⟩

/-- Witness for C1: 89 bills on the site against 80 records starts the crawl. -/
theorem runCrawler_crawl_iff_source_exceeds_witness :
    crawled (runCrawler {} (sampleEnv 89 80 none)) = true :=
  ((runCrawler_crawl_iff_source_exceeds {} (sampleEnv 89 80 none)).1 (by decide)).2

/-- C2, evaluated on the code: with `forceRun` set and 50 bills against 50
records neither the crawl nor the upload runs; with `forceRun` set and 89 bills
against 80 records the crawl runs but the upload is not attempted. -/
theorem runCrawler_forceRun_overwritten :
    crawled (runCrawler { forceRun := true } (sampleEnv 50 50 none)) = false ∧
    uploadAttempted (runCrawler { forceRun := true } (sampleEnv 50 50 none)) = false ∧
    crawled (runCrawler { forceRun := true } (sampleEnv 89 80 none)) = true ∧
    uploadAttempted (runCrawler { forceRun := true } (sampleEnv 89 80 none)) = false := by
  refine ⟨?_, ?_, ?_, ?_⟩ <;> decide

/-- C3 as stated fails: with no force flag and an empty destination the upload
is not attempted when the site shows 0 bills, though `forceRun || d == 0`
holds, and it is attempted when the site shows 5 bills: the source count
matters. -/
theorem upload_not_function_of_destination_alone :
    uploadAttempted (runCrawler {} (sampleEnv 0 0 none)) = false ∧
    (({} : Input).forceRun || (sampleEnv 0 0 none).pineconeRecordCount == 0) = true ∧
    uploadAttempted (runCrawler {} (sampleEnv 5 0 none)) = true := by
  refine ⟨?_, ?_, ?_⟩ <;> decide

/-- C3, amended: without the force flag `uploadDatasetToPinecone` is called
exactly when the crawl ran (source count above destination count) and
completed, `preventReupload` then reports that a re-upload is needed, and the
dataset returns at least one item; when the crawl is skipped no upload is
attempted, whatever the destination count. -/
theorem upload_iff_crawled_and_reupload_needed (input : Input) (env : Env)
    (hf : input.forceRun = false) :
    uploadAttempted (runCrawler input env) = true ↔
      (env.currentBillCount > env.pineconeRecordCount ∧ env.crawl.isOk = true ∧
        preventReupload env.store env.saveOk = true ∧
        ∃ items, env.datasetItems = .ok items ∧ items ≠ []) := by
  have _ := hf
  unfold runCrawler
  by_cases h : env.currentBillCount > env.pineconeRecordCount
  · simp only [shouldRun_eq, h, decide_True, Bool.not_true, Bool.false_eq_true, if_false,
      true_and]
    cases hc : env.crawl with
    | error e => simp [uploadAttempted, Effect.isUpload, Except.isOk, Except.toBool]
    | ok u =>
      simp only [finish_uploadAttempted, Except.isOk, Except.toBool, true_and]
      apply handlePineconeUpload_uploadAttempted
      split <;> simp [uploadAttempted, List.any_append, Effect.isUpload]
  · simp only [shouldRun_eq, h, decide_False, Bool.not_false, if_true, false_and, iff_false]
    rw [finish_uploadAttempted]
    split <;> simp [uploadAttempted, List.any_append, Effect.isUpload]

/-- Witness for C3: 5 bills against an empty index, no force flag: the upload
is attempted. -/
theorem upload_iff_crawled_and_reupload_needed_witness :
    uploadAttempted (runCrawler {} (sampleEnv 5 0 none)) = true :=
  (upload_iff_crawled_and_reupload_needed {} (sampleEnv 5 0 none) rfl).2
    ⟨by decide, rfl, by decide, [sampleItem], rfl, by simp⟩

/-- C4 as stated fails: with 0 bills on the site a sync state recording 7 is
left at 7, and with the failure sentinel -1 no sync state is written at all. -/
theorem persisted_count_not_always_source :
    persistedBillCount (runCrawler {} (sampleEnv 0 0 (syncFile 7))).billMetadata = some 7 ∧
    persistedBillCount (runCrawler {} (sampleEnv (-1) 0 none)).billMetadata = none := by
  constructor <;> decide

/-- C4, amended: for a positive source count the sync state after the run
records that count, both when the crawl is skipped and when it ran to
completion; for a source count of 0 or below the sync state file is left as it
was; with 50 bills against 50 records and no force flag nothing is crawled and
the recorded count is 50. -/
theorem persisted_count_when_positive (input : Input) (env : Env) :
    (0 < env.currentBillCount →
      (env.currentBillCount ≤ env.pineconeRecordCount ∨ env.crawl.isOk = true) →
      persistedBillCount (runCrawler input env).billMetadata = some env.currentBillCount) ∧
    (env.currentBillCount ≤ 0 →
      (runCrawler input env).billMetadata = env.billMetadata) ∧
    (env.currentBillCount = 50 → env.pineconeRecordCount = 50 → input.forceRun = false →
      crawled (runCrawler input env) = false ∧
      persistedBillCount (runCrawler input env).billMetadata = some 50) := by
  have key : 0 < env.currentBillCount →
      (env.currentBillCount ≤ env.pineconeRecordCount ∨ env.crawl.isOk = true) →
      persistedBillCount (runCrawler input env).billMetadata = some env.currentBillCount := by
    intro hpos hc
    unfold runCrawler
    by_cases h : env.currentBillCount > env.pineconeRecordCount
    · have hok : env.crawl.isOk = true := by
        rcases hc with hc | hc
        · exact absurd h (not_lt.mpr hc)
        · exact hc
      simp only [shouldRun_eq, h, decide_True, Bool.not_true, Bool.false_eq_true, if_false]
      cases hcr : env.crawl with
      | error e => rw [hcr] at hok; simp [Except.isOk, Except.toBool] at hok
      | ok u =>
        simp [hpos, saveBillCount, persistedBillCount, Json.field, List.lookup]
    · simp [shouldRun_eq, h, hpos, saveBillCount, persistedBillCount, Json.field, List.lookup]
  refine ⟨key, ?_, ?_⟩
  · intro hle
    have hnp : ¬ env.currentBillCount > 0 := not_lt.mpr hle
    unfold runCrawler
    by_cases h : env.currentBillCount > env.pineconeRecordCount
    · simp only [shouldRun_eq, h, decide_True, Bool.not_true, Bool.false_eq_true, if_false]
      cases hcr : env.crawl with
      | error e => rfl
      | ok u => simp [hnp]
    · simp [shouldRun_eq, h, hnp]
  · intro hs hd hff
    have hle : env.currentBillCount ≤ env.pineconeRecordCount := by rw [hs, hd]
    have _ := hff
    refine ⟨by simp [runCrawler_crawled_eq, not_lt.mpr hle], ?_⟩
    have := key (by rw [hs]; decide) (Or.inl hle)
    rw [this, hs]

/-- Witness for C4: the skip scenario, 50 bills against 50 records. -/
theorem persisted_count_when_positive_witness :
    crawled (runCrawler {} (sampleEnv 50 50 none)) = false ∧
    persistedBillCount (runCrawler {} (sampleEnv 50 50 none)).billMetadata = some 50 :=
  (persisted_count_when_positive {} (sampleEnv 50 50 none)).2.2 rfl rfl rfl


/-! ## Dedup scan and BILL_DETAIL handler (routes.ts) -/

theorem fileHasTitle_iff (file : StoredFile) (t : String) :
    fileHasTitle file t = true ↔
      ∃ fields, file = some (Json.obj fields) ∧
        fields.lookup "billTitle" = some (Json.str t) := by
  cases file with
  | none => simp [fileHasTitle]
  | some data =>
    cases data with
    | obj fields =>
      simp only [fileHasTitle, Json.field, Option.some.injEq, Json.obj.injEq,
        exists_eq_left']
      cases hl : fields.lookup "billTitle" with
      | none => simp
      | some v => cases v <;> simp
    | _ => simp [fileHasTitle, Json.field]

theorem scanFiles_iff (files : List StoredFile) (t : String) :
    scanFiles files t = true ↔ ∃ file ∈ files, fileHasTitle file t = true := by
  induction files with
  | nil => simp [scanFiles]
  | cons f rest ih =>
    unfold scanFiles
    by_cases h : fileHasTitle f t = true
    · simp [h]
    · simp [h, ih]

/-- The scan finds a title exactly when it is among the titles of the sink. -/
theorem billExists_iff_mem_sinkTitles (dir : DatasetDir) (t : String) :
    billExistsInDataset dir t = true ↔ t ∈ sinkTitles dir := by
  cases dir with
  | none => simp [billExistsInDataset, sinkTitles]
  | some files =>
    simp only [billExistsInDataset, sinkTitles, Option.getD_some, scanFiles_iff,
      fileHasTitle_iff, List.mem_filterMap]
    constructor
    · rintro ⟨file, hm, fields, rfl, hl⟩
      exact ⟨_, hm, by simp [hl]⟩
    · rintro ⟨file, hm, hf⟩
      refine ⟨file, hm, ?_⟩
      cases file with
      | none => simp at hf
      | some data =>
        cases data with
        | obj fields =>
          refine ⟨fields, rfl, ?_⟩
          cases hl : fields.lookup "billTitle" with
          | none => simp [hl] at hf
          | some v => cases v <;> simp_all
        | _ => simp at hf

theorem toJson_billTitle (r : BillRecord) :
    ∃ fields, r.toJson = Json.obj fields ∧
      fields.lookup "billTitle" = some (Json.str r.billTitle) := by
  refine ⟨_, rfl, ?_⟩
  have h : (("detailPageUrl" : String) == "billTitle") = false := by decide
  simp [List.lookup, h]

theorem sinkTitles_pushData (dir : DatasetDir) (r : BillRecord) :
    sinkTitles (pushData dir r) = sinkTitles dir ++ [r.billTitle] := by
  obtain ⟨fields, h1, h2⟩ := toJson_billTitle r
  simp [sinkTitles, pushData, List.filterMap_append, h1, h2]

/-- C7: `billExistsInDataset(t)` is true exactly when the dataset directory
exists and one of its files parses to a JSON object whose `billTitle` is the
string `t`, compared exactly; unreadable or unparseable files never decide the
answer, and a missing directory gives false. -/
theorem billExistsInDataset_iff (dir : DatasetDir) (t : String) :
    (billExistsInDataset dir t = true ↔
      ∃ files, dir = some files ∧ ∃ fields, some (Json.obj fields) ∈ files ∧
        fields.lookup "billTitle" = some (Json.str t)) ∧
    billExistsInDataset none t = false ∧
    (∀ files : List StoredFile,
      billExistsInDataset (some (files.filter Option.isSome)) t =
        billExistsInDataset (some files) t) ∧
    billExistsInDataset (some [some (Json.obj [("billTitle", Json.str "s100")])]) "S100"
      = false := by
  refine ⟨?_, rfl, ?_, by decide⟩
  · cases dir with
    | none => simp [billExistsInDataset]
    | some files =>
      simp only [billExistsInDataset, scanFiles_iff, fileHasTitle_iff, Option.some.injEq,
        exists_eq_left']
      constructor
      · rintro ⟨file, hm, fields, rfl, hl⟩
        exact ⟨fields, hm, hl⟩
      · rintro ⟨fields, hm, hl⟩
        exact ⟨_, hm, fields, rfl, hl⟩
  · intro files
    rw [Bool.eq_iff_iff]
    simp only [billExistsInDataset, scanFiles_iff, List.mem_filter]
    constructor
    · rintro ⟨file, ⟨hm, _⟩, hf⟩
      exact ⟨file, hm, hf⟩
    · rintro ⟨file, hm, hf⟩
      refine ⟨file, ⟨hm, ?_⟩, hf⟩
      cases file with
      | none => simp [fileHasTitle] at hf
      | some _ => rfl


/-- The handler either leaves the directory alone or pushes one record that
carries the title of the request. -/
theorem billDetailHandler_cases (dir : DatasetDir) (request : Request) (page : DetailPage) :
    (billExistsInDataset dir request.userData.billTitle = true ∧
      billDetailHandler dir request page = { dir := dir, pushed := none, threw := false }) ∨
    (billExistsInDataset dir request.userData.billTitle = false ∧ page.header = false ∧
      billDetailHandler dir request page = { dir := dir, pushed := none, threw := true }) ∨
    (billExistsInDataset dir request.userData.billTitle = false ∧ page.header = true ∧
      ∃ r : BillRecord, r = detailRecord request page ∧
        r.billTitle = request.userData.billTitle ∧
        billDetailHandler dir request page =
          { dir := pushData dir r, pushed := some r, threw := false }) := by
  cases he : billExistsInDataset dir request.userData.billTitle with
  | true => left; simp [billDetailHandler, he]
  | false =>
    right
    cases hh : page.header with
    | false => left; simp [billDetailHandler, he, hh]
    | true =>
      right
      refine ⟨rfl, rfl, detailRecord request page, rfl, rfl, ?_⟩
      simp [billDetailHandler, he, hh]

/-- C5 as stated fails: on an empty sink, a stub whose detail page never shows
its header element makes the handler throw, and no record is added for the
absent title. -/
theorem absent_title_not_pushed_without_header :
    billExistsInDataset (some []) sampleDetailRequest.userData.billTitle = false ∧
    (billDetailHandler (some []) sampleDetailRequest headerlessPage).pushed = none ∧
    ((billDetailHandler (some []) sampleDetailRequest headerlessPage).dir.getD []).length = 0 ∧
    (billDetailHandler (some []) sampleDetailRequest headerlessPage).threw = true := by
  refine ⟨?_, ?_, ?_, ?_⟩ <;> decide

/-- C5, amended: on a sink whose titles are pairwise distinct the handler
keeps them pairwise distinct; it adds nothing for a title already present,
exactly one record carrying the stub's title for an absent title when the
detail page shows its header element, and nothing (it throws) when the header
never appears; existing files are never modified or removed. -/
theorem billDetailHandler_insert_if_absent (dir : DatasetDir) (request : Request)
    (page : DetailPage) (h : (sinkTitles dir).Nodup) :
    (sinkTitles (billDetailHandler dir request page).dir).Nodup ∧
    (billExistsInDataset dir request.userData.billTitle = true →
      (billDetailHandler dir request page).dir = dir) ∧
    (billExistsInDataset dir request.userData.billTitle = false → page.header = true →
      (detailRecord request page).billTitle = request.userData.billTitle ∧
      (billDetailHandler dir request page).dir =
        some (dir.getD [] ++ [some (detailRecord request page).toJson])) ∧
    (billExistsInDataset dir request.userData.billTitle = false → page.header = false →
      (billDetailHandler dir request page).dir = dir ∧
      (billDetailHandler dir request page).threw = true) ∧
    (∃ added : List StoredFile,
      (billDetailHandler dir request page).dir.getD [] = dir.getD [] ++ added ∧
      added.length ≤ 1) := by
  rcases billDetailHandler_cases dir request page with
    ⟨he, hr⟩ | ⟨he, hh, hr⟩ | ⟨he, hh, r, hrd, hrt, hr⟩
  · rw [hr]
    refine ⟨h, fun _ => rfl, ?_, ?_, ⟨[], by simp⟩⟩
    · intro h1; rw [he] at h1; cases h1
    · intro h1; rw [he] at h1; cases h1
  · rw [hr]
    refine ⟨h, fun _ => rfl, ?_, fun _ _ => ⟨rfl, rfl⟩, ⟨[], by simp⟩⟩
    intro _ h1; rw [hh] at h1; cases h1
  · rw [hr]
    refine ⟨?_, ?_, fun _ _ => ⟨rfl, by rw [← hrd]; rfl⟩, ?_,
      ⟨[some r.toJson], by simp [pushData]⟩⟩
    · rw [sinkTitles_pushData, List.nodup_append]
      refine ⟨h, List.nodup_singleton _, ?_⟩
      intro a ha hb
      rw [List.mem_singleton] at hb
      subst hb
      rw [hrt, ← billExists_iff_mem_sinkTitles, he] at ha
      cases ha
    · intro h1; rw [he] at h1; cases h1
    · intro _ h1; rw [hh] at h1; cases h1

/-- Witness for C5: the bill S100 pushed into an empty sink. -/
theorem billDetailHandler_insert_if_absent_witness :
    (sinkTitles (billDetailHandler (some []) sampleDetailRequest sampleDetailPage).dir).Nodup :=
  (billDetailHandler_insert_if_absent (some []) sampleDetailRequest sampleDetailPage
    (by simp [sinkTitles])).1

theorem billDetailHandler_dir_of_settled (dir : DatasetDir) (task : DetailTask)
    (h : settled dir task) : (billDetailHandler dir task.request task.page).dir = dir := by
  rcases billDetailHandler_cases dir task.request task.page with
    ⟨_, hr⟩ | ⟨_, _, hr⟩ | ⟨he, hh, _, _, _, _⟩
  · rw [hr]
  · rw [hr]
  · rcases h with h | h
    · rw [he] at h; cases h
    · rw [hh] at h; cases h

theorem billExists_after_handler (dir : DatasetDir) (request : Request) (page : DetailPage)
    (t : String) (h : billExistsInDataset dir t = true) :
    billExistsInDataset (billDetailHandler dir request page).dir t = true := by
  rcases billDetailHandler_cases dir request page with
    ⟨_, hr⟩ | ⟨_, _, hr⟩ | ⟨_, _, r, _, _, hr⟩
  · rw [hr]; exact h
  · rw [hr]; exact h
  · rw [hr]
    rw [billExists_iff_mem_sinkTitles] at h ⊢
    rw [sinkTitles_pushData]
    exact List.mem_append_left _ h

theorem settled_after_handler (dir : DatasetDir) (request : Request) (page : DetailPage)
    (task : DetailTask) (h : settled dir task) :
    settled (billDetailHandler dir request page).dir task := by
  rcases h with h | h
  · exact Or.inl (billExists_after_handler dir request page _ h)
  · exact Or.inr h

theorem settled_own_task (dir : DatasetDir) (task : DetailTask) :
    settled (billDetailHandler dir task.request task.page).dir task := by
  rcases billDetailHandler_cases dir task.request task.page with
    ⟨he, hr⟩ | ⟨_, hh, _⟩ | ⟨_, _, r, _, hrt, hr⟩
  · rw [hr]; exact Or.inl he
  · exact Or.inr hh
  · rw [hr]
    left
    rw [billExists_iff_mem_sinkTitles, sinkTitles_pushData, ← hrt]
    simp

theorem processTasks_cons (dir : DatasetDir) (task : DetailTask) (tasks : List DetailTask) :
    processTasks dir (task :: tasks) =
      processTasks (billDetailHandler dir task.request task.page).dir tasks := rfl

theorem settled_after_processTasks (tasks : List DetailTask) (dir : DatasetDir)
    (task : DetailTask) (h : settled dir task) : settled (processTasks dir tasks) task := by
  induction tasks generalizing dir with
  | nil => exact h
  | cons t ts ih =>
    rw [processTasks_cons]
    exact ih _ (settled_after_handler dir t.request t.page task h)

theorem all_settled_after_processTasks (tasks : List DetailTask) (dir : DatasetDir) :
    ∀ task ∈ tasks, settled (processTasks dir tasks) task := by
  induction tasks generalizing dir with
  | nil => intro task hm; cases hm
  | cons t ts ih =>
    intro task hm
    rw [processTasks_cons]
    rcases List.mem_cons.mp hm with rfl | hm
    · exact settled_after_processTasks ts _ _ (settled_own_task dir task)
    · exact ih _ task hm

theorem processTasks_of_settled (tasks : List DetailTask) (dir : DatasetDir)
    (h : ∀ task ∈ tasks, settled dir task) : processTasks dir tasks = dir := by
  induction tasks with
  | nil => rfl
  | cons t ts ih =>
    rw [processTasks_cons, billDetailHandler_dir_of_settled dir t (h t (List.mem_cons_self _ _))]
    exact ih (fun task hm => h task (List.mem_cons_of_mem _ hm))

theorem processTasks_of_titles_present (tasks : List DetailTask) (dir : DatasetDir)
    (h : ∀ task ∈ tasks, billExistsInDataset dir task.request.userData.billTitle = true) :
    processTasks dir tasks = dir :=
  processTasks_of_settled tasks dir (fun task hm => Or.inl (h task hm))

theorem billExists_after_processTasks (tasks : List DetailTask) (dir : DatasetDir)
    (t : String) (h : billExistsInDataset dir t = true) :
    billExistsInDataset (processTasks dir tasks) t = true := by
  induction tasks generalizing dir with
  | nil => exact h
  | cons task rest ih =>
    rw [processTasks_cons]
    exact ih _ (billExists_after_handler dir task.request task.page t h)

theorem billDetailHandler_length (dir : DatasetDir) (task : DetailTask) :
    (dir.getD []).length ≤ ((billDetailHandler dir task.request task.page).dir.getD []).length ∧
    (¬ settled dir task →
      (dir.getD []).length <
        ((billDetailHandler dir task.request task.page).dir.getD []).length) := by
  rcases billDetailHandler_cases dir task.request task.page with
    ⟨he, hr⟩ | ⟨_, hh, hr⟩ | ⟨_, _, r, _, _, hr⟩
  · rw [hr]
    exact ⟨le_refl _, fun hn => absurd (Or.inl he) hn⟩
  · rw [hr]
    exact ⟨le_refl _, fun hn => absurd (Or.inr hh) hn⟩
  · rw [hr]
    simp [pushData]

theorem processTasks_length (tasks : List DetailTask) (dir : DatasetDir) :
    (dir.getD []).length ≤ ((processTasks dir tasks).getD []).length := by
  induction tasks generalizing dir with
  | nil => exact le_refl _
  | cons task rest ih =>
    rw [processTasks_cons]
    exact le_trans (billDetailHandler_length dir task).1 (ih _)

theorem processTasks_grows (tasks : List DetailTask) (dir : DatasetDir)
    (h : ∃ task ∈ tasks, ¬ settled dir task) :
    (dir.getD []).length < ((processTasks dir tasks).getD []).length := by
  induction tasks generalizing dir with
  | nil =>
    obtain ⟨task, hm, _⟩ := h
    cases hm
  | cons t0 rest ih =>
    rw [processTasks_cons]
    by_cases hs : settled dir t0
    · rw [billDetailHandler_dir_of_settled dir t0 hs]
      apply ih
      obtain ⟨task, hm, hn⟩ := h
      rcases List.mem_cons.mp hm with rfl | hm
      · exact absurd hs hn
      · exact ⟨task, hm, hn⟩
    · exact lt_of_lt_of_le ((billDetailHandler_length dir t0).2 hs) (processTasks_length rest _)

/-- C6 as stated fails: the same stub S100 is processed twice on an empty
sink.  In the first pass its detail page never shows the header, the handler
throws and the sink stays empty; in the second pass the page loads and the
handler pushes the record, so the sink after the second pass is not the sink
after the first. -/
theorem second_pass_pushes_after_failed_first :
    ([⟨sampleDetailRequest, headerlessPage⟩] : List DetailTask).map (fun t => t.request) =
      ([⟨sampleDetailRequest, sampleDetailPage⟩] : List DetailTask).map (fun t => t.request) ∧
    ((processTasks (some []) [⟨sampleDetailRequest, headerlessPage⟩]).getD []).length = 0 ∧
    (billDetailHandler (processTasks (some []) [⟨sampleDetailRequest, headerlessPage⟩])
      sampleDetailRequest sampleDetailPage).pushed =
        some (detailRecord sampleDetailRequest sampleDetailPage) ∧
    ((processTasks (processTasks (some []) [⟨sampleDetailRequest, headerlessPage⟩])
      [⟨sampleDetailRequest, sampleDetailPage⟩]).getD []).length = 1 ∧
    sinkTitles (processTasks (processTasks (some []) [⟨sampleDetailRequest, headerlessPage⟩])
      [⟨sampleDetailRequest, sampleDetailPage⟩]) = ["S100"] := by
  refine ⟨rfl, ?_, ?_, ?_, ?_⟩ <;> decide

/-- C6, amended: a second pass over stubs leaves the sink exactly as it was
after the first pass if and only if every stub of the second pass has its
title in the sink after the first pass or is shown a detail page without the
header element.  This is so when each stub is shown the same detail page in
both passes (then no handler call of the second pass pushes a record), and
when every stub of the first pass was shown a page with its header or had its
title in the initial sink, whatever pages the second pass shows. -/
theorem processTasks_idempotent (dir : DatasetDir) (tasks : List DetailTask) :
    processTasks (processTasks dir tasks) tasks = processTasks dir tasks ∧
    (∀ task ∈ tasks,
      (billDetailHandler (processTasks dir tasks) task.request task.page).pushed = none) ∧
    (∀ again : List DetailTask,
      again.map (fun t => t.request) = tasks.map (fun t => t.request) →
      (∀ task ∈ tasks, task.page.header = true ∨
        billExistsInDataset dir task.request.userData.billTitle = true) →
      processTasks (processTasks dir tasks) again = processTasks dir tasks) ∧
    (∀ again : List DetailTask,
      processTasks (processTasks dir tasks) again = processTasks dir tasks ↔
        ∀ task ∈ again,
          billExistsInDataset (processTasks dir tasks) task.request.userData.billTitle = true ∨
            task.page.header = false) := by
  refine ⟨processTasks_of_settled tasks _ (all_settled_after_processTasks tasks dir), ?_, ?_, ?_⟩
  · intro task hm
    have hs := all_settled_after_processTasks tasks dir task hm
    rcases billDetailHandler_cases (processTasks dir tasks) task.request task.page with
      ⟨_, hr⟩ | ⟨_, _, hr⟩ | ⟨he, hh, _, _, _, _⟩
    · rw [hr]
    · rw [hr]
    · rcases hs with hs | hs
      · rw [he] at hs; cases hs
      · rw [hh] at hs; cases hs
  · intro again hreq hheader
    apply processTasks_of_titles_present
    intro t ht
    have hmem : t.request ∈ tasks.map (fun t => t.request) := by
      rw [← hreq]
      exact List.mem_map.mpr ⟨t, ht, rfl⟩
    obtain ⟨t0, ht0, heq⟩ := List.mem_map.mp hmem
    rw [← heq]
    rcases all_settled_after_processTasks tasks dir t0 ht0 with hs | hs
    · exact hs
    · rcases hheader t0 ht0 with hh | hp
      · rw [hh] at hs; cases hs
      · exact billExists_after_processTasks tasks dir _ hp
  · intro again
    constructor
    · intro heq task hm
      by_contra hn
      have hlt := processTasks_grows again (processTasks dir tasks) ⟨task, hm, hn⟩
      rw [heq] at hlt
      exact lt_irrefl _ hlt
    · intro hall
      exact processTasks_of_settled again _ hall

theorem scrapeArticle_eq (results : List Request) (article : Article) :
    scrapeArticle results article = results ++ (entryRequest article).toList := by
  unfold scrapeArticle entryRequest
  cases article.titleAnchor with
  | none => simp
  | some anchor =>
    by_cases h : anchor.href = "" <;> simp [h]

theorem foldl_scrapeArticle (articles : List Article) (results : List Request) :
    articles.foldl scrapeArticle results = results ++ articles.filterMap entryRequest := by
  induction articles generalizing results with
  | nil => simp
  | cons a rest ih =>
    rw [List.foldl_cons, ih, scrapeArticle_eq]
    cases h : entryRequest a <;> simp [List.filterMap_cons, h]

theorem scrapeArticles_eq (articles : List Article) :
    scrapeArticles articles = articles.filterMap entryRequest := by
  unfold scrapeArticles
  rw [foldl_scrapeArticle]
  simp

theorem entryRequest_label (article : Article) (r : Request)
    (h : entryRequest article = some r) : r.label = some "BILL_DETAIL" := by
  unfold entryRequest at h
  cases ha : article.titleAnchor with
  | none => simp [ha] at h
  | some anchor =>
    by_cases hh : anchor.href = ""
    · simp [ha, hh] at h
    · simp only [ha, hh, if_false, Option.some.injEq] at h
      rw [← h]

theorem scrapeArticles_label (articles : List Article) :
    ∀ r ∈ scrapeArticles articles, r.label = some "BILL_DETAIL" := by
  intro r hr
  rw [scrapeArticles_eq, List.mem_filterMap] at hr
  obtain ⟨a, _, ha⟩ := hr
  exact entryRequest_label a r ha

theorem detailRequests_of_label (rs : List Request)
    (h : ∀ r ∈ rs, r.label = some "BILL_DETAIL") : detailRequests rs = rs := by
  unfold detailRequests
  rw [List.filter_eq_self]
  intro r hr
  simp [h r hr]

theorem listingRequests_of_label (rs : List Request)
    (h : ∀ r ∈ rs, r.label = some "BILL_DETAIL") : listingRequests rs = [] := by
  unfold listingRequests
  rw [List.filter_eq_nil_iff]
  intro r hr
  simp [h r hr]

/-- The requests the default handler passes to `addRequests`: nothing when no
entry shows, otherwise the scraped detail requests, followed by the request for
the next page when the next link has a non-empty href that resolves. -/
theorem defaultHandler_added (resolveUrl : String → String → Option String)
    (page : ListingPage) :
    (defaultHandler resolveUrl page).added =
      if page.articles = [] then []
      else scrapeArticles page.articles ++
        (match page.nextLink with
         | some (some href) =>
           if href = "" then []
           else match resolveUrl href page.url with
             | some absoluteUrl => [nextPageRequest absoluteUrl]
             | none => []
         | _ => []) := by
  unfold defaultHandler
  by_cases ha : page.articles = []
  · simp [ha]
  · have hl : (if (scrapeArticles page.articles).length > 0 then scrapeArticles page.articles
        else []) = scrapeArticles page.articles := by
      split
      · rfl
      · rename_i h
        simp only [gt_iff_lt, List.length_pos, ne_eq, not_not] at h
        rw [h]
    simp only [List.isEmpty_iff, ha, if_false, hl]
    cases hn : page.nextLink with
    | none => simp
    | some el =>
      cases el with
      | none => simp
      | some href =>
        by_cases hh : href = ""
        · simp [hh]
        · cases hr : resolveUrl href page.url <;> simp [hh, hr, nextPageRequest]

theorem defaultHandler_threw (resolveUrl : String → String → Option String)
    (page : ListingPage) (h : (defaultHandler resolveUrl page).threw = true) :
    page.articles = [] ∨
      ∃ href, page.nextLink = some (some href) ∧ href ≠ "" ∧
        resolveUrl href page.url = none := by
  unfold defaultHandler at h
  by_cases ha : page.articles = []
  · exact Or.inl ha
  · right
    simp only [List.isEmpty_iff, ha, if_false] at h
    cases hn : page.nextLink with
    | none => simp [hn] at h
    | some el =>
      cases el with
      | none => simp [hn] at h
      | some href =>
        by_cases hh : href = ""
        · simp [hn, hh] at h
        · cases hr : resolveUrl href page.url with
          | none => exact ⟨href, rfl, hh, hr⟩
          | some u => simp [hn, hh, hr] at h

/-- C9 as stated fails: a listing page that shows no entry but has a next link
with a non-empty, resolvable href makes the handler throw at the wait, and no
further listing request is enqueued. -/
theorem next_link_present_but_nothing_enqueued :
    emptyListingWithNext.nextLink =
      some (some "https://www.nysenate.gov/search/legislation?page=1") ∧
    absoluteHref "https://www.nysenate.gov/search/legislation?page=1"
      emptyListingWithNext.url = some "https://www.nysenate.gov/search/legislation?page=1" ∧
    listingRequests (defaultHandler absoluteHref emptyListingWithNext).added = [] ∧
    (defaultHandler absoluteHref emptyListingWithNext).threw = true := by
  refine ⟨rfl, rfl, ?_, ?_⟩ <;> decide

/-- C9, amended: the default handler enqueues at most one further listing
request; on a page that shows at least one entry it enqueues exactly one, with
the resolved absolute URL, when the next link has a non-empty href that
resolves against the page URL; it enqueues none when the next link is absent,
has no href or an empty one, or when the page shows no entry. -/
theorem defaultHandler_next_page (resolveUrl : String → String → Option String)
    (page : ListingPage) :
    (listingRequests (defaultHandler resolveUrl page).added).length ≤ 1 ∧
    (page.articles ≠ [] → ∀ href absoluteUrl, page.nextLink = some (some href) → href ≠ "" →
      resolveUrl href page.url = some absoluteUrl →
      listingRequests (defaultHandler resolveUrl page).added = [nextPageRequest absoluteUrl] ∧
      (nextPageRequest absoluteUrl).url = absoluteUrl) ∧
    (page.nextLink = none ∨ page.nextLink = some none ∨ page.nextLink = some (some "") ∨
      page.articles = [] →
      listingRequests (defaultHandler resolveUrl page).added = []) := by
  have hs := listingRequests_of_label _ (scrapeArticles_label page.articles)
  have happ : ∀ l, listingRequests (scrapeArticles page.articles ++ l) = listingRequests l := by
    intro l
    unfold listingRequests at hs ⊢
    rw [List.filter_append, hs, List.nil_append]
  rw [defaultHandler_added]
  refine ⟨?_, ?_, ?_⟩
  · by_cases ha : page.articles = []
    · simp [ha, listingRequests]
    · simp only [ha, if_false, happ]
      cases hn : page.nextLink with
      | none => simp [listingRequests]
      | some el =>
        cases el with
        | none => simp [listingRequests]
        | some href =>
          by_cases hh : href = ""
          · simp [hh, listingRequests]
          · cases hr : resolveUrl href page.url <;>
              simp [hh, listingRequests, nextPageRequest]
            all_goals simp [hr]
  · intro ha href absoluteUrl hn hh hr
    simp only [ha, if_false, happ, hn, hh, hr]
    exact ⟨by simp [listingRequests, nextPageRequest], rfl⟩
  · intro h
    by_cases ha : page.articles = []
    · simp [ha, listingRequests]
    · simp only [ha, if_false, happ]
      rcases h with h | h | h | h
      · simp [h, listingRequests]
      · simp [h, listingRequests]
      · simp [h, listingRequests]
      · exact absurd h ha

/-- Witness for C9: the sample listing enqueues its next page. -/
theorem defaultHandler_next_page_witness :
    listingRequests (defaultHandler absoluteHref sampleListing).added =
      [nextPageRequest "https://www.nysenate.gov/search/legislation?page=1"] :=
  ((defaultHandler_next_page absoluteHref sampleListing).2.1 (by decide)
    "https://www.nysenate.gov/search/legislation?page=1"
    "https://www.nysenate.gov/search/legislation?page=1" rfl (by decide) rfl).1

/-- C10: the detail requests the default handler produces are, in document
order, one per entry that has a title anchor with a non-empty link; an entry
without anchor or without link gives none and causes no error; each request
has the label BILL_DETAIL, the anchor's link as url, and as userData the
trimmed title, description and date of the same entry, with the empty string
for a missing description or date element. -/
theorem defaultHandler_detail_requests (resolveUrl : String → String → Option String)
    (page : ListingPage) :
    detailRequests (defaultHandler resolveUrl page).added =
      page.articles.filterMap entryRequest ∧
    (∀ article r, entryRequest article = some r →
      ∃ anchor, article.titleAnchor = some anchor ∧ anchor.href ≠ "" ∧
        r.url = anchor.href ∧ r.label = some "BILL_DETAIL" ∧
        r.userData =
          { billTitle := trimmedText (some anchor.textContent)
            description := trimmedText article.descEl
            issuedDate := trimmedText article.dateEl }) ∧
    (∀ article, (article.titleAnchor = none ∨
        ∃ anchor, article.titleAnchor = some anchor ∧ anchor.href = "") →
      entryRequest article = none) ∧
    (∀ text, trimmedText (some (some text)) = trim text) ∧
    trimmedText none = "" ∧
    ((defaultHandler resolveUrl page).threw = true →
      page.articles = [] ∨
        ∃ href, page.nextLink = some (some href) ∧ href ≠ "" ∧
          resolveUrl href page.url = none) := by
  refine ⟨?_, ?_, ?_, fun _ => rfl, rfl, defaultHandler_threw resolveUrl page⟩
  · rw [defaultHandler_added]
    by_cases ha : page.articles = []
    · simp [ha, detailRequests]
    · simp only [ha, if_false]
      have hd := detailRequests_of_label _ (scrapeArticles_label page.articles)
      unfold detailRequests at hd ⊢
      rw [List.filter_append, hd, scrapeArticles_eq]
      cases hn : page.nextLink with
      | none => simp
      | some el =>
        cases el with
        | none => simp
        | some href =>
          by_cases hh : href = ""
          · simp [hh]
          · cases hr : resolveUrl href page.url <;> simp [hh, nextPageRequest]
            all_goals simp [hr]
  · intro article r h
    unfold entryRequest at h
    cases ha : article.titleAnchor with
    | none => simp [ha] at h
    | some anchor =>
      by_cases hh : anchor.href = ""
      · simp [ha, hh] at h
      · simp only [ha, hh, if_false, Option.some.injEq] at h
        exact ⟨anchor, rfl, hh, by rw [← h], by rw [← h], by rw [← h]⟩
  · intro article h
    unfold entryRequest
    rcases h with h | ⟨anchor, h1, h2⟩
    · simp [h]
    · simp [h1, h2]

/-- Witness for C10: the sample listing yields the requests for S100 and S200,
in that order, with trimmed texts. -/
theorem defaultHandler_detail_requests_witness :
    (detailRequests (defaultHandler absoluteHref sampleListing).added).map
        (fun r => (r.url, r.userData.billTitle, r.userData.description)) =
      [("https://www.nysenate.gov/legislation/bills/2025/S100", "S100",
          "An act to amend the tax law"),
       ("https://www.nysenate.gov/legislation/bills/2025/S200", "S200",
          "An act to amend the tax law")] := by
  rw [(defaultHandler_detail_requests absoluteHref sampleListing).1]
  decide


/-! ## Pagination (routes.ts default handler) -/

theorem linksTo_spec (resolveUrl : String → String → Option String) (p q : ListingPage)
    (h : linksTo resolveUrl p q = true) :
    ∃ href, p.nextLink = some (some href) ∧ href ≠ "" ∧ resolveUrl href p.url = some q.url := by
  unfold linksTo at h
  cases hn : p.nextLink with
  | none => simp [hn] at h
  | some el =>
    cases el with
    | none => simp [hn] at h
    | some href =>
      simp only [hn, Bool.and_eq_true, bne_iff_ne, ne_eq, beq_iff_eq] at h
      exact ⟨href, rfl, h.1, h.2⟩

theorem listingRequests_scrape_append (articles : List Article) (l : List Request) :
    listingRequests (scrapeArticles articles ++ l) = listingRequests l := by
  have hs := listingRequests_of_label _ (scrapeArticles_label articles)
  unfold listingRequests at hs ⊢
  rw [List.filter_append, hs, List.nil_append]

/-- A page that shows an entry and links to `q` asks for `q` and nothing else. -/
theorem requestedListingUrls_of_link (resolveUrl : String → String → Option String)
    (p q : ListingPage) (ha : p.articles ≠ []) (hl : linksTo resolveUrl p q = true) :
    requestedListingUrls resolveUrl p = [q.url] := by
  obtain ⟨href, hn, hh, hr⟩ := linksTo_spec resolveUrl p q hl
  unfold requestedListingUrls
  rw [defaultHandler_added]
  simp only [ha, if_false, hn, hh, hr, listingRequests_scrape_append]
  simp [listingRequests, nextPageRequest]

/-- A page without next link, or without entries, asks for no listing page. -/
theorem requestedListingUrls_of_no_link (resolveUrl : String → String → Option String)
    (p : ListingPage) (h : p.nextLink = none ∨ p.articles = []) :
    requestedListingUrls resolveUrl p = [] := by
  unfold requestedListingUrls
  rw [defaultHandler_added]
  by_cases ha : p.articles = []
  · simp [ha, listingRequests]
  · rcases h with h | h
    · simp only [ha, if_false, h, listingRequests_scrape_append]
      simp [listingRequests]
    · exact absurd h ha

theorem listingWalk_pages (resolveUrl : String → String → Option String)
    (listing : String → ListingPage) (pages : List ListingPage) :
    ∀ (p : ListingPage) (rest : List ListingPage), pages = p :: rest →
      paginated resolveUrl pages = true →
      (∀ x ∈ pages, listing x.url = x) →
      (∀ x ∈ pages.dropLast, x.articles ≠ []) →
      ∀ steps, listingWalk resolveUrl listing steps p.url =
        (pages.take steps).map fun x => x.url := by
  induction pages with
  | nil => intro p rest h; cases h
  | cons p0 rest0 ih =>
    intro p rest hpages hpag hsite harts steps
    obtain ⟨rfl, rfl⟩ := List.cons.inj hpages
    cases steps with
    | zero => rfl
    | succ n =>
      have hp : listing p0.url = p0 := hsite p0 (List.mem_cons_self _ _)
      cases rest0 with
      | nil =>
        have hnext : p0.nextLink = none := by
          simpa [paginated, Option.isNone_iff_eq_none] using hpag
        simp [listingWalk, hp, requestedListingUrls_of_no_link resolveUrl p0 (Or.inl hnext)]
      | cons q rest1 =>
        have hpag' : linksTo resolveUrl p0 q = true ∧
            paginated resolveUrl (q :: rest1) = true := by
          simpa [paginated] using hpag
        have ha : p0.articles ≠ [] := harts p0 (by simp [List.dropLast])
        have hstep := ih q rest1 rfl hpag'.2
          (fun x hx => hsite x (List.mem_cons_of_mem _ hx))
          (fun x hx => harts x (by
            simp only [List.dropLast_cons₂]
            exact List.mem_cons_of_mem _ hx)) n
        simp only [listingWalk, hp, requestedListingUrls_of_link resolveUrl p0 q ha hpag'.1,
          hstep, List.take_succ_cons, List.map_cons]

theorem requestedListingUrls_pages (resolveUrl : String → String → Option String)
    (pages : List ListingPage) :
    paginated resolveUrl pages = true →
    (∀ x ∈ pages.dropLast, x.articles ≠ []) →
    (pages.map (requestedListingUrls resolveUrl)).flatten = pages.tail.map fun x => x.url := by
  induction pages with
  | nil => intro _ _; rfl
  | cons p0 rest0 ih =>
    intro hpag harts
    cases rest0 with
    | nil =>
      have hnext : p0.nextLink = none := by
        simpa [paginated, Option.isNone_iff_eq_none] using hpag
      simp [requestedListingUrls_of_no_link resolveUrl p0 (Or.inl hnext)]
    | cons q rest1 =>
      have hpag' : linksTo resolveUrl p0 q = true ∧
          paginated resolveUrl (q :: rest1) = true := by
        simpa [paginated] using hpag
      have ha : p0.articles ≠ [] := harts p0 (by simp [List.dropLast])
      have hrest := ih hpag'.2 (fun x hx => harts x (by
        simp only [List.dropLast_cons₂]
        exact List.mem_cons_of_mem _ hx))
      rw [List.map_cons, List.flatten_cons, hrest,
        requestedListingUrls_of_link resolveUrl p0 q ha hpag'.1]
      rfl

/-- C8 as stated fails: in the two-page listing whose first page has a next
link to the second but shows no entry, the handler of the first page throws at
the wait for the entries and asks for no page at all, so the second page is
never requested and the walk from page 1 covers one page, whatever the number
of steps allowed. -/
theorem second_page_never_requested :
    paginated absoluteHref [emptyListingWithNext, lastPage] = true ∧
    (defaultHandler absoluteHref emptyListingWithNext).threw = true ∧
    (defaultHandler absoluteHref emptyListingWithNext).added = [] ∧
    ([emptyListingWithNext, lastPage].map (requestedListingUrls absoluteHref)).flatten = [] ∧
    listingWalk absoluteHref emptyFirstListing 3 emptyListingWithNext.url =
      [emptyListingWithNext.url] ∧
    listingWalk absoluteHref emptyFirstListing 100 emptyListingWithNext.url =
      [emptyListingWithNext.url] := by
  refine ⟨?_, ?_, ?_, ?_, ?_, ?_⟩ <;> decide

/-- C8, amended: on a synthetic listing of N pages in which pages 1..N-1 each
show at least one entry and link to the following page and page N has no next
link, the default handler asks, over the N pages, for exactly the pages 2..N,
each once and each from the page before it, and for no page from page N; the
walk that follows these requests from page 1 handles the first `steps` pages
in order, hence exactly the N listing pages, and then ends, for every number
of steps of at least N. -/
theorem listing_walk_covers_pages (resolveUrl : String → String → Option String)
    (listing : String → ListingPage) (pages : List ListingPage)
    (hne : pages ≠ [])
    (hpag : paginated resolveUrl pages = true)
    (hsite : ∀ p ∈ pages, listing p.url = p)
    (harts : ∀ p ∈ pages.dropLast, p.articles ≠ []) :
    (∀ steps, pages.length ≤ steps →
      listingWalk resolveUrl listing steps (pages.head hne).url = pages.map fun p => p.url) ∧
    (∀ steps, listingWalk resolveUrl listing steps (pages.head hne).url =
      (pages.take steps).map fun p => p.url) ∧
    (pages.map (requestedListingUrls resolveUrl)).flatten = pages.tail.map (fun p => p.url) ∧
    requestedListingUrls resolveUrl (pages.getLast hne) = [] := by
  cases pages with
  | nil => exact absurd rfl hne
  | cons p rest =>
    have hwalk := listingWalk_pages resolveUrl listing (p :: rest) p rest rfl hpag hsite harts
    refine ⟨?_, hwalk, requestedListingUrls_pages resolveUrl (p :: rest) hpag harts, ?_⟩
    · intro steps hsteps
      rw [List.head_cons, hwalk steps, List.take_of_length_le hsteps]
    · apply requestedListingUrls_of_no_link
      left
      clear hwalk hsite harts
      induction rest generalizing p with
      | nil => simpa [paginated, Option.isNone_iff_eq_none] using hpag
      | cons q rest1 ih =>
        have hpag' : linksTo resolveUrl p q = true ∧
            paginated resolveUrl (q :: rest1) = true := by
          simpa [paginated] using hpag
        rw [List.getLast_cons (List.cons_ne_nil _ _)]
        exact ih q (List.cons_ne_nil _ _) hpag'.2

/-- Witness for C8: the two-page listing is walked to its end, with 2 steps
allowed and with 100. -/
theorem listing_walk_covers_pages_witness :
    listingWalk absoluteHref twoPageListing 2 firstPage.url = [firstPage.url, lastPage.url] ∧
    listingWalk absoluteHref twoPageListing 100 firstPage.url = [firstPage.url, lastPage.url] :=
  ⟨(listing_walk_covers_pages absoluteHref twoPageListing [firstPage, lastPage]
      (by simp) (by decide) (by decide) (by decide)).1 2 (by decide),
   (listing_walk_covers_pages absoluteHref twoPageListing [firstPage, lastPage]
      (by simp) (by decide) (by decide) (by decide)).1 100 (by decide)⟩

/-- Witness for C6: the stub S100 is pushed in the first pass on a missing
directory; a second pass changes nothing, also when its page differs. -/
theorem processTasks_idempotent_witness :
    processTasks (processTasks none [⟨sampleDetailRequest, sampleDetailPage⟩])
        [⟨sampleDetailRequest, headerlessPage⟩] =
      processTasks none [⟨sampleDetailRequest, sampleDetailPage⟩] :=
  (processTasks_idempotent none [⟨sampleDetailRequest, sampleDetailPage⟩]).2.2.1
    [⟨sampleDetailRequest, headerlessPage⟩] rfl
    (by
      intro task hm
      rw [List.mem_singleton] at hm
      rw [hm]
      exact Or.inl rfl)

/-- Witness for C7: the record pushed for S100 is found, next to an unreadable
file. -/
theorem billExistsInDataset_iff_witness :
    billExistsInDataset (some [none, some (detailRecord sampleDetailRequest sampleDetailPage).toJson])
      "S100" = true :=
  (billExistsInDataset_iff
      (some [none, some (detailRecord sampleDetailRequest sampleDetailPage).toJson]) "S100").1.2
    ⟨_, rfl, _, List.mem_cons_of_mem _ (List.mem_cons_self _ _), rfl⟩

/-! ## Signed date (routes.ts BILL_DETAIL handler) -/

theorem startsWithChars_iff (cs pat : List Char) :
    startsWithChars cs pat = true ↔ ∃ rest, cs = pat ++ rest := by
  induction pat generalizing cs with
  | nil => simp [startsWithChars]
  | cons p ps ih =>
    cases cs with
    | nil => simp [startsWithChars]
    | cons c cs =>
      simp only [startsWithChars, Bool.and_eq_true, beq_iff_eq, ih, List.cons_append,
        List.cons.injEq]
      constructor
      · rintro ⟨rfl, rest, rfl⟩
        exact ⟨rest, rfl, rfl⟩
      · rintro ⟨rest, rfl, rfl⟩
        exact ⟨rfl, rest, rfl⟩

theorem includesChars_iff (cs pat : List Char) :
    includesChars cs pat = true ↔ ∃ before after, cs = before ++ pat ++ after := by
  induction cs with
  | nil =>
    simp only [includesChars, List.isEmpty_iff]
    constructor
    · rintro rfl
      exact ⟨[], [], rfl⟩
    · rintro ⟨before, after, h⟩
      have h1 := congrArg List.length h
      simp only [List.length_nil, List.length_append] at h1
      exact List.length_eq_zero.mp (by omega)
  | cons c cs ih =>
    simp only [includesChars, Bool.or_eq_true, startsWithChars_iff, ih]
    constructor
    · rintro (⟨rest, h⟩ | ⟨before, after, h⟩)
      · exact ⟨[], rest, by simpa using h⟩
      · exact ⟨c :: before, after, by simp [h]⟩
    · rintro ⟨before, after, h⟩
      cases before with
      | nil => exact Or.inl ⟨after, by simpa using h⟩
      | cons b before =>
        right
        simp only [List.cons_append, List.cons.injEq] at h
        exact ⟨before, after, h.2⟩

/-- The lower-cased text includes the word exactly when the text has a block
of characters that lower-cases to the word. -/
theorem includes_toLowerCase_iff (text pat : String) :
    includes (toLowerCase text) pat = true ↔
      ∃ before block after, text.toList = before ++ block ++ after ∧
        block.map Char.toLower = pat.toList := by
  unfold includes toLowerCase
  rw [includesChars_iff]
  constructor
  · rintro ⟨b, a, h⟩
    have h' : text.toList.map Char.toLower = (b ++ pat.toList) ++ a := h
    obtain ⟨l1, l3, h1, h2, h3⟩ := List.map_eq_append_iff.mp h'
    obtain ⟨l11, l12, h4, h5, h6⟩ := List.map_eq_append_iff.mp h2
    exact ⟨l11, l12, l3, by rw [h1, h4], h6⟩
  · rintro ⟨before, block, after, h1, h2⟩
    refine ⟨before.map Char.toLower, after.map Char.toLower, ?_⟩
    show text.toList.map Char.toLower = _
    rw [h1, List.map_append, List.map_append, h2]

theorem findSignedDate_cons (row : ActionRow) (rest : List ActionRow) :
    findSignedDate (row :: rest) =
      if isSigningRow row then trimmedText row.dateEl else findSignedDate rest := by
  rw [findSignedDate]
  unfold isSigningRow trimmedText
  cases hd : row.dateEl with
  | none => simp
  | some dateEl =>
    cases ha : row.actionEl with
    | none => simp
    | some actionEl =>
      cases actionEl with
      | none =>
        have h : includes "" "signed" = false := by decide
        simp [h]
      | some text =>
        cases dateEl <;> simp

theorem findSignedDate_eq_expected (actionRows : List ActionRow) :
    findSignedDate actionRows = expectedSignedDate actionRows := by
  induction actionRows with
  | nil => rfl
  | cons row rest ih =>
    rw [findSignedDate_cons]
    unfold expectedSignedDate at ih ⊢
    by_cases h : isSigningRow row = true
    · simp [List.find?_cons, h]
    · simp only [Bool.not_eq_true] at h
      simp [List.find?_cons, h, ih]

/-- C11: the `signedDate` the BILL_DETAIL handler emits is the trimmed date
text of the first row, in table order, that has a date cell and an action cell
and whose action text contains "signed" with letter case ignored; it is the
empty string when no row qualifies; rows after the first match never change
the result. -/
theorem signedDate_first_match (request : Request) (page : DetailPage) :
    (detailRecord request page).signedDate = expectedSignedDate page.actionRows ∧
    (∀ before row after, (∀ r ∈ before, isSigningRow r = false) → isSigningRow row = true →
      findSignedDate (before ++ row :: after) = trimmedText row.dateEl) ∧
    (∀ rows, (∀ r ∈ rows, isSigningRow r = false) → findSignedDate rows = "") ∧
    (∀ row, isSigningRow row = true ↔
      ∃ dateEl text, row.dateEl = some dateEl ∧ row.actionEl = some (some text) ∧
        ∃ before block after, text.toList = before ++ block ++ after ∧
          block.map Char.toLower = "signed".toList) := by
  refine ⟨findSignedDate_eq_expected _, ?_, ?_, ?_⟩
  · intro before row after hb hr
    induction before with
    | nil => simp [findSignedDate_cons, hr]
    | cons b bs ih =>
      rw [List.cons_append, findSignedDate_cons, hb b (List.mem_cons_self _ _)]
      exact ih (fun r hm => hb r (List.mem_cons_of_mem _ hm))
  · intro rows hrows
    induction rows with
    | nil => rfl
    | cons r rs ih =>
      rw [findSignedDate_cons, hrows r (List.mem_cons_self _ _)]
      exact ih (fun x hm => hrows x (List.mem_cons_of_mem _ hm))
  · intro row
    unfold isSigningRow
    cases hd : row.dateEl with
    | none => simp
    | some dateEl =>
      cases ha : row.actionEl with
      | none => simp
      | some actionEl =>
        cases actionEl with
        | none => simp
        | some text => simp [includes_toLowerCase_iff]

/-- Witness for C11: of two signing rows the first gives the date. -/
theorem signedDate_first_match_witness :
    findSignedDate
      ([{ dateEl := some (some "Jan 2, 2025"), actionEl := some (some "REFERRED TO RULES") }] ++
        { dateEl := some (some " Mar 3, 2025 "), actionEl := some (some "SIGNED CHAP.12") } ::
        [{ dateEl := some (some "Apr 4, 2025"), actionEl := some (some "signed again") }]) =
      trimmedText (some (some " Mar 3, 2025 ")) :=
  (signedDate_first_match sampleDetailRequest sampleDetailPage).2.1 _ _ _
    (by decide) (by decide)

/-! ## Upload batches (pinecone-service.ts) -/

theorem buildVectors_cons_ok (toLower : String → String) (env : UploadEnv) (p : Nat)
    (bill : Json) (rest : List Json) (all : List VectorRecord)
    (h : buildVectors toLower env p (bill :: rest) = .ok all) :
    ∃ v vs, buildVector toLower env p bill = .ok v ∧
      buildVectors toLower env (p + 1) rest = .ok vs ∧ all = v :: vs := by
  rw [buildVectors] at h
  cases hv : buildVector toLower env p bill with
  | error e => simp [hv] at h
  | ok v =>
    cases hvs : buildVectors toLower env (p + 1) rest with
    | error e => simp [hv, hvs] at h
    | ok vs =>
      simp only [hv, hvs, Except.ok.injEq] at h
      exact ⟨v, vs, rfl, rfl, h.symm⟩

theorem buildVectors_length (toLower : String → String) (env : UploadEnv) (bills : List Json) :
    ∀ (p : Nat) (all : List VectorRecord), buildVectors toLower env p bills = .ok all →
      all.length = bills.length := by
  induction bills with
  | nil =>
    intro p all h
    simp only [buildVectors, Except.ok.injEq] at h
    subst h
    rfl
  | cons b rest ih =>
    intro p all h
    obtain ⟨v, vs, _, hvs, rfl⟩ := buildVectors_cons_ok toLower env p b rest all h
    simp [ih (p + 1) vs hvs]

theorem buildVectors_drop (toLower : String → String) (env : UploadEnv) (i : Nat) :
    ∀ (p : Nat) (bills : List Json) (all : List VectorRecord),
      buildVectors toLower env p bills = .ok all →
      buildVectors toLower env (p + i) (bills.drop i) = .ok (all.drop i) := by
  induction i with
  | zero => intro p bills all h; simpa using h
  | succ i ih =>
    intro p bills all h
    cases bills with
    | nil =>
      simp only [buildVectors, Except.ok.injEq] at h
      subst h
      simp [buildVectors]
    | cons b rest =>
      obtain ⟨v, vs, _, hvs, rfl⟩ := buildVectors_cons_ok toLower env p b rest all h
      have := ih (p + 1) rest vs hvs
      simp only [List.drop_succ_cons]
      rw [show p + (i + 1) = p + 1 + i by omega]
      exact this

theorem buildVectors_take (toLower : String → String) (env : UploadEnv) (m : Nat) :
    ∀ (p : Nat) (bills : List Json) (all : List VectorRecord),
      buildVectors toLower env p bills = .ok all →
      buildVectors toLower env p (bills.take m) = .ok (all.take m) := by
  induction m with
  | zero => intro p bills all _; simp [buildVectors]
  | succ m ih =>
    intro p bills all h
    cases bills with
    | nil =>
      simp only [buildVectors, Except.ok.injEq] at h
      subst h
      simp [buildVectors]
    | cons b rest =>
      obtain ⟨v, vs, hv, hvs, rfl⟩ := buildVectors_cons_ok toLower env p b rest all h
      have := ih (p + 1) rest vs hvs
      simp only [List.take_succ_cons]
      rw [buildVectors, hv, this]

theorem buildVectors_getElem? (toLower : String → String) (env : UploadEnv) :
    ∀ (bills : List Json) (p : Nat) (all : List VectorRecord),
      buildVectors toLower env p bills = .ok all →
      ∀ (j : Nat) (bill : Json), bills[j]? = some bill →
        ∃ v, all[j]? = some v ∧ buildVector toLower env (p + j) bill = .ok v := by
  intro bills
  induction bills with
  | nil => intro p all _ j bill hj; simp at hj
  | cons b rest ih =>
    intro p all h j bill hj
    obtain ⟨v, vs, hv, hvs, rfl⟩ := buildVectors_cons_ok toLower env p b rest all h
    cases j with
    | zero =>
      simp only [List.getElem?_cons_zero, Option.some.injEq] at hj
      subst hj
      exact ⟨v, by simp, hv⟩
    | succ j =>
      simp only [List.getElem?_cons_succ] at hj
      obtain ⟨w, hw1, hw2⟩ := ih (p + 1) vs hvs j bill hj
      refine ⟨w, by simpa using hw1, ?_⟩
      rw [show p + (j + 1) = p + 1 + j by omega]
      exact hw2

/-- The loop when every vector can be built and every upsert call succeeds:
it issues the batches from index `i` on, one call per hundred records. -/
theorem uploadBatches_ok (toLower : String → String) (env : UploadEnv) (bills : List Json)
    (all : List VectorRecord) (hall : buildVectors toLower env 0 bills = .ok all)
    (hups : ∀ k, k < (bills.length + 99) / 100 → env.upsert k = .ok ()) :
    ∀ (m i : Nat) (upserts : List (List VectorRecord)), bills.length - i = m →
      uploadBatches toLower env bills i upserts =
        { upserts := upserts ++ (List.range ((bills.length - i + 99) / 100)).map
            (fun k => (all.drop (i + 100 * k)).take 100),
          outcome := .ok () } := by
  intro m
  induction m using Nat.strong_induction_on with
  | _ m ih =>
    intro i upserts hm
    rw [uploadBatches]
    by_cases hi : i < bills.length
    · have hb : buildVectors toLower env i ((bills.drop i).take BATCH_SIZE) =
          .ok ((all.drop i).take 100) := by
        have h1 := buildVectors_drop toLower env i 0 bills all hall
        rw [Nat.zero_add] at h1
        exact buildVectors_take toLower env 100 i _ _ h1
      have hu : env.upsert (i / BATCH_SIZE) = .ok () := hups _ (by
        show i / 100 < (bills.length + 99) / 100
        omega)
      simp only [hi, dite_true, hb, hu]
      rw [ih (bills.length - (i + 100)) (by omega) (i + BATCH_SIZE) _ rfl]
      have hn : (bills.length - i + 99) / 100 = (bills.length - (i + 100) + 99) / 100 + 1 := by
        omega
      rw [hn, List.range_succ_eq_map, List.map_cons, List.map_map, List.append_assoc]
      simp only [Nat.mul_zero, Nat.add_zero, List.singleton_append, UploadRun.mk.injEq,
        List.append_cancel_left_eq, List.cons.injEq, true_and, and_true]
      apply List.map_congr_left
      intro k _
      simp only [Function.comp_apply]
      rw [show i + BATCH_SIZE + 100 * k = i + 100 * (k + 1) by simp only [BATCH_SIZE]; omega]
    · have hz : (bills.length - i + 99) / 100 = 0 := by omega
      simp [hi, hz]

theorem expectedBatches_length {α : Type} (all : List α) :
    (expectedBatches all).length = (all.length + 99) / 100 := by
  simp [expectedBatches]

theorem expectedBatches_mem {α : Type} (all : List α) :
    ∀ b ∈ expectedBatches all, 1 ≤ b.length ∧ b.length ≤ 100 := by
  intro b hb
  simp only [expectedBatches, List.mem_map, List.mem_range] at hb
  obtain ⟨k, hk, rfl⟩ := hb
  simp only [List.length_take, List.length_drop]
  omega

theorem expectedBatches_cons {α : Type} (all : List α) (h : all ≠ []) :
    expectedBatches all = all.take 100 :: expectedBatches (all.drop 100) := by
  have hpos : 0 < all.length := List.length_pos.mpr h
  unfold expectedBatches
  have hn : (all.length + 99) / 100 = ((all.drop 100).length + 99) / 100 + 1 := by
    simp only [List.length_drop]
    omega
  rw [hn, List.range_succ_eq_map, List.map_cons, List.map_map]
  simp only [Nat.mul_zero, List.drop_zero, List.cons.injEq, true_and]
  apply List.map_congr_left
  intro k _
  simp only [Function.comp_apply, List.drop_drop]
  rw [show 100 * (k + 1) = 100 + 100 * k by omega]

theorem expectedBatches_flatten {α : Type} (all : List α) :
    (expectedBatches all).flatten = all := by
  generalize hlen : all.length = n
  induction n using Nat.strong_induction_on generalizing all with
  | _ n ih =>
    by_cases h : all = []
    · subst h; simp [expectedBatches]
    · rw [expectedBatches_cons all h, List.flatten_cons,
        ih (all.drop 100).length (by
          have hpos : 0 < all.length := List.length_pos.mpr h
          simp only [List.length_drop]
          omega) (all.drop 100) rfl]
      exact List.take_append_drop 100 all

/-- A whole run when the index can be initialised, every vector can be built
and every upsert call succeeds. -/
theorem uploadDatasetToPinecone_ok (toLower : String → String) (env : UploadEnv)
    (bills : List Json) (all : List VectorRecord)
    (hinit : env.initializePineconeIndex = .ok ())
    (hall : buildVectors toLower env 0 bills = .ok all)
    (hups : ∀ k, k < (bills.length + 99) / 100 → env.upsert k = .ok ()) :
    uploadDatasetToPinecone toLower env bills =
      { upserts := expectedBatches all, outcome := .ok () } := by
  unfold uploadDatasetToPinecone
  rw [hinit]
  simp only
  rw [uploadBatches_ok toLower env bills all hall hups bills.length 0 [] rfl]
  simp only [List.nil_append, Nat.sub_zero, Nat.zero_add, expectedBatches,
    buildVectors_length toLower env bills 0 all hall]

theorem buildVector_of_title (toLower : String → String) (env : UploadEnv) (p : Nat)
    (bill : Json) (s : String) (hs : s ≠ "")
    (h : bill.field "billTitle" = some (Json.str s)) :
    ∃ v, buildVector toLower env p bill = .ok v ∧ v.id = toLower (replaceWhitespace s) ∧
      v.metadata = vectorMetadata bill := by
  cases bill with
  | obj fields =>
    refine ⟨{ id := toLower (replaceWhitespace s), values := env.generateEmbeddings p,
              metadata := vectorMetadata (Json.obj fields) }, ?_, rfl, rfl⟩
    simp [buildVector, vectorId, h, Json.truthy, hs]
  | _ => simp [Json.field] at h

theorem titleOf_ne_empty {bill : Json} (h : titleOf bill ≠ "") :
    ∃ s, s ≠ "" ∧ bill.field "billTitle" = some (Json.str s) := by
  unfold titleOf at h
  cases hf : bill.field "billTitle" with
  | none => simp [hf] at h
  | some v =>
    cases v with
    | str s => exact ⟨s, by simpa [hf] using h, rfl⟩
    | _ => simp [hf] at h

theorem buildVectors_of_titles (toLower : String → String) (env : UploadEnv)
    (bills : List Json) (h : ∀ bill ∈ bills, titleOf bill ≠ "") :
    ∀ p, ∃ all, buildVectors toLower env p bills = .ok all ∧
      all.map (fun v => v.id) = bills.map (normalizedTitle toLower) := by
  induction bills with
  | nil => intro p; exact ⟨[], rfl, rfl⟩
  | cons b rest ih =>
    intro p
    obtain ⟨s, hs, hf⟩ := titleOf_ne_empty (h b (List.mem_cons_self _ _))
    obtain ⟨v, hv, hid, _⟩ := buildVector_of_title toLower env p b s hs hf
    obtain ⟨vs, hvs, hids⟩ := ih (fun x hx => h x (List.mem_cons_of_mem _ hx)) (p + 1)
    refine ⟨v :: vs, by rw [buildVectors, hv, hvs], ?_⟩
    simp only [List.map_cons, hids, hid, normalizedTitle, hf]

theorem upsertBatch_other (vectors : List VectorRecord) (index : Index) (key : String)
    (h : key ∉ vectors.map fun v => v.id) : upsertBatch index vectors key = index key := by
  induction vectors generalizing index with
  | nil => rfl
  | cons w rest ih =>
    simp only [List.map_cons, List.mem_cons, not_or] at h
    show upsertBatch (Function.update index w.id (some w)) rest key = index key
    rw [ih _ h.2, Function.update_noteq h.1]

theorem upsertBatch_holds (vectors : List VectorRecord) (index : Index)
    (hnodup : (vectors.map fun v => v.id).Nodup) :
    ∀ v ∈ vectors, upsertBatch index vectors v.id = some v := by
  induction vectors generalizing index with
  | nil => intro v hv; cases hv
  | cons w rest ih =>
    intro v hv
    simp only [List.map_cons, List.nodup_cons] at hnodup
    show upsertBatch (Function.update index w.id (some w)) rest v.id = some v
    rcases List.mem_cons.mp hv with rfl | hv
    · rw [upsertBatch_other rest _ _ hnodup.1, Function.update_same]
    · exact ih _ hnodup.2 v hv

theorem indexAfter_eq_flatten (upserts : List (List VectorRecord)) (index : Index) :
    indexAfter index upserts = upsertBatch index upserts.flatten := by
  induction upserts generalizing index with
  | nil => rfl
  | cons b rest ih =>
    show indexAfter (upsertBatch index b) rest = _
    rw [ih, List.flatten_cons]
    simp [upsertBatch, List.foldl_append]

/-- C12: for a record with a non-empty title the vector id is the title with
every run of white space replaced by a hyphen and then lower-cased; it does
not depend on the record's other fields, its position, the embedding, the
clock or the random source, so equal titles give equal ids in one run and
across runs. -/
theorem vectorId_function_of_title (toLower : String → String) (env env' : UploadEnv)
    (p p' : Nat) (bill bill' : Json) (s : String) (hs : s ≠ "")
    (h : bill.field "billTitle" = some (Json.str s))
    (h' : bill'.field "billTitle" = some (Json.str s)) :
    ∃ v v', buildVector toLower env p bill = .ok v ∧
      buildVector toLower env' p' bill' = .ok v' ∧
      v.id = toLower (replaceWhitespace s) ∧ v'.id = v.id ∧
      replaceWhitespace "Senate  Bill\tS100" = "Senate-Bill-S100" := by
  obtain ⟨v, hv, hid, _⟩ := buildVector_of_title toLower env p bill s hs h
  obtain ⟨v', hv', hid', _⟩ := buildVector_of_title toLower env' p' bill' s hs h'
  exact ⟨v, v', hv, hv', hid, by rw [hid, hid'], by decide⟩

/-- Witness for C12: two items titled "Senate Bill S100", at different
positions of different runs. -/
theorem vectorId_function_of_title_witness :
    ∃ v v', buildVector toLowerCase sampleUploadEnv 0 (billItem "Senate Bill S100" "a") = .ok v ∧
      buildVector toLowerCase failingUpsertEnv 7 (billItem "Senate Bill S100" "b") = .ok v' ∧
      v.id = toLowerCase (replaceWhitespace "Senate Bill S100") ∧ v'.id = v.id ∧
      replaceWhitespace "Senate  Bill\tS100" = "Senate-Bill-S100" :=
  vectorId_function_of_title toLowerCase sampleUploadEnv failingUpsertEnv 0 7
    (billItem "Senate Bill S100" "a") (billItem "Senate Bill S100" "b") "Senate Bill S100"
    (by decide) rfl rfl

theorem uploadBatches_nil (toLower : String → String) (env : UploadEnv) (i : Nat)
    (upserts : List (List VectorRecord)) :
    uploadBatches toLower env [] i upserts = { upserts := upserts, outcome := .ok () } := by
  rw [uploadBatches]
  simp

theorem uploadDatasetToPinecone_nil (toLower : String → String) (env : UploadEnv) :
    (uploadDatasetToPinecone toLower env []).upserts = [] := by
  unfold uploadDatasetToPinecone
  cases env.initializePineconeIndex with
  | error e => rfl
  | ok u => simp only [uploadBatches_nil]

theorem uploadDatasetToPinecone_initError (toLower : String → String) (env : UploadEnv)
    (bills : List Json) (e : String) (h : env.initializePineconeIndex = .error e) :
    uploadDatasetToPinecone toLower env bills = { upserts := [], outcome := .error e } := by
  unfold uploadDatasetToPinecone
  rw [h]

/-- C13 as stated fails: two records with distinct, non-empty titles that
differ only in white space get the same vector id, so the ids are not pairwise
distinct and after the upserts the index holds one entry, that of the second
record, for the two of them. -/
theorem distinct_titles_same_id :
    (collidingBills.map titleOf).Nodup ∧ (∀ bill ∈ collidingBills, titleOf bill ≠ "") ∧
    ((uploadDatasetToPinecone toLowerCase sampleUploadEnv collidingBills).upserts.flatten.map
      fun v => v.id) = ["s-100", "s-100"] ∧
    (indexAfter emptyIndex
      (uploadDatasetToPinecone toLowerCase sampleUploadEnv collidingBills).upserts
      "s-100").map descriptionOf = some "second" := by
  have hrun : uploadDatasetToPinecone toLowerCase sampleUploadEnv collidingBills =
      { upserts := expectedBatches
          [{ id := "s-100", values := [0, 0], metadata := vectorMetadata (billItem "S 100" "first") },
           { id := "s-100", values := [0, 0],
             metadata := vectorMetadata (billItem "S  100" "second") }],
        outcome := .ok () } :=
    uploadDatasetToPinecone_ok toLowerCase sampleUploadEnv collidingBills _ rfl rfl
      (fun _ _ => rfl)
  refine ⟨by decide, by decide, ?_, ?_⟩
  · rw [hrun]
    simp only [expectedBatches_flatten]
    rfl
  · rw [hrun, indexAfter_eq_flatten]
    simp only [expectedBatches_flatten]
    rfl

/-- C13, amended: when the titles are non-empty strings that stay pairwise
distinct after normalisation (white space runs to hyphens, lower case), every
vector can be built, the ids are the normalised titles and pairwise distinct,
and after a run in which the index is initialised and every upsert succeeds
the index holds under each record's id the vector of that record. -/
theorem upload_one_vector_per_normalized_title (toLower : String → String) (env : UploadEnv)
    (bills : List Json) (index : Index)
    (htitles : ∀ bill ∈ bills, titleOf bill ≠ "")
    (hnorm : (bills.map (normalizedTitle toLower)).Nodup)
    (hinit : env.initializePineconeIndex = .ok ())
    (hups : ∀ k, k < (bills.length + 99) / 100 → env.upsert k = .ok ()) :
    ∃ all, buildVectors toLower env 0 bills = .ok all ∧
      all.length = bills.length ∧
      all.map (fun v => v.id) = bills.map (normalizedTitle toLower) ∧
      (all.map fun v => v.id).Nodup ∧
      (uploadDatasetToPinecone toLower env bills).outcome = .ok () ∧
      (uploadDatasetToPinecone toLower env bills).upserts.flatten = all ∧
      ∀ v ∈ all,
        indexAfter index (uploadDatasetToPinecone toLower env bills).upserts v.id = some v := by
  obtain ⟨all, hall, hids⟩ := buildVectors_of_titles toLower env bills htitles 0
  have hnodup : (all.map fun v => v.id).Nodup := by rw [hids]; exact hnorm
  have hrun := uploadDatasetToPinecone_ok toLower env bills all hinit hall hups
  refine ⟨all, hall, buildVectors_length toLower env bills 0 all hall, hids, hnodup, ?_, ?_, ?_⟩
  · rw [hrun]
  · rw [hrun]; exact expectedBatches_flatten all
  · intro v hv
    rw [hrun, indexAfter_eq_flatten]
    simp only [expectedBatches_flatten]
    exact upsertBatch_holds all index hnodup v hv

/-- Witness for C13: two records titled S100 and S200. -/
theorem upload_one_vector_per_normalized_title_witness :
    ∃ all, buildVectors toLowerCase sampleUploadEnv 0
        [billItem "S100" "first", billItem "S200" "second"] = .ok all ∧
      all.length = 2 ∧
      all.map (fun v => v.id) =
        [billItem "S100" "first", billItem "S200" "second"].map (normalizedTitle toLowerCase) ∧
      (all.map fun v => v.id).Nodup ∧
      (uploadDatasetToPinecone toLowerCase sampleUploadEnv
        [billItem "S100" "first", billItem "S200" "second"]).outcome = .ok () ∧
      (uploadDatasetToPinecone toLowerCase sampleUploadEnv
        [billItem "S100" "first", billItem "S200" "second"]).upserts.flatten = all ∧
      ∀ v ∈ all,
        indexAfter emptyIndex (uploadDatasetToPinecone toLowerCase sampleUploadEnv
          [billItem "S100" "first", billItem "S200" "second"]).upserts v.id = some v :=
  upload_one_vector_per_normalized_title toLowerCase sampleUploadEnv
    [billItem "S100" "first", billItem "S200" "second"] emptyIndex
    (by decide) (by decide) rfl (fun _ _ => rfl)

/-- C14 as stated fails: with three records and an index that cannot be
initialised no upsert call is issued, though `ceil(3/100) = 1`; and a single
record whose `billTitle` is the number 5 makes the vector preparation throw
before the first upsert. -/
theorem fewer_upserts_than_batches :
    (uploadDatasetToPinecone toLowerCase failingInitEnv
      [billItem "S100" "a", billItem "S200" "b", billItem "S300" "c"]).upserts.length = 0 ∧
    ([billItem "S100" "a", billItem "S200" "b", billItem "S300" "c"].length + 99) / 100 = 1 ∧
    (uploadDatasetToPinecone toLowerCase sampleUploadEnv
      [Json.obj [("billTitle", Json.num 5)]]).upserts.length = 0 := by
  refine ⟨?_, by decide, ?_⟩
  · rw [uploadDatasetToPinecone_initError _ _ _ "PineconeConnectionError" rfl]
    rfl
  · unfold uploadDatasetToPinecone
    simp only [sampleUploadEnv]
    rw [uploadBatches]
    simp [buildVectors, buildVector, vectorId, Json.field, List.lookup, Json.truthy]

/-- C14, amended: when the index is initialised, every vector can be built
and every upsert succeeds, a list of `n` records gives exactly `ceil(n/100)`
upsert calls; call `k` carries the vectors of the records at positions `100k`
up to `min(100k+100, n)-1`, in order; every batch has between 1 and 100
vectors; the batches put end to end are the vectors of all records, each once.
An empty list issues no upsert in any case. -/
theorem upload_batches_of_hundred (toLower : String → String) (env : UploadEnv)
    (bills : List Json) (all : List VectorRecord)
    (hinit : env.initializePineconeIndex = .ok ())
    (hall : buildVectors toLower env 0 bills = .ok all)
    (hups : ∀ k, k < (bills.length + 99) / 100 → env.upsert k = .ok ()) :
    (uploadDatasetToPinecone toLower env bills).outcome = .ok () ∧
    (uploadDatasetToPinecone toLower env bills).upserts.length = (bills.length + 99) / 100 ∧
    (∀ k batch, (uploadDatasetToPinecone toLower env bills).upserts[k]? = some batch →
      batch = (all.drop (100 * k)).take 100 ∧ 1 ≤ batch.length ∧ batch.length ≤ 100) ∧
    (uploadDatasetToPinecone toLower env bills).upserts.flatten = all ∧
    all.length = bills.length ∧
    (∀ j bill, bills[j]? = some bill →
      ∃ v, all[j]? = some v ∧ buildVector toLower env j bill = .ok v) ∧
    (uploadDatasetToPinecone toLower env []).upserts = [] := by
  have hrun := uploadDatasetToPinecone_ok toLower env bills all hinit hall hups
  have hlen := buildVectors_length toLower env bills 0 all hall
  refine ⟨by rw [hrun], by rw [hrun, expectedBatches_length, hlen], ?_,
    by rw [hrun]; exact expectedBatches_flatten all, hlen, ?_,
    uploadDatasetToPinecone_nil toLower env⟩
  · intro k batch hk
    rw [hrun] at hk
    have hmem : batch ∈ expectedBatches all := List.getElem?_mem hk
    refine ⟨?_, expectedBatches_mem all batch hmem⟩
    simp only [expectedBatches, List.getElem?_map] at hk
    cases hr : (List.range ((all.length + 99) / 100))[k]? with
    | none => simp [hr] at hk
    | some k' =>
      have hk' : k' = k := by
        by_cases hlt : k < (all.length + 99) / 100
        · rw [List.getElem?_range hlt] at hr
          exact (Option.some.inj hr).symm
        · rw [List.getElem?_eq_none (by simpa using Nat.le_of_not_lt hlt)] at hr
          cases hr
      subst hk'
      simp only [hr, Option.map_some', Option.some.injEq] at hk
      exact hk.symm
  · intro j bill hj
    have := buildVectors_getElem? toLower env bills 0 all hall j bill hj
    simpa using this

/-- Witness for C14: three records go out in one batch. -/
theorem upload_batches_of_hundred_witness :
    (uploadDatasetToPinecone toLowerCase sampleUploadEnv
      [billItem "S100" "a", billItem "S200" "b", billItem "S300" "c"]).upserts.length = 1 :=
  (upload_batches_of_hundred toLowerCase sampleUploadEnv
    [billItem "S100" "a", billItem "S200" "b", billItem "S300" "c"] _ rfl rfl
    (fun _ _ => rfl)).2.1

/-- What holds of the calls issued by the loop from index `i = 100 * |acc|`
on: they extend the earlier calls, call `j` carries the vectors of the records
from position `100j`, every call but the last succeeded, and a call that was
rejected is the last one and its error is the outcome. -/
theorem uploadBatches_calls (toLower : String → String) (env : UploadEnv) (bills : List Json) :
    ∀ (m i : Nat) (acc : List (List VectorRecord)), bills.length - i = m →
      i = 100 * acc.length →
      (∃ new, (uploadBatches toLower env bills i acc).upserts = acc ++ new) ∧
      (∀ j batch, acc.length ≤ j →
        (uploadBatches toLower env bills i acc).upserts[j]? = some batch →
        buildVectors toLower env (100 * j) ((bills.drop (100 * j)).take 100) = .ok batch) ∧
      (∀ j, acc.length ≤ j → j + 1 < (uploadBatches toLower env bills i acc).upserts.length →
        env.upsert j = .ok ()) ∧
      (∀ j e, acc.length ≤ j → j < (uploadBatches toLower env bills i acc).upserts.length →
        env.upsert j = .error e →
        (uploadBatches toLower env bills i acc).upserts.length = j + 1 ∧
        (uploadBatches toLower env bills i acc).outcome = .error e) := by
  intro m
  induction m using Nat.strong_induction_on with
  | _ m ih =>
    intro i acc hm hi
    have hidx : i / BATCH_SIZE = acc.length := by
      show i / 100 = _
      omega
    rw [uploadBatches]
    by_cases hlt : i < bills.length
    · simp only [hlt, dite_true]
      cases hb : buildVectors toLower env i ((bills.drop i).take BATCH_SIZE) with
      | error e0 =>
        refine ⟨⟨[], by simp⟩, ?_, ?_, ?_⟩
        · intro j batch hj hget
          simp only [List.getElem?_eq_none hj] at hget
          cases hget
        · intro j hj hlen
          simp only at hlen
          omega
        · intro j e hj hlen
          simp only at hlen
          omega
      | ok vectors =>
        cases hu : env.upsert (i / BATCH_SIZE) with
        | error e0 =>
          refine ⟨⟨[vectors], rfl⟩, ?_, ?_, ?_⟩
          · intro j batch hj hget
            simp only at hget
            by_cases hje : j = acc.length
            · subst hje
              simp only [List.getElem?_append_right (Nat.le_refl _), Nat.sub_self,
                List.getElem?_cons_zero, Option.some.injEq] at hget
              subst hget
              rw [← hi]
              exact hb
            · have hlen : (acc ++ [vectors]).length ≤ j := by
                simp only [List.length_append, List.length_singleton]
                omega
              rw [List.getElem?_eq_none hlen] at hget
              cases hget
          · intro j hj hlen
            simp only [List.length_append, List.length_singleton] at hlen
            omega
          · intro j e hj hlen he
            simp only [List.length_append, List.length_singleton] at hlen ⊢
            have hje : j = acc.length := by omega
            subst hje
            rw [hidx] at hu
            rw [hu] at he
            simp only [Except.error.injEq] at he
            subst he
            exact ⟨rfl, rfl⟩
        | ok u =>
          simp only
          obtain ⟨⟨new, h1⟩, h2, h3, h4⟩ := ih (bills.length - (i + 100)) (by omega)
            (i + BATCH_SIZE) (acc ++ [vectors]) rfl
            (by simp only [List.length_append, List.length_singleton]; show i + 100 = _; omega)
          have hat : (uploadBatches toLower env bills (i + BATCH_SIZE)
              (acc ++ [vectors])).upserts[acc.length]? = some vectors := by
            rw [h1, List.append_assoc, List.getElem?_append_right (Nat.le_refl _)]
            simp
          refine ⟨⟨[vectors] ++ new, by rw [h1, List.append_assoc]⟩, ?_, ?_, ?_⟩
          · intro j batch hj hget
            by_cases hje : j = acc.length
            · subst hje
              rw [hat] at hget
              simp only [Option.some.injEq] at hget
              subst hget
              rw [← hi]
              exact hb
            · exact h2 j batch (by simp only [List.length_append, List.length_singleton]; omega)
                hget
          · intro j hj hlen
            by_cases hje : j = acc.length
            · subst hje
              rw [hidx] at hu
              rw [hu]
            · exact h3 j (by simp only [List.length_append, List.length_singleton]; omega) hlen
          · intro j e hj hlen he
            by_cases hje : j = acc.length
            · subst hje
              rw [hidx] at hu
              rw [hu] at he
              cases he
            · exact h4 j e (by simp only [List.length_append, List.length_singleton]; omega)
                hlen he
    · simp only [hlt, dite_false]
      refine ⟨⟨[], by simp⟩, ?_, ?_, ?_⟩
      · intro j batch hj hget
        simp only [List.getElem?_eq_none hj] at hget
        cases hget
      · intro j hj hlen
        omega
      · intro j e hj hlen
        omega

/-- C15: if the upsert of batch `k` is rejected, that call is the last one
issued (no later batch is upserted and the call is not repeated), every batch
before `k` was issued with the vectors of its hundred records and accepted,
and the function ends by throwing the error of that upsert. -/
theorem upload_stops_at_failed_batch (toLower : String → String) (env : UploadEnv)
    (bills : List Json) (k : Nat) (e : String)
    (hk : k < (uploadDatasetToPinecone toLower env bills).upserts.length)
    (he : env.upsert k = .error e) :
    (uploadDatasetToPinecone toLower env bills).upserts.length = k + 1 ∧
    (uploadDatasetToPinecone toLower env bills).outcome = .error e ∧
    (∀ j, j < k → env.upsert j = .ok ()) ∧
    (∀ j batch, (uploadDatasetToPinecone toLower env bills).upserts[j]? = some batch →
      buildVectors toLower env (100 * j) ((bills.drop (100 * j)).take 100) = .ok batch) := by
  unfold uploadDatasetToPinecone at hk ⊢
  cases hinit : env.initializePineconeIndex with
  | error e0 => simp [hinit] at hk
  | ok u =>
    simp only [hinit] at hk ⊢
    obtain ⟨_, h2, h3, h4⟩ := uploadBatches_calls toLower env bills bills.length 0 [] rfl rfl
    obtain ⟨hlen, hout⟩ := h4 k e (Nat.zero_le _) hk he
    refine ⟨hlen, hout, ?_, ?_⟩
    · intro j hj
      exact h3 j (Nat.zero_le _) (by rw [hlen]; omega)
    · intro j batch hget
      exact h2 j batch (Nat.zero_le _) hget

/-- Witness for C15: three records, the first upsert is rejected. -/
theorem upload_stops_at_failed_batch_witness :
    (uploadDatasetToPinecone toLowerCase failingUpsertEnv
      [billItem "S100" "a", billItem "S200" "b", billItem "S300" "c"]).upserts.length = 1 ∧
    (uploadDatasetToPinecone toLowerCase failingUpsertEnv
      [billItem "S100" "a", billItem "S200" "b", billItem "S300" "c"]).outcome =
        .error "PineconeBadRequestError" :=
  have h := upload_stops_at_failed_batch toLowerCase failingUpsertEnv
    [billItem "S100" "a", billItem "S200" "b", billItem "S300" "c"] 0 "PineconeBadRequestError"
    (by
      unfold uploadDatasetToPinecone
      simp only [failingUpsertEnv, sampleUploadEnv]
      rw [uploadBatches]
      simp [buildVectors, buildVector, vectorId, Json.field, List.lookup, Json.truthy,
        billItem])
    rfl
  ⟨h.1, h.2.1⟩

/-! ## Upload failure in main.ts -/

theorem handlePineconeUpload_upload_irrelevant (env : Env) (st : RunState)
    (u : List Json → Except String Unit) :
    handlePineconeUpload { env with upload := u } st = handlePineconeUpload env st := by
  rcases handlePineconeUpload_cases env st with ⟨h1, h2⟩ | ⟨items, h1, h2, h3, h4⟩
  · rcases handlePineconeUpload_cases { env with upload := u } st with
      ⟨h1', _⟩ | ⟨items', h1', h2', h3', _⟩
    · rw [h1, h1']
    · exact absurd ⟨h1', items', h2', h3'⟩ h2
  · rcases handlePineconeUpload_cases { env with upload := u } st with
      ⟨_, h2'⟩ | ⟨items', _, h2', _, h4'⟩
    · exact absurd ⟨h1, items, h2, h3⟩ h2'
    · have hi : items' = items := by
        have h5 : (Except.ok items' : Except String (List Json)) = Except.ok items :=
          h2'.symm.trans h2
        exact Except.ok.inj h5
      rw [h4, h4', hi]

theorem runCrawler_upload_irrelevant (input : Input) (env : Env)
    (u : List Json → Except String Unit) :
    runCrawler input { env with upload := u } = runCrawler input env := by
  unfold runCrawler
  simp only [handlePineconeUpload_upload_irrelevant]

theorem finish_rejected (input : Input) (st : RunState) :
    (finish input st).rejected = st.rejected := by
  unfold finish; split <;> rfl

theorem handlePineconeUpload_rejected (env : Env) (st : RunState) :
    (handlePineconeUpload env st).rejected = st.rejected := by
  rcases handlePineconeUpload_cases env st with ⟨h, _⟩ | ⟨items, _, _, _, h⟩ <;> rw [h]

theorem runCrawler_rejected_iff (input : Input) (env : Env) :
    (runCrawler input env).rejected = true ↔
      (env.currentBillCount > env.pineconeRecordCount ∧ env.crawl.isOk = false) := by
  unfold runCrawler
  by_cases h : env.currentBillCount > env.pineconeRecordCount
  · simp only [shouldRun_eq, h, decide_True, Bool.not_true, Bool.false_eq_true, if_false,
      true_and]
    cases hc : env.crawl with
    | error e => simp [Except.isOk, Except.toBool]
    | ok u =>
      simp only [finish_rejected, handlePineconeUpload_rejected, Except.isOk, Except.toBool]
      split <;> simp [saveBillCount]
  · simp only [shouldRun_eq, h, decide_False, Bool.not_false, if_true, false_and, iff_false,
      finish_rejected]
    split <;> simp [saveBillCount]

theorem finish_exits (input : Input) (st : RunState) (h : input.setupRagApi = false) :
    (finish input st).effects.any Effect.isExit = true := by
  unfold finish
  simp [h, List.any_append, Effect.isExit]

theorem runCrawler_exits_unless_rejected (input : Input) (env : Env)
    (hrej : (runCrawler input env).rejected = false) (hrag : input.setupRagApi = false) :
    processEnd (runCrawler input env) = ProcessEnd.exited 0 := by
  have hexit : (runCrawler input env).effects.any Effect.isExit = true := by
    unfold runCrawler at hrej ⊢
    by_cases h : env.currentBillCount > env.pineconeRecordCount
    · simp only [shouldRun_eq, h, decide_True, Bool.not_true, Bool.false_eq_true,
        if_false] at hrej ⊢
      cases hc : env.crawl with
      | error e => simp [hc] at hrej
      | ok u => exact finish_exits input _ hrag
    · simp only [shouldRun_eq, h, decide_False, Bool.not_false, if_true]
      exact finish_exits input _ hrag
  unfold processEnd
  simp [hrej, hexit]

theorem runCrawler_uploadAttempted_not_rejected (input : Input) (env : Env)
    (h : uploadAttempted (runCrawler input env) = true) :
    (runCrawler input env).rejected = false := by
  cases hr : (runCrawler input env).rejected with
  | false => rfl
  | true =>
    obtain ⟨hgt, hc⟩ := (runCrawler_rejected_iff input env).mp hr
    unfold runCrawler at h
    simp only [shouldRun_eq, hgt, decide_True, Bool.not_true, Bool.false_eq_true,
      if_false] at h
    cases hcr : env.crawl with
    | error e => simp [hcr, uploadAttempted, Effect.isUpload] at h
    | ok u => simp [hcr, Except.isOk, Except.toBool] at hc

/-- C16 as stated fails: with 5 bills against an empty index the upload is
attempted and every upsert is rejected, so `uploadDatasetToPinecone` throws;
`handlePineconeUpload` catches the error, the promise of `runCrawler` does not
reject, and the process ends through `Actor.exit()` with status 0. -/
theorem upload_failure_exits_zero :
    failingUploadRunEnv.upload [sampleItem] = .error "PineconeBadRequestError" ∧
    uploadAttempted (runCrawler {} failingUploadRunEnv) = true ∧
    (runCrawler {} failingUploadRunEnv).rejected = false ∧
    processEnd (runCrawler {} failingUploadRunEnv) = ProcessEnd.exited 0 := by
  have hrun : runCrawler {} failingUploadRunEnv = runCrawler {} (sampleEnv 5 0 none) :=
    runCrawler_upload_irrelevant {} (sampleEnv 5 0 none) _
  refine ⟨?_, ?_, ?_, ?_⟩
  · show (uploadDatasetToPinecone toLowerCase failingUpsertEnv [sampleItem]).outcome = _
    unfold uploadDatasetToPinecone
    simp only [failingUpsertEnv, sampleUploadEnv]
    rw [uploadBatches]
    simp [buildVectors, buildVector, vectorId, Json.field, List.lookup, Json.truthy,
      sampleItem]
  · rw [hrun]; decide
  · rw [hrun]; decide
  · rw [hrun]; decide

/-- C16, amended: in main.ts the outcome of `uploadDatasetToPinecone` never
changes the run: an upload failure is caught by `handlePineconeUpload`, the
promise of `runCrawler` does not reject, and unless the RAG server is started
the process ends through `Actor.exit()` with status 0. -/
theorem upload_failure_swallowed (input : Input) (env : Env)
    (u : List Json → Except String Unit) :
    runCrawler input { env with upload := u } = runCrawler input env ∧
    (uploadAttempted (runCrawler input env) = true →
      (runCrawler input env).rejected = false ∧
      (input.setupRagApi = false →
        processEnd (runCrawler input env) = ProcessEnd.exited 0)) := by
  refine ⟨runCrawler_upload_irrelevant input env u, ?_⟩
  intro h
  have hrej := runCrawler_uploadAttempted_not_rejected input env h
  exact ⟨hrej, runCrawler_exits_unless_rejected input env hrej⟩

/-- Witness for C16: the run with 5 bills against an empty index. -/
theorem upload_failure_swallowed_witness :
    (runCrawler {} (sampleEnv 5 0 none)).rejected = false ∧
    processEnd (runCrawler {} (sampleEnv 5 0 none)) = ProcessEnd.exited 0 :=
  have h := (upload_failure_swallowed {} (sampleEnv 5 0 none) (fun _ => .error "boom")).2
    (by decide)
  ⟨h.1, h.2 rfl⟩

/-! ## Upload metadata of an emitted record -/

theorem toJson_field (r : BillRecord) :
    r.toJson.field "billTitle" = some (Json.str r.billTitle) ∧
    r.toJson.field "description" = some (Json.str r.description) ∧
    r.toJson.field "issuedDate" = some (Json.str r.issuedDate) ∧
    r.toJson.field "detailPageUrl" = some (Json.str r.detailPageUrl) ∧
    r.toJson.field "url" = none ∧
    r.toJson.field "content" = none := by
  unfold BillRecord.toJson Json.field
  cases r.status <;> simp [List.lookup]

/-- C17, evaluated on the code: the vector built from a record emitted by the
BILL_DETAIL handler carries the record's title, description and issued date
and the empty string as content, but its `url` is undefined: the record keeps
the detail page URL under `detailPageUrl`, a field the upload never reads. -/
theorem upload_metadata_url_undefined (toLower : String → String) (env : UploadEnv)
    (p : Nat) (request : Request) (page : DetailPage) :
    ∃ v, buildVector toLower env p (detailRecord request page).toJson = .ok v ∧
      v.metadata.billTitle = some (Json.str (detailRecord request page).billTitle) ∧
      v.metadata.description = some (Json.str (detailRecord request page).description) ∧
      v.metadata.issuedDate = some (Json.str (detailRecord request page).issuedDate) ∧
      v.metadata.content = Json.str "" ∧
      v.metadata.url = none ∧
      (detailRecord request page).detailPageUrl = request.url := by
  obtain ⟨h1, h2, h3, _, h5, h6⟩ := toJson_field (detailRecord request page)
  have hid : ∃ id, vectorId toLower env p (detailRecord request page).toJson = .ok id := by
    unfold vectorId
    rw [h1]
    by_cases ht : (detailRecord request page).billTitle = ""
    · exact ⟨env.fallbackId p, by simp [Json.truthy, ht]⟩
    · exact ⟨toLower (replaceWhitespace (detailRecord request page).billTitle),
        by simp [Json.truthy, ht]⟩
  obtain ⟨id, hid⟩ := hid
  refine ⟨{ id := id, values := env.generateEmbeddings p,
            metadata := vectorMetadata (detailRecord request page).toJson }, ?_, ?_, ?_, ?_,
    ?_, ?_, rfl⟩
  · have hobj : ∃ fields, (detailRecord request page).toJson = Json.obj fields := ⟨_, rfl⟩
    obtain ⟨fields, hf⟩ := hobj
    rw [hf] at hid ⊢
    simp only [buildVector, hid]
  · exact h1
  · exact h2
  · exact h3
  · simp only [vectorMetadata, h6]
  · exact h5

/-! ## Source count probe (main.ts) -/

theorem includes_empty_false (pat : String) (h : pat ≠ "") : includes "" pat = false := by
  unfold includes
  have hne : pat.toList ≠ [] := by
    intro hl
    apply h
    exact String.ext hl
  simp only [String.toList] at hne
  simp [includesChars, hne]

theorem billCountText_cons (element : StatElement) (rest : List StatElement) :
    billCountText (element :: rest) =
      if isSignedIntoLaw element then
        (if element.textContent ≠ "" then element.textContent else "0")
      else billCountText rest := by
  rw [billCountText]
  unfold isSignedIntoLaw
  cases hd : element.descript with
  | none => simp
  | some inner =>
    cases inner with
    | none => simp
    | some text =>
      by_cases ht : text = ""
      · subst ht
        have h1 : toLowerCase "" = "" := by decide
        have h2 : includes "" "signed into law" = false :=
          includes_empty_false _ (by decide)
        simp [h1, h2]
      · simp [ht]

theorem billCountText_eq_expected (stats : List StatElement) :
    billCountText stats = expectedCountText stats := by
  induction stats with
  | nil => rfl
  | cons e rest ih =>
    rw [billCountText_cons]
    unfold expectedCountText at ih ⊢
    by_cases h : isSignedIntoLaw e = true
    · simp [List.find?_cons, h]
    · simp only [Bool.not_eq_true] at h
      simp [List.find?_cons, h, ih]

theorem find?_filter_self {α : Type} (p : α → Bool) (l : List α) :
    (l.filter p).find? p = l.find? p := by
  induction l with
  | nil => rfl
  | cons a rest ih =>
    by_cases h : p a = true
    · simp [List.filter_cons, List.find?_cons, h]
    · simp only [Bool.not_eq_true] at h
      simp [List.filter_cons, List.find?_cons, h, ih]

theorem expectedCountText_filter (stats : List StatElement) :
    expectedCountText (stats.filter isSignedIntoLaw) = expectedCountText stats := by
  unfold expectedCountText
  rw [find?_filter_self]

theorem getCurrentBillCount_handled (stats : List StatElement) :
    getCurrentBillCount (.handled stats) = parseBillCount (expectedCountText stats) := by
  unfold getCurrentBillCount
  cases stats with
  | nil => decide
  | cons e rest => simp [billCountText_eq_expected]

/-- C19: the count is read from the first `.c-stat` element whose description
contains "signed into law" with letter case ignored; statistics whose
description does not match can be added, removed or moved without changing
the text read or the count; when no statistic matches the text "0" is used. -/
theorem billCount_keyed_to_label (stats : List StatElement) :
    billCountText stats = expectedCountText stats ∧
    (∀ other : List StatElement,
      other.filter isSignedIntoLaw = stats.filter isSignedIntoLaw →
      billCountText other = billCountText stats ∧
      getCurrentBillCount (.handled other) = getCurrentBillCount (.handled stats)) ∧
    ((∀ e ∈ stats, isSignedIntoLaw e = false) → billCountText stats = "0") ∧
    (∀ e : StatElement, isSignedIntoLaw e = true ↔
      ∃ text, e.descript = some (some text) ∧
        ∃ before block after, text.toList = before ++ block ++ after ∧
          block.map Char.toLower = "signed into law".toList) := by
  refine ⟨billCountText_eq_expected stats, ?_, ?_, ?_⟩
  · intro other h
    have ht : expectedCountText other = expectedCountText stats := by
      rw [← expectedCountText_filter other, ← expectedCountText_filter stats, h]
    refine ⟨by rw [billCountText_eq_expected, billCountText_eq_expected, ht], ?_⟩
    rw [getCurrentBillCount_handled, getCurrentBillCount_handled, ht]
  · intro h
    rw [billCountText_eq_expected]
    unfold expectedCountText
    have hf : stats.find? isSignedIntoLaw = none := by
      rw [List.find?_eq_none]
      intro e he
      simp [h e he]
    rw [hf]
  · intro e
    unfold isSignedIntoLaw
    cases hd : e.descript with
    | none => simp
    | some inner =>
      cases inner with
      | none => simp
      | some text => simp [includes_toLowerCase_iff]

/-- Witness for C19: a statistic on committee meetings placed before the
signed bills does not change the text read. -/
theorem billCount_keyed_to_label_witness :
    billCountText
        [{ textContent := "412", descript := some (some "Committee Meetings") },
         { textContent := "89", descript := some (some "Bills Signed Into Law") }] =
      billCountText [{ textContent := "89", descript := some (some "Bills Signed Into Law") }] :=
  ((billCount_keyed_to_label
      [{ textContent := "89", descript := some (some "Bills Signed Into Law") }]).2.1
    [{ textContent := "412", descript := some (some "Committee Meetings") },
     { textContent := "89", descript := some (some "Bills Signed Into Law") }]
    (by decide)).1

theorem isDigit_iff (c : Char) : c.isDigit = true ↔ 48 ≤ c.toNat ∧ c.toNat ≤ 57 := by
  unfold Char.isDigit
  simp only [ge_iff_le, Bool.and_eq_true, decide_eq_true_eq]
  rw [UInt32.le_def, UInt32.le_def]
  rfl

theorem not_digit_of_whiteSpace (c : Char) (h : isJsWhiteSpace c = true) :
    c.isDigit = false := by
  cases hd : c.isDigit with
  | false => rfl
  | true =>
    rw [isDigit_iff] at hd
    simp only [isJsWhiteSpace, Bool.or_eq_true, beq_iff_eq, Bool.and_eq_true,
      decide_eq_true_eq] at h
    omega

theorem trim_toList (s : String) :
    (trim s).toList = List.rdropWhile isJsWhiteSpace (s.toList.dropWhile isJsWhiteSpace) := rfl

/-- The trimmed text does not start with white space. -/
theorem trim_head (s : String) (c : Char) (rest : List Char)
    (h : (trim s).toList = c :: rest) : isJsWhiteSpace c = false := by
  rw [trim_toList] at h
  obtain ⟨suffix, hs⟩ := List.rdropWhile_prefix isJsWhiteSpace
    (s.toList.dropWhile isJsWhiteSpace)
  rw [h] at hs
  have hnot := List.head?_dropWhile_not isJsWhiteSpace s.toList
  rw [← hs] at hnot
  simpa using hnot

/-- The text is its trimmed form between two stretches of white space. -/
theorem trim_decomp (s : String) :
    ∃ lead trail : List Char, (∀ c ∈ lead, isJsWhiteSpace c = true) ∧
      (∀ c ∈ trail, isJsWhiteSpace c = true) ∧
      s.toList = lead ++ (trim s).toList ++ trail := by
  refine ⟨s.toList.takeWhile isJsWhiteSpace,
    ((s.toList.dropWhile isJsWhiteSpace).reverse.takeWhile isJsWhiteSpace).reverse,
    fun c hc => List.mem_takeWhile_imp hc,
    fun c hc => List.mem_takeWhile_imp (List.mem_reverse.mp hc), ?_⟩
  rw [trim_toList, List.rdropWhile, List.append_assoc, ← List.reverse_append,
    List.takeWhile_append_dropWhile, List.reverse_reverse, List.takeWhile_append_dropWhile]

theorem takeWhile_isDigit_append (l trail : List Char)
    (h : ∀ c ∈ trail, isJsWhiteSpace c = true) :
    (l ++ trail).takeWhile Char.isDigit = l.takeWhile Char.isDigit := by
  induction l with
  | nil =>
    cases trail with
    | nil => rfl
    | cons a rest =>
      have := not_digit_of_whiteSpace a (h a (List.mem_cons_self _ _))
      simp [List.takeWhile_cons, this]
  | cons a l ih =>
    simp only [List.cons_append, List.takeWhile_cons, ih]

theorem digitsValue_pos_ne_nil (digits : List Char) (h : digitsValue digits ≠ 0) :
    digits ≠ [] := by
  intro hd
  subst hd
  exact h rfl

/-- The count as a closed form of the trimmed text: the value of the digits
at its start, after an optional sign, negated for a minus sign. -/
theorem parseBillCount_eq (text : String) :
    parseBillCount text =
      match (trim text).toList with
      | [] => 0
      | c :: rest =>
        if c = '-' then -(digitsValue (rest.takeWhile Char.isDigit) : Int)
        else if c = '+' then (digitsValue (rest.takeWhile Char.isDigit) : Int)
        else (digitsValue ((c :: rest).takeWhile Char.isDigit) : Int) := by
  have hdigits : ∀ (l : List Char) (negative : Bool),
      (match parseIntDigits l negative with
        | some n => if n ≠ 0 then n else 0
        | none => 0) =
      if negative then -(digitsValue (l.takeWhile Char.isDigit) : Int)
      else (digitsValue (l.takeWhile Char.isDigit) : Int) := by
    intro l negative
    unfold parseIntDigits
    cases hl : l.takeWhile Char.isDigit with
    | nil => cases negative <;> simp [digitsValue]
    | cons a rest =>
      cases negative
      · by_cases hz : (digitsValue (a :: rest) : Int) = 0 <;> simp [hz]
      · by_cases hz : (digitsValue (a :: rest) : Int) = 0 <;> simp [hz]
  unfold parseBillCount parseInt
  cases ht : (trim text).toList with
  | nil =>
    simp only [List.dropWhile_nil]
    have := hdigits [] false
    simpa [digitsValue] using this
  | cons c rest =>
    have hc := trim_head text c rest ht
    simp only [List.dropWhile_cons, hc, Bool.false_eq_true, if_false]
    by_cases h1 : c = '-'
    · simp only [h1, if_true]
      have := hdigits rest true
      simpa using this
    · by_cases h2 : c = '+'
      · simp only [h1, h2, if_false, if_true]
        have := hdigits rest false
        simpa using this
      · simp only [h1, h2, if_false]
        have := hdigits (c :: rest) false
        simpa using this

theorem mem_trim (text : String) (c : Char) (h : c ∈ (trim text).toList) :
    c ∈ text.toList := by
  obtain ⟨lead, trail, _, _, hd⟩ := trim_decomp text
  rw [hd]
  exact List.mem_append_left _ (List.mem_append_right _ h)

theorem firstDigitRun_of_trim (text : String) (skipped digits : List Char)
    (hskip : ∀ c ∈ skipped, c.isDigit = false)
    (hstart : ∃ d rest, digits = d :: rest ∧ d.isDigit = true)
    (ht : (trim text).toList = skipped ++ digits) :
    firstDigitRun text = (digitsValue (digits.takeWhile Char.isDigit) : Int) := by
  obtain ⟨lead, trail, hlead, htrail, hd⟩ := trim_decomp text
  obtain ⟨d, rest, rfl, hdig⟩ := hstart
  unfold firstDigitRun
  rw [hd, ht]
  have h1 : ∀ a ∈ lead ++ skipped, (fun c : Char => !c.isDigit) a = true := by
    intro a ha
    rcases List.mem_append.mp ha with ha | ha
    · simp [not_digit_of_whiteSpace a (hlead a ha)]
    · simp [hskip a ha]
  have h2 : lead ++ (skipped ++ d :: rest) ++ trail =
      (lead ++ skipped) ++ (d :: (rest ++ trail)) := by simp
  rw [h2, List.dropWhile_append_of_pos h1, List.dropWhile_cons_of_neg (by simp [hdig])]
  have h3 : d :: (rest ++ trail) = (d :: rest) ++ trail := rfl
  rw [h3, takeWhile_isDigit_append _ _ htrail]

/-- C18 as stated fails: when the signed-bills statistic reads "-5" the probe
run succeeds and the function returns -5, a negative number other than the
sentinel; when it reads "-1" the sentinel value comes back from a successful
run. -/
theorem negative_count_from_page :
    getCurrentBillCount (.handled [signedStat "-5"]) = -5 ∧
    getCurrentBillCount (.handled [signedStat "-1"]) = -1 := by
  constructor <;> decide

/-- C18, amended: a probe run that rejects gives the sentinel -1; a run that
resolves gives the integer parsed from the selected statistic text, which is
negative only when the trimmed text starts with a minus sign followed by a
digit, and in particular is non-negative whenever that text has no minus
sign.  The function is total: it never throws. -/
theorem getCurrentBillCount_sign (run : ProbeRun) :
    (∀ e, getCurrentBillCount (.crashed e) = -1) ∧
    (getCurrentBillCount run < 0 →
      (∃ e, run = .crashed e) ∨
      ∃ stats c rest, run = .handled stats ∧
        (trim (billCountText stats)).toList = '-' :: c :: rest ∧ c.isDigit = true) ∧
    ((∀ e, run ≠ .crashed e) →
      (∀ stats, run = .handled stats → '-' ∉ (billCountText stats).toList) →
      0 ≤ getCurrentBillCount run) := by
  have hneg : getCurrentBillCount run < 0 →
      (∃ e, run = .crashed e) ∨
      ∃ stats c rest, run = .handled stats ∧
        (trim (billCountText stats)).toList = '-' :: c :: rest ∧ c.isDigit = true := by
    intro h
    cases run with
    | crashed e => exact Or.inl ⟨e, rfl⟩
    | notHandled => simp [getCurrentBillCount] at h
    | handled stats =>
      right
      unfold getCurrentBillCount at h
      by_cases hs : stats.isEmpty = true
      · simp [hs] at h
      · simp only [hs, Bool.false_eq_true, if_false] at h
        have hform := parseBillCount_eq (billCountText stats)
        cases ht : (trim (billCountText stats)).toList with
        | nil =>
          rw [ht] at hform
          rw [hform] at h
          exact absurd h (by decide)
        | cons c rest =>
          rw [ht] at hform
          rw [hform] at h
          by_cases h1 : c = '-'
          · subst h1
            simp only [if_true] at h
            have hne : rest.takeWhile Char.isDigit ≠ [] := by
              apply digitsValue_pos_ne_nil
              intro hz
              rw [hz] at h
              simp at h
            cases rest with
            | nil => simp at hne
            | cons d rest' =>
              refine ⟨stats, d, rest', rfl, ht, ?_⟩
              cases hd : d.isDigit with
              | true => rfl
              | false => simp [List.takeWhile_cons, hd] at hne
          · exfalso
            simp only [h1, if_false] at h
            by_cases h2 : c = '+'
            · simp only [h2, if_true] at h
              exact absurd h (not_lt.mpr (Int.natCast_nonneg _))
            · simp only [h2, if_false] at h
              exact absurd h (not_lt.mpr (Int.natCast_nonneg _))
  refine ⟨fun _ => rfl, hneg, ?_⟩
  intro hcrash hminus
  by_contra hlt
  rcases hneg (not_le.mp hlt) with ⟨e, he⟩ | ⟨stats, c, rest, hr, ht, _⟩
  · exact hcrash e he
  · apply hminus stats hr
    apply mem_trim
    rw [ht]
    exact List.mem_cons_self _ _

/-- Witness for C18: the statistic reads "89". -/
theorem getCurrentBillCount_sign_witness :
    0 ≤ getCurrentBillCount (.handled [signedStat "89"]) :=
  (getCurrentBillCount_sign (.handled [signedStat "89"])).2.2
    (by intro e h; cases h)
    (by
      intro stats h
      cases h
      decide)

/-- C20 as stated fails: for the text "Bills: 89" the first run of digits
denotes 89 but the count is 0, because `parseInt` only reads digits at the
start; for "-5" the first run of digits denotes 5 but the count is -5. -/
theorem digits_not_at_start_give_zero :
    firstDigitRun "Bills: 89" = 89 ∧ parseBillCount "Bills: 89" = 0 ∧
    getCurrentBillCount (.handled [signedStat "Bills: 89"]) = 0 ∧
    firstDigitRun "-5" = 5 ∧ parseBillCount "-5" = -5 := by
  refine ⟨?_, ?_, ?_, ?_, ?_⟩ <;> decide

/-- C20, amended: for a text whose first run of digits denotes an integer of
magnitude at most 2^53, the count is the integer denoted by the run of decimal
digits at the start of the trimmed text, after an optional sign: it is the
first run of digits of the text when the trimmed text starts with a digit or
with a plus sign and a digit, and its negation when the trimmed text starts
with a minus sign and a digit.  For every text the count is the fallback 0 in
every other case, in particular when the text has no digit. -/
theorem parseBillCount_leading_digits (text : String) :
    (isExactNumber (firstDigitRun text) = true →
      ∀ c rest, (trim text).toList = c :: rest → c.isDigit = true →
        parseBillCount text = firstDigitRun text) ∧
    (isExactNumber (firstDigitRun text) = true →
      ∀ c rest, (trim text).toList = '-' :: c :: rest → c.isDigit = true →
        parseBillCount text = -firstDigitRun text) ∧
    (isExactNumber (firstDigitRun text) = true →
      ∀ c rest, (trim text).toList = '+' :: c :: rest → c.isDigit = true →
        parseBillCount text = firstDigitRun text) ∧
    ((∀ c rest, (trim text).toList = c :: rest → c.isDigit = false ∧
        (c = '-' ∨ c = '+' → ∀ d rest', rest = d :: rest' → d.isDigit = false)) →
      parseBillCount text = 0) ∧
    ((∀ c ∈ text.toList, c.isDigit = false) →
      parseBillCount text = 0 ∧ firstDigitRun text = 0) ∧
    (∀ stats : List StatElement, stats ≠ [] →
      getCurrentBillCount (.handled stats) = parseBillCount (billCountText stats)) := by
  have hminus : ('-' : Char).isDigit = false := by decide
  have hplus : ('+' : Char).isDigit = false := by decide
  have hother : (∀ c rest, (trim text).toList = c :: rest → c.isDigit = false ∧
        (c = '-' ∨ c = '+' → ∀ d rest', rest = d :: rest' → d.isDigit = false)) →
      parseBillCount text = 0 := by
    intro h
    rw [parseBillCount_eq]
    cases ht : (trim text).toList with
    | nil => rfl
    | cons c rest =>
      obtain ⟨hc, hsign⟩ := h c rest ht
      have hrest : c = '-' ∨ c = '+' → rest.takeWhile Char.isDigit = [] := by
        intro hs
        cases rest with
        | nil => rfl
        | cons d rest' => simp [List.takeWhile_cons, hsign hs d rest' rfl]
      by_cases h1 : c = '-'
      · simp [h1, hrest (Or.inl h1), digitsValue]
      · by_cases h2 : c = '+'
        · simp [h2, hrest (Or.inr h2), digitsValue]
        · simp [h1, h2, List.takeWhile_cons, hc, digitsValue]
  refine ⟨?_, ?_, ?_, hother, ?_, ?_⟩
  · intro _ c rest ht hc
    have h1 : c ≠ '-' := by intro h; rw [h, hminus] at hc; cases hc
    have h2 : c ≠ '+' := by intro h; rw [h, hplus] at hc; cases hc
    rw [parseBillCount_eq, ht,
      firstDigitRun_of_trim text [] (c :: rest) (by simp) ⟨c, rest, rfl, hc⟩ (by simpa using ht)]
    simp [h1, h2]
  · intro _ c rest ht hc
    rw [parseBillCount_eq, ht,
      firstDigitRun_of_trim text ['-'] (c :: rest) (by simp [hminus]) ⟨c, rest, rfl, hc⟩
        (by simpa using ht)]
    simp
  · intro _ c rest ht hc
    rw [parseBillCount_eq, ht,
      firstDigitRun_of_trim text ['+'] (c :: rest) (by simp [hplus]) ⟨c, rest, rfl, hc⟩
        (by simpa using ht)]
    simp
  · intro h
    constructor
    · apply hother
      intro c rest ht
      have hmem : ∀ x ∈ (trim text).toList, x.isDigit = false :=
        fun x hx => h x (mem_trim text x hx)
      rw [ht] at hmem
      refine ⟨hmem c (List.mem_cons_self _ _), ?_⟩
      intro _ d rest' hr
      exact hmem d (by rw [hr]; simp)
    · unfold firstDigitRun
      have hd : (text.toList.dropWhile fun c => !c.isDigit) = [] := by
        rw [List.dropWhile_eq_nil_iff]
        intro x hx
        simp [h x hx]
      rw [hd]
      rfl
  · intro stats hs
    unfold getCurrentBillCount
    cases stats with
    | nil => exact absurd rfl hs
    | cons e rest => simp

/-- Witness for C20: the text " 89 Bills" starts with digits once trimmed. -/
theorem parseBillCount_leading_digits_witness :
    parseBillCount " 89 Bills" = firstDigitRun " 89 Bills" :=
  (parseBillCount_leading_digits " 89 Bills").1 (by decide)
    '8' ['9', ' ', 'B', 'i', 'l', 'l', 's'] (by decide) (by decide)

/-! ## Probes of the stand-alone scripts and of main.ts -/

theorem matchDigits_none_of_no_digit (text : String)
    (h : ∀ c ∈ text.toList, c.isDigit = false) : matchDigits text = none := by
  unfold matchDigits
  have hd : (text.toList.dropWhile fun c => !c.isDigit) = [] := by
    rw [List.dropWhile_eq_nil_iff]
    intro x hx
    simp [h x hx]
  rw [hd]
  rfl

theorem matchDigits_firstText_none (text : String) (rest : List String)
    (h : ∀ c ∈ text.toList, c.isDigit = false) :
    matchDigits (firstText (text :: rest)) = none := by
  apply matchDigits_none_of_no_digit
  intro c hc
  exact h c (mem_trim text c hc)

/-- C21: when the fetch throws, when no statistic element is selected, or when
the text of the first one has no digit, `getBillCountFromWebsite` returns 0 in
check-bill-count.ts and utils/check-scrape-needed.js and 89 in
check-bill-count.js; the three functions are total, so none of them throws. -/
theorem getBillCountFromWebsite_fallbacks (fetch : WebsiteFetch)
    (h : (∃ e, fetch = .failed e) ∨ fetch = .loaded [] ∨
      ∃ text rest, fetch = .loaded (text :: rest) ∧ ∀ c ∈ text.toList, c.isDigit = false) :
    CheckBillCountTs.getBillCountFromWebsite fetch = 0 ∧
    CheckScrapeNeeded.getBillCountFromWebsite fetch = 0 ∧
    CheckBillCountJs.getBillCountFromWebsite fetch = 89 := by
  rcases h with ⟨e, rfl⟩ | rfl | ⟨text, rest, rfl, hno⟩
  · exact ⟨rfl, rfl, rfl⟩
  · refine ⟨?_, ?_, ?_⟩ <;> decide
  · have hm := matchDigits_firstText_none text rest hno
    refine ⟨?_, ?_, ?_⟩
    · simp [CheckBillCountTs.getBillCountFromWebsite, hm]
    · simp [CheckScrapeNeeded.getBillCountFromWebsite, hm]
    · simp [CheckBillCountJs.getBillCountFromWebsite, hm]

/-- Witness for C21: the first statistic reads "Bills Signed into Law". -/
theorem getBillCountFromWebsite_fallbacks_witness :
    CheckBillCountTs.getBillCountFromWebsite (.loaded ["Bills Signed into Law"]) = 0 ∧
    CheckScrapeNeeded.getBillCountFromWebsite (.loaded ["Bills Signed into Law"]) = 0 ∧
    CheckBillCountJs.getBillCountFromWebsite (.loaded ["Bills Signed into Law"]) = 89 :=
  getBillCountFromWebsite_fallbacks (.loaded ["Bills Signed into Law"])
    (Or.inr (Or.inr ⟨"Bills Signed into Law", [], rfl, by decide⟩))

theorem find?_index_name (names : List String) (target : String) :
    (names.find? (fun name => name == target) = none ↔ target ∉ names) ∧
    (target ∈ names → ∃ x, names.find? (fun name => name == target) = some x) := by
  have h1 : names.find? (fun name => name == target) = none ↔ target ∉ names := by
    rw [List.find?_eq_none]
    constructor
    · intro h hm
      exact h target hm (by simp)
    · intro h x hx hxe
      have : x = target := by simpa using hxe
      exact h (this ▸ hx)
  refine ⟨h1, ?_⟩
  intro hm
  cases hf : names.find? (fun name => name == target) with
  | none => exact absurd hm (h1.mp hf)
  | some x => exact ⟨x, rfl⟩

/-- C22: `getPineconeRecordCount` returns 0 when no listed index is named
"bill-tracker", the `totalRecordCount` of the statistics when the index exists
and the field is present, 0 when the field is absent, and 0 when listing the
indexes or fetching the statistics throws; the function is total. -/
theorem getPineconeRecordCount_cases (store : Store) :
    (∀ indexList, store.listIndexes = .ok indexList → INDEX_NAME ∉ indexList.getD [] →
      getPineconeRecordCount store = 0) ∧
    (∀ indexList stats n, store.listIndexes = .ok indexList →
      INDEX_NAME ∈ indexList.getD [] → store.describeIndexStats = .ok stats →
      stats.totalRecordCount = some n → getPineconeRecordCount store = n) ∧
    (∀ indexList stats, store.listIndexes = .ok indexList →
      INDEX_NAME ∈ indexList.getD [] → store.describeIndexStats = .ok stats →
      stats.totalRecordCount = none → getPineconeRecordCount store = 0) ∧
    (∀ e, store.listIndexes = .error e → getPineconeRecordCount store = 0) ∧
    (∀ e, store.describeIndexStats = .error e → getPineconeRecordCount store = 0) := by
  refine ⟨?_, ?_, ?_, ?_, ?_⟩
  · intro indexList hl hn
    have := (find?_index_name (indexList.getD []) INDEX_NAME).1.mpr hn
    simp [getPineconeRecordCount, hl, this]
  · intro indexList stats n hl hm hs hn
    obtain ⟨x, hx⟩ := (find?_index_name (indexList.getD []) INDEX_NAME).2 hm
    by_cases hz : n = 0
    · simp [getPineconeRecordCount, hl, hx, hs, hn, hz]
    · simp [getPineconeRecordCount, hl, hx, hs, hn, hz]
  · intro indexList stats hl hm hs hn
    obtain ⟨x, hx⟩ := (find?_index_name (indexList.getD []) INDEX_NAME).2 hm
    simp [getPineconeRecordCount, hl, hx, hs, hn]
  · intro e hl
    simp [getPineconeRecordCount, hl]
  · intro e hs
    unfold getPineconeRecordCount
    cases hl : store.listIndexes with
    | error e' => rfl
    | ok indexList =>
      simp only
      cases hf : (indexList.getD []).find? (fun name => name == INDEX_NAME) with
      | none => rfl
      | some x => simp [hs]

/-- Witness for C22: an index holding 80 records. -/
theorem getPineconeRecordCount_cases_witness : getPineconeRecordCount (storeWith 80) = 80 :=
  (getPineconeRecordCount_cases (storeWith 80)).2.1 (some ["bill-tracker"])
    { totalRecordCount := some 80 } 80 rfl (by decide) rfl rfl

/-- C23: `preventReupload` returns false exactly when the index "bill-tracker"
is listed, its statistics are retrieved, the state file is written without
error and `totalRecordCount` is greater than 0; in every other case it returns
true; it is total.  A destination count of 80 gives false: upload not needed. -/
theorem preventReupload_false_iff (store : Store) (saveOk : Bool) :
    (preventReupload store saveOk = false ↔
      ∃ indexList stats n, store.listIndexes = .ok indexList ∧
        INDEX_NAME ∈ indexList.getD [] ∧ store.describeIndexStats = .ok stats ∧
        saveOk = true ∧ stats.totalRecordCount = some n ∧ n > 0) ∧
    ((¬ ∃ indexList stats n, store.listIndexes = .ok indexList ∧
        INDEX_NAME ∈ indexList.getD [] ∧ store.describeIndexStats = .ok stats ∧
        saveOk = true ∧ stats.totalRecordCount = some n ∧ n > 0) →
      preventReupload store saveOk = true) ∧
    preventReupload (storeWith 80) true = false := by
  have hiff : preventReupload store saveOk = false ↔
      ∃ indexList stats n, store.listIndexes = .ok indexList ∧
        INDEX_NAME ∈ indexList.getD [] ∧ store.describeIndexStats = .ok stats ∧
        saveOk = true ∧ stats.totalRecordCount = some n ∧ n > 0 := by
    unfold preventReupload
    cases hl : store.listIndexes with
    | error e => simp
    | ok indexList =>
      simp only
      by_cases hm : INDEX_NAME ∈ indexList.getD []
      · obtain ⟨x, hx⟩ := (find?_index_name (indexList.getD []) INDEX_NAME).2 hm
        rw [hx]
        simp only
        cases hs : store.describeIndexStats with
        | error e => simp
        | ok stats =>
          simp only
          cases saveOk with
          | false => simp
          | true =>
            cases hn : stats.totalRecordCount with
            | none => simp [hn]
            | some n =>
              by_cases hp : n > 0
              · simp [hn, hp, hm]
              · simp [hn, hp]
      · have hx := (find?_index_name (indexList.getD []) INDEX_NAME).1.mpr hm
        rw [hx]
        simp only
        constructor
        · intro h; cases h
        · rintro ⟨il, _, _, hil, hmem, _⟩
          have h1 : il = indexList := (Except.ok.inj hil).symm
          subst h1
          exact absurd hmem hm
  refine ⟨hiff, ?_, by decide⟩
  intro hnot
  cases hp : preventReupload store saveOk with
  | true => rfl
  | false => exact absurd (hiff.mp hp) hnot

/-- Witness for C23: nothing listed, so the upload is needed. -/
theorem preventReupload_false_iff_witness : preventReupload storeNoIndex true = true :=
  (preventReupload_false_iff storeNoIndex true).2.1
    (by
      rintro ⟨il, _, _, hil, hmem, _⟩
      have h1 : il = some [] := (Except.ok.inj hil).symm
      subst h1
      simp at hmem)

/-- C24, evaluated on the code: when the website fetch throws and the index
holds 80 records the result is `needsScraping = false` with a website count of
0; when the website shows 0 bills and the Pinecone probe throws the result is
`needsScraping = false` as well.  The `catch` that answers true is never
entered, because both probes turn their own failures into the count 0. -/
theorem checkIfScrapingNeeded_false_on_failure :
    CheckScrapeNeeded.checkIfScrapingNeeded (.failed "ECONNRESET") (storeWith 80) =
      { needsScraping := false, websiteCount := 0, pineconeCount := 80, error := none } ∧
    (CheckScrapeNeeded.checkIfScrapingNeeded (.loaded ["0"]) storeDown).needsScraping = false ∧
    (CheckScrapeNeeded.checkIfScrapingNeeded (.failed "ECONNRESET") storeDown).needsScraping =
      false := by
  refine ⟨?_, ?_, ?_⟩ <;> decide

/-- C26: `getPreviousBillCount` returns -1 when the sync state file is absent
and when its content cannot be read or parsed as JSON (also when it parses to
`null`); the function is total, so it never throws. -/
theorem getPreviousBillCount_sentinel :
    getPreviousBillCount none = Json.num (-1) ∧
    getPreviousBillCount (some none) = Json.num (-1) ∧
    getPreviousBillCount (some (some Json.null)) = Json.num (-1) :=
  ⟨rfl, rfl, rfl⟩

/-- C27: the crawl decision of `runCrawler` depends only on the source count,
the destination count and the force flag: two runs that agree on the three
take the same decision whatever the persisted sync state and the previous
bill count read from it. -/
theorem crawl_decision_ignores_sync_state (input input' : Input) (env env' : Env)
    (hs : env.currentBillCount = env'.currentBillCount)
    (hd : env.pineconeRecordCount = env'.pineconeRecordCount)
    (hf : input.forceRun = input'.forceRun) :
    crawled (runCrawler input env) = crawled (runCrawler input' env') ∧
    shouldRun input.forceRun env.currentBillCount env.pineconeRecordCount =
      shouldRun input'.forceRun env'.currentBillCount env'.pineconeRecordCount ∧
    (∀ file : Option StoredFile,
      crawled (runCrawler input { env with billMetadata := file }) =
        crawled (runCrawler input env)) := by
  refine ⟨?_, ?_, ?_⟩
  · rw [runCrawler_crawled_eq, runCrawler_crawled_eq, hs, hd]
  · rw [hs, hd, hf]
  · intro file
    rw [runCrawler_crawled_eq, runCrawler_crawled_eq]

/-- Witness for C27: 89 bills against 80 records, with no sync state and with
a sync state recording 7. -/
theorem crawl_decision_ignores_sync_state_witness :
    crawled (runCrawler {} (sampleEnv 89 80 none)) =
      crawled (runCrawler {} (sampleEnv 89 80 (syncFile 7))) :=
  (crawl_decision_ignores_sync_state {} {} (sampleEnv 89 80 none)
    (sampleEnv 89 80 (syncFile 7)) rfl rfl rfl).1

/-- C30: after `saveBillCount(n)` with `n` non-zero `getPreviousBillCount`
returns `n`; after `saveBillCount(0)` it returns -1, the value it returns when
there is no sync state file at all. -/
theorem saveBillCount_then_getPreviousBillCount (now : String) (n : Int) (st : RunState) :
    (n ≠ 0 → getPreviousBillCount (saveBillCount now n st).billMetadata = Json.num n) ∧
    getPreviousBillCount (saveBillCount now 0 st).billMetadata = Json.num (-1) ∧
    getPreviousBillCount (saveBillCount now 0 st).billMetadata = getPreviousBillCount none := by
  refine ⟨?_, rfl, rfl⟩
  intro hn
  simp [saveBillCount, getPreviousBillCount, Json.field, List.lookup, Json.truthy, hn]

/-- Witness for C30: the count 89 is read back. -/
theorem saveBillCount_then_getPreviousBillCount_witness :
    getPreviousBillCount
      (saveBillCount "2025-06-01T00:00:00.000Z" 89
        { effects := [], billMetadata := none, rejected := false }).billMetadata =
      Json.num 89 :=
  (saveBillCount_then_getPreviousBillCount "2025-06-01T00:00:00.000Z" 89
    { effects := [], billMetadata := none, rejected := false }).1 (by decide)

/-! ## main-with-check.js -/

theorem checkShouldRun_eq (f : Bool) (s : Int) (c : Nat) :
    MainWithCheck.shouldRun f s c = (f || decide (s = -1) || decide (s > (c : Int))) := by
  unfold MainWithCheck.shouldRun
  by_cases h1 : s = -1
  · simp [Id.run, h1]
  · by_cases h2 : s > (c : Int)
    · simp [Id.run, h1, h2]
    · simp [Id.run, h1, h2]

theorem checkUploadStep_effects (input : MainWithCheck.Input)
    (env : MainWithCheck.Env) (st : MainWithCheck.RunState) (p : MainWithCheck.Effect → Bool)
    (hc : p .isPineconeUploadNeeded = false) (hu : ∀ items, p (.uploadDatasetToPinecone items) = false) :
    (MainWithCheck.uploadStep input env st).effects.any p = st.effects.any p ∧
    (MainWithCheck.uploadStep input env st).datasetMetadata = st.datasetMetadata := by
  unfold MainWithCheck.uploadStep
  cases input.skipPineconeUpload with
  | true => simp
  | false =>
    simp only [Bool.false_eq_true, if_false]
    by_cases hn :
        (MainWithCheck.isPineconeUploadNeeded env.apiKey env.store || input.forceRun) = true
    · simp only [hn, if_true]
      cases env.datasetItems with
      | error e => simp [List.any_append, hc]
      | ok items =>
        simp only
        cases env.upload items <;> simp [List.any_append, hc, hu]
    · simp only [hn, if_false]
      simp [List.any_append, hc]

theorem checkUploadStep_skip (input : MainWithCheck.Input)
    (env : MainWithCheck.Env) (st : MainWithCheck.RunState)
    (h : input.skipPineconeUpload = true) : MainWithCheck.uploadStep input env st = st := by
  simp [MainWithCheck.uploadStep, h]

theorem checkFinish_effects (input : MainWithCheck.Input)
    (st : MainWithCheck.RunState) (p : MainWithCheck.Effect → Bool)
    (hs : p .setupRagServer = false) (he : p .actorExit = false) :
    (MainWithCheck.finish input st).effects.any p = st.effects.any p ∧
    (MainWithCheck.finish input st).datasetMetadata = st.datasetMetadata := by
  unfold MainWithCheck.finish
  split
  · exact ⟨rfl, rfl⟩
  · split <;> simp [List.any_append, hs, he]

/-- C25: in main-with-check.js, when `skipPineconeUpload` is true neither
`isPineconeUploadNeeded` nor `uploadDatasetToPinecone` is called, whatever the
source count, the dataset directory, the store and `forceRun` are. -/
theorem skipPineconeUpload_bypasses_upload (input : MainWithCheck.Input)
    (env : MainWithCheck.Env) (h : input.skipPineconeUpload = true) :
    MainWithCheck.uploadChecked (MainWithCheck.runCrawler input env) = false ∧
    MainWithCheck.uploadAttempted (MainWithCheck.runCrawler input env) = false := by
  unfold MainWithCheck.uploadChecked MainWithCheck.uploadAttempted MainWithCheck.runCrawler
  simp only [checkUploadStep_skip _ _ _ h]
  split
  · rw [(checkFinish_effects _ _ MainWithCheck.Effect.isUploadCheck rfl rfl).1,
      (checkFinish_effects _ _ MainWithCheck.Effect.isUpload rfl rfl).1]
    exact ⟨rfl, rfl⟩
  · split
    · exact ⟨rfl, rfl⟩
    · rw [(checkFinish_effects _ _ MainWithCheck.Effect.isUploadCheck rfl rfl).1,
        (checkFinish_effects _ _ MainWithCheck.Effect.isUpload rfl rfl).1]
      exact ⟨rfl, rfl⟩

/-- Witness for C25: a forced run against an empty store with the upload
skipped. -/
theorem skipPineconeUpload_bypasses_upload_witness :
    MainWithCheck.uploadChecked
      (MainWithCheck.runCrawler skipUploadInput (checkEnv 89 (some []))) = false ∧
    MainWithCheck.uploadAttempted
      (MainWithCheck.runCrawler skipUploadInput (checkEnv 89 (some []))) = false :=
  skipPineconeUpload_bypasses_upload skipUploadInput (checkEnv 89 (some [])) rfl

/-- C28: in main-with-check.js the crawl runs exactly when `forceRun` is true,
or the source count is the error sentinel -1, or the source count exceeds the
number of dataset files; when the crawl does not run `saveFileCount` is not
called and the metadata file is what it was. -/
theorem check_crawl_iff (input : MainWithCheck.Input) (env : MainWithCheck.Env) :
    (MainWithCheck.crawled (MainWithCheck.runCrawler input env) = true ↔
      input.forceRun = true ∨ env.currentBillCount = -1 ∨
        env.currentBillCount > (MainWithCheck.countDatasetFiles env.datasetDir : Int)) ∧
    (MainWithCheck.crawled (MainWithCheck.runCrawler input env) = false →
      MainWithCheck.fileCountSaved (MainWithCheck.runCrawler input env) = false ∧
      (MainWithCheck.runCrawler input env).datasetMetadata = env.datasetMetadata) := by
  have hrun : MainWithCheck.crawled (MainWithCheck.runCrawler input env) =
      MainWithCheck.shouldRun input.forceRun env.currentBillCount
        (MainWithCheck.countDatasetFiles env.datasetDir) := by
    unfold MainWithCheck.crawled MainWithCheck.runCrawler
    cases hsr : MainWithCheck.shouldRun input.forceRun env.currentBillCount
        (MainWithCheck.countDatasetFiles env.datasetDir) with
    | false =>
      simp only [hsr, Bool.not_false, if_true]
      rw [(checkFinish_effects _ _ MainWithCheck.Effect.isCrawl rfl rfl).1,
        (checkUploadStep_effects _ _ _ MainWithCheck.Effect.isCrawl rfl
          (fun _ => rfl)).1]
      rfl
    | true =>
      simp only [hsr, Bool.not_true, Bool.false_eq_true, if_false]
      split
      · simp [List.any_append, MainWithCheck.Effect.isCrawl]
      · rw [(checkFinish_effects _ _ MainWithCheck.Effect.isCrawl rfl rfl).1,
          (checkUploadStep_effects _ _ _ MainWithCheck.Effect.isCrawl rfl
            (fun _ => rfl)).1]
        simp [MainWithCheck.saveFileCount, List.any_append, MainWithCheck.Effect.isCrawl]
  refine ⟨?_, ?_⟩
  · rw [hrun, checkShouldRun_eq]
    simp [or_assoc]
  · intro hno
    rw [hrun] at hno
    unfold MainWithCheck.fileCountSaved MainWithCheck.runCrawler
    simp only [hno, Bool.not_false, if_true]
    rw [(checkFinish_effects _ _ MainWithCheck.Effect.isSave rfl rfl).1,
      (checkFinish_effects _ _ MainWithCheck.Effect.isSave rfl rfl).2,
      (checkUploadStep_effects _ _ _ MainWithCheck.Effect.isSave rfl
        (fun _ => rfl)).1,
      (checkUploadStep_effects _ _ _ MainWithCheck.Effect.isSave rfl
        (fun _ => rfl)).2]
    exact ⟨rfl, rfl⟩

/-- Witness for C28: 2 bills on the site and 2 files in the dataset. -/
theorem check_crawl_iff_witness :
    MainWithCheck.fileCountSaved
      (MainWithCheck.runCrawler {} (checkEnv 2 (some ["a.json", "b.json"]))) = false ∧
    (MainWithCheck.runCrawler {} (checkEnv 2 (some ["a.json", "b.json"]))).datasetMetadata =
      (checkEnv 2 (some ["a.json", "b.json"])).datasetMetadata :=
  (check_crawl_iff {} (checkEnv 2 (some ["a.json", "b.json"]))).2 (by decide)

/-! ## backup-dataset.js -/

theorem backupFile_of_copy (copyTime : String → Int) (st : BackupRun)
    (entry : Sigma fun _ : String => FileEntry)
    (h : shouldCopy st.backup entry.1 entry.2 = true) :
    backupFile copyTime st entry =
      { backup := st.backup.insert entry.1
          { mtime := copyTime entry.1, content := entry.2.content },
        copied := st.copied ++ [entry.1] } := by
  simp [backupFile, h]

theorem backupFile_of_keep (copyTime : String → Int) (st : BackupRun)
    (entry : Sigma fun _ : String => FileEntry)
    (h : shouldCopy st.backup entry.1 entry.2 = false) :
    backupFile copyTime st entry = st := by
  simp [backupFile, h]

theorem backupFile_lookup_ne (copyTime : String → Int) (st : BackupRun)
    (entry : Sigma fun _ : String => FileEntry) (name : String) (h : name ≠ entry.1) :
    (backupFile copyTime st entry).backup.lookup name = st.backup.lookup name := by
  cases hcp : shouldCopy st.backup entry.1 entry.2 with
  | true =>
    rw [backupFile_of_copy copyTime st entry hcp]
    exact AList.lookup_insert_ne h
  | false => rw [backupFile_of_keep copyTime st entry hcp]

theorem shouldCopy_congr (b b' : Directory) (name : String) (source : FileEntry)
    (h : b'.lookup name = b.lookup name) : shouldCopy b' name source = shouldCopy b name source := by
  unfold shouldCopy
  rw [h]

theorem foldl_backupFile (copyTime : String → Int) :
    ∀ (files : List (Sigma fun _ : String => FileEntry)), files.NodupKeys →
    ∀ (st : BackupRun),
      (∀ name, name ∈ (files.foldl (backupFile copyTime) st).copied ↔
        name ∈ st.copied ∨ ∃ source, (⟨name, source⟩ : Sigma fun _ : String => FileEntry) ∈ files ∧
          shouldCopy st.backup name source = true) ∧
      (∀ name source, (⟨name, source⟩ : Sigma fun _ : String => FileEntry) ∈ files →
        shouldCopy st.backup name source = true →
        (files.foldl (backupFile copyTime) st).backup.lookup name =
          some { mtime := copyTime name, content := source.content }) ∧
      (∀ name, (¬ ∃ source, (⟨name, source⟩ : Sigma fun _ : String => FileEntry) ∈ files ∧
          shouldCopy st.backup name source = true) →
        (files.foldl (backupFile copyTime) st).backup.lookup name = st.backup.lookup name) := by
  intro files
  induction files with
  | nil =>
    intro _ st
    simp
  | cons e t ih =>
    intro hnd st
    rw [List.nodupKeys_cons] at hnd
    obtain ⟨hnot, ht⟩ := hnd
    obtain ⟨ih1, ih2, ih3⟩ := ih ht (backupFile copyTime st e)
    have hne : ∀ name source, (⟨name, source⟩ : Sigma fun _ : String => FileEntry) ∈ t →
        name ≠ e.1 := by
      intro name source hm heq
      apply hnot
      rw [← heq]
      exact List.mem_keys.mpr ⟨source, hm⟩
    have hsc : ∀ name source, (⟨name, source⟩ : Sigma fun _ : String => FileEntry) ∈ t →
        shouldCopy (backupFile copyTime st e).backup name source =
          shouldCopy st.backup name source := by
      intro name source hm
      exact shouldCopy_congr _ _ _ _ (backupFile_lookup_ne copyTime st e name (hne name source hm))
    have hself : ∀ source, (⟨e.1, source⟩ : Sigma fun _ : String => FileEntry) ∉ t := by
      intro source hm
      exact hnot (List.mem_keys.mpr ⟨source, hm⟩)
    obtain ⟨en, es⟩ := e
    simp only [List.foldl_cons]
    refine ⟨?_, ?_, ?_⟩
    · intro name
      rw [ih1 name]
      constructor
      · rintro (hc | ⟨source, hm, hs⟩)
        · cases hcp : shouldCopy st.backup en es with
          | true =>
            rw [backupFile_of_copy copyTime st ⟨en, es⟩ hcp] at hc
            rcases List.mem_append.mp hc with hc | hc
            · exact Or.inl hc
            · have hn : name = en := List.mem_singleton.mp hc
              subst hn
              exact Or.inr ⟨es, List.mem_cons_self _ _, hcp⟩
          | false =>
            rw [backupFile_of_keep copyTime st ⟨en, es⟩ hcp] at hc
            exact Or.inl hc
        · rw [hsc name source hm] at hs
          exact Or.inr ⟨source, List.mem_cons_of_mem _ hm, hs⟩
      · rintro (hc | ⟨source, hm, hs⟩)
        · left
          cases hcp : shouldCopy st.backup en es with
          | true =>
            rw [backupFile_of_copy copyTime st ⟨en, es⟩ hcp]
            exact List.mem_append_left _ hc
          | false =>
            rw [backupFile_of_keep copyTime st ⟨en, es⟩ hcp]
            exact hc
        · rcases List.mem_cons.mp hm with heq | hm
          · left
            have h1 : name = en := by cases heq; rfl
            have h2 : source = es := by cases heq; rfl
            rw [h1, h2] at hs
            rw [h1, backupFile_of_copy copyTime st ⟨en, es⟩ hs]
            exact List.mem_append_right _ (List.mem_singleton.mpr rfl)
          · right
            exact ⟨source, hm, by rw [hsc name source hm]; exact hs⟩
    · intro name source hm hs
      rcases List.mem_cons.mp hm with heq | hm
      · have h1 : name = en := by cases heq; rfl
        have h2 : source = es := by cases heq; rfl
        rw [h1, h2] at hs
        rw [h1, h2, ih3 en]
        · rw [backupFile_of_copy copyTime st ⟨en, es⟩ hs]
          exact AList.lookup_insert _
        · rintro ⟨source', hm', _⟩
          exact hself source' hm'
      · exact ih2 name source hm (by rw [hsc name source hm]; exact hs)
    · intro name hno
      rw [ih3 name]
      · by_cases hn : name = en
        · subst hn
          have hk : shouldCopy st.backup name es = false := by
            cases hcp : shouldCopy st.backup name es with
            | false => rfl
            | true => exact absurd ⟨es, List.mem_cons_self _ _, hcp⟩ hno
          rw [backupFile_of_keep copyTime st ⟨name, es⟩ hk]
        · exact backupFile_lookup_ne copyTime st ⟨en, es⟩ name hn
      · rintro ⟨source, hm, hs⟩
        apply hno
        exact ⟨source, List.mem_cons_of_mem _ hm, by rw [← hsc name source hm]; exact hs⟩

/-- C29: `backupDataset` calls `copyFileSync` on a dataset file exactly when
the backup directory has no file of that name or the dataset file is strictly
newer than the backup file; only dataset files are copied, a copied file has
the bytes of its source, every other name of the backup directory holds what
it held before, and afterwards every name of the dataset directory is a name
of the backup directory. -/
theorem backupDataset_copies_iff_missing_or_newer (copyTime : String → Int) (dataset : Directory)
    (backupDir : Option Directory) :
    (∀ name source, dataset.lookup name = some source →
      (name ∈ (backupDataset copyTime (some dataset) backupDir).copied ↔
        ((backupDir.getD ∅).lookup name = none ∨
          ∃ dest, (backupDir.getD ∅).lookup name = some dest ∧ source.mtime > dest.mtime))) ∧
    (∀ name, name ∈ (backupDataset copyTime (some dataset) backupDir).copied →
      name ∈ dataset.keys) ∧
    (∀ name source, dataset.lookup name = some source →
      name ∈ (backupDataset copyTime (some dataset) backupDir).copied →
      (backupDataset copyTime (some dataset) backupDir).backup.lookup name =
        some { mtime := copyTime name, content := source.content }) ∧
    (∀ name, name ∉ (backupDataset copyTime (some dataset) backupDir).copied →
      (backupDataset copyTime (some dataset) backupDir).backup.lookup name =
        (backupDir.getD ∅).lookup name) ∧
    (∀ name, name ∈ dataset.keys →
      name ∈ (backupDataset copyTime (some dataset) backupDir).backup.keys) := by
  have hb : (match backupDir with | none => (∅ : Directory) | some dir => dir) =
      backupDir.getD ∅ := by cases backupDir <;> rfl
  obtain ⟨h1, h2, h3⟩ := foldl_backupFile copyTime dataset.entries dataset.nodupKeys
    { backup := backupDir.getD ∅, copied := [] }
  have hrun : backupDataset copyTime (some dataset) backupDir =
      dataset.entries.foldl (backupFile copyTime) { backup := backupDir.getD ∅, copied := [] } := by
    unfold backupDataset
    simp only [hb]
  rw [hrun]
  have hmem : ∀ name source, dataset.lookup name = some source ↔
      (⟨name, source⟩ : Sigma fun _ : String => FileEntry) ∈ dataset.entries := by
    intro name source
    exact AList.mem_lookup_iff
  have hsc : ∀ name source, shouldCopy (backupDir.getD ∅) name source = true ↔
      ((backupDir.getD ∅).lookup name = none ∨
        ∃ dest, (backupDir.getD ∅).lookup name = some dest ∧ source.mtime > dest.mtime) := by
    intro name source
    unfold shouldCopy
    cases (backupDir.getD ∅).lookup name with
    | none => simp
    | some dest => simp
  have hcop : ∀ name source, dataset.lookup name = some source →
      (name ∈ (dataset.entries.foldl (backupFile copyTime)
          { backup := backupDir.getD ∅, copied := [] }).copied ↔
        shouldCopy (backupDir.getD ∅) name source = true) := by
    intro name source hl
    rw [h1 name]
    constructor
    · rintro (hc | ⟨source', hm, hs⟩)
      · cases hc
      · have := (hmem name source').mpr hm
        rw [hl] at this
        cases this
        exact hs
    · intro hs
      exact Or.inr ⟨source, (hmem name source).mp hl, hs⟩
  refine ⟨?_, ?_, ?_, ?_, ?_⟩
  · intro name source hl
    rw [hcop name source hl, hsc]
  · intro name hc
    rcases (h1 name).mp hc with hc | ⟨source, hm, _⟩
    · cases hc
    · exact List.mem_keys_of_mem hm
  · intro name source hl hc
    exact h2 name source ((hmem name source).mp hl) ((hcop name source hl).mp hc)
  · intro name hc
    apply h3
    rintro ⟨source, hm, hs⟩
    exact hc ((h1 name).mpr (Or.inr ⟨source, hm, hs⟩))
  · intro name hk
    rw [← AList.mem_keys, ← AList.lookup_isSome] at hk ⊢
    obtain ⟨source, hl⟩ := Option.isSome_iff_exists.mp hk
    by_cases hc : name ∈ (dataset.entries.foldl (backupFile copyTime)
          { backup := backupDir.getD ∅, copied := [] }).copied
    · rw [h2 name source ((hmem name source).mp hl) ((hcop name source hl).mp hc)]
      rfl
    · rw [h3 name (fun ⟨source', hm, hs⟩ => hc ((h1 name).mpr (Or.inr ⟨source', hm, hs⟩)))]
      have hns : shouldCopy (backupDir.getD ∅) name source ≠ true :=
        fun hs => hc ((hcop name source hl).mpr hs)
      unfold shouldCopy at hns
      cases hlk : (backupDir.getD ∅).lookup name with
      | none => rw [hlk] at hns; exact absurd rfl hns
      | some dest => rfl

/-- Witness for C29: "a.json" is newer in the dataset, "b.json" is not,
"c.json" has no backup and "old.json" is only in the backup. -/
theorem backupDataset_copies_iff_missing_or_newer_witness :
    ("a.json" ∈ (backupDataset (fun _ => 200) (some sampleDataset) (some sampleBackup)).copied ↔
      ((Option.getD (some sampleBackup) ∅).lookup "a.json" = none ∨
        ∃ dest, (Option.getD (some sampleBackup) ∅).lookup "a.json" = some dest ∧
          (100 : Int) > dest.mtime)) ∧
    (backupDataset (fun _ => 200) (some sampleDataset) (some sampleBackup)).backup.lookup
        "old.json" = (Option.getD (some sampleBackup) ∅).lookup "old.json" ∧
    "c.json" ∈ (backupDataset (fun _ => 200) (some sampleDataset) (some sampleBackup)).backup.keys :=
  ⟨(backupDataset_copies_iff_missing_or_newer (fun _ => 200) sampleDataset
      (some sampleBackup)).1 "a.json" { mtime := 100, content := "A2" } (by decide),
   (backupDataset_copies_iff_missing_or_newer (fun _ => 200) sampleDataset
      (some sampleBackup)).2.2.2.1 "old.json" (by decide),
   (backupDataset_copies_iff_missing_or_newer (fun _ => 200) sampleDataset
      (some sampleBackup)).2.2.2.2 "c.json" (by decide)⟩

end Lexcalibur
